import Mathlib

/-!
# rrule: `parseTime` / `formatTime` (time.go)

A shallow embedding of `time.go` of the rrule package.  The file calls into Go's
`strings`, `regexp`, `fmt` and `time` packages; the parts of those packages that
`parseTime` and `formatTime` reach are modelled below, function by function, under
the namespaces `strings` and `time`.

Conventions of the embedding

* A Go `string` is a sequence of bytes.  It is modelled as `List Char`, one character
  per byte; every byte the code inspects is ASCII.
* Go's `int`, `int64` and `uint64` are modelled by `Int`.  The values that occur while
  parsing a literal (years `0000`..`9999`) stay far inside the 64-bit range, where the
  wrap-around arithmetic of `time.Date` and `Time.abs` agrees with exact arithmetic.
* A run-time panic (slice bounds out of range) is the result `none` of a function that
  returns `Option`.
* `LoadLocation` is defined elsewhere in the package (a cached zone lookup); the
  embedding takes it as a parameter.
* The `time` package is modelled as of Go 1.20-1.22 (`time/format.go`, `time/time.go`,
  `time/zoneinfo.go`).  The three layouts of `time.go` are constants; they are given
  together with the chunks `nextStdChunk` cuts them into.
-/

namespace Rrule

/-- A Go string, byte by byte. -/
abbrev GoString := List Char

/-- Go's `s[lo:hi]`: panics (`none`) unless `0 ≤ lo ≤ hi ≤ len(s)`. -/
def sliceRange (s : GoString) (lo hi : Int) : Option GoString :=
  if 0 ≤ lo ∧ lo ≤ hi ∧ hi ≤ (s.length : Int) then
    some ((s.drop lo.toNat).take (hi.toNat - lo.toNat))
  else none

/-- Go's `s[lo:]`: panics (`none`) unless `0 ≤ lo ≤ len(s)`. -/
def sliceFrom (s : GoString) (lo : Int) : Option GoString :=
  if 0 ≤ lo ∧ lo ≤ (s.length : Int) then some (s.drop lo.toNat) else none

namespace strings

/-- Whether `p` is an initial segment of `s` (`strings.HasPrefix`). -/
def startsWith : GoString → GoString → Bool
  | _, [] => true
  | [], _ :: _ => false
  | c :: s, p :: ps => c == p && startsWith s ps

/-- Scan of `strings.Index`: the least position `i + k` such that `sub` starts at
offset `k` of `s`, or `-1`. -/
def indexFrom (sub : GoString) : GoString → Nat → Int
  | [], i => if sub.isEmpty then (i : Int) else -1
  | c :: s, i => if startsWith (c :: s) sub then (i : Int) else indexFrom sub s (i + 1)

/-- Go's `strings.Index(s, sub)`: the index of the first instance of `sub` in `s`,
or `-1` if `sub` is not present. -/
def Index (s sub : GoString) : Int := indexFrom sub s 0

/-- Scan of `strings.IndexAny`. -/
def indexAnyFrom (chars : GoString) : GoString → Nat → Int
  | [], _ => -1
  | c :: s, i => if chars.contains c then (i : Int) else indexAnyFrom chars s (i + 1)

/-- Go's `strings.IndexAny(s, chars)`: the index of the first byte of `s` that is
one of `chars`, or `-1`. -/
def IndexAny (s chars : GoString) : Int := indexAnyFrom chars s 0

end strings

/-- Go's `error` values that `parseTime` can hand back.  `errorsNew` is the value of
`errors.New(text)`; `parseError` is the `*time.ParseError` of a failed layout (its
`Layout` and `Value` fields; the element and message fields only feed its text);
`external` stands for any error produced by the zone resolver. -/
inductive GoError where
  | errorsNew (text : GoString)
  | parseError (layout value : GoString)
  | external (text : GoString)
  deriving DecidableEq

namespace time

/-! ## Locations (`time/zoneinfo.go`) -/

/-- Go's `time.zone`: a single time zone such as CET. -/
structure zone where
  name : GoString
  offset : Int
  isDST : Bool
  deriving DecidableEq

/-- Go's `time.zoneTrans`: a single time zone transition (`when` in Unix seconds,
`index` into the zone table).  The `isstd` and `isutc` flags are not read by
`lookup` and are left out. -/
structure zoneTrans where
  when : Int
  index : Nat
  deriving DecidableEq

/-- The value a `*time.Location` points at.  `utcLoc` is the package variable that
`time.UTC` points at (a `nil` location is treated as `utcLoc` throughout the `time`
package); `loc` is any other location, with its name and its tables.  Pointer
comparison with `time.UTC` is comparison with the constructor `utcLoc`. -/
inductive Location where
  | utcLoc
  | loc (name : GoString) (zone : List zone) (tx : List zoneTrans)
  deriving DecidableEq

/-- Go's `time.UTC`. -/
def UTC : Location := Location.utcLoc

/-- The beginning of time for zone lookups: `-1 << 63`. -/
def alpha : Int := -9223372036854775808

/-- The end of time for zone lookups: `1<<63 - 1` (Go's `omega`). -/
def omegaSec : Int := 9223372036854775807

/-- Go's `(*Location).String`. -/
def Location.String : Location → GoString
  | .utcLoc => "UTC".toList
  | .loc name _ _ => name

/-- The result of `(*Location).lookup`. -/
structure zoneSpan where
  name : GoString
  offset : Int
  start : Int
  stop : Int
  isDST : Bool
  deriving DecidableEq

/-- Entry `i` of a zone table (tables built by the `time` package only hold indices
that are in range). -/
def zoneAt (zs : List zone) (i : Nat) : zone := zs.getD i ⟨[], 0, false⟩

/-- Go's `(*Location).firstZoneUsed`. -/
def firstZoneUsed (tx : List zoneTrans) : Bool := tx.any (fun t => t.index == 0)

/-- The backward scan of case 2 of `lookupFirstZone`: the largest index below `n`
of a zone that is not DST. -/
def lastStdBelow (zs : List zone) : Nat → Option Nat
  | 0 => none
  | n + 1 => if !(zoneAt zs n).isDST then some n else lastStdBelow zs n

/-- The forward scan of case 3 of `lookupFirstZone`. -/
def firstStdFrom : List zone → Nat → Option Nat
  | [], _ => none
  | z :: zs, i => if !z.isDST then some i else firstStdFrom zs (i + 1)

/-- Go's `(*Location).lookupFirstZone`. -/
def lookupFirstZone (zs : List zone) (tx : List zoneTrans) : Nat :=
  if !firstZoneUsed tx then 0
  else
    let case2 : Option Nat :=
      match tx with
      | t0 :: _ => if (zoneAt zs t0.index).isDST then lastStdBelow zs t0.index else none
      | [] => none
    match case2 with
    | some zi => zi
    | none =>
      match firstStdFrom zs 0 with
      | some zi => zi
      | none => 0

/-- The binary search of `lookup` for the entry with the largest time `≤ sec`:
returns the final `lo` and the `end` maintained during the search.  Each round
shrinks `hi - lo`, so `tx.length` rounds of fuel are never used up. -/
def searchTx (tx : List zoneTrans) (sec : Int) : Nat → Nat → Nat → Int → Nat × Int
  | 0, lo, _, stop => (lo, stop)
  | fuel + 1, lo, hi, stop =>
    if hi - lo > 1 then
      let m := (lo + hi) / 2
      let lim := (tx.getD m ⟨0, 0⟩).when
      if sec < lim then searchTx tx sec fuel lo m lim
      else searchTx tx sec fuel m hi stop
    else (lo, stop)

/-- Go's `(*Location).lookup`: the zone in use at the instant `sec` (Unix seconds),
with the span of instants over which it applies.  The one-entry cache of a location
repeats an answer of the table, and the `extend` rule only speaks for instants after
the last transition of the table; neither is modelled. -/
def Location.lookup (l : Location) (sec : Int) : zoneSpan :=
  match l with
  | .utcLoc => ⟨"UTC".toList, 0, alpha, omegaSec, false⟩
  | .loc _ zs tx =>
    if zs.length = 0 then ⟨"UTC".toList, 0, alpha, omegaSec, false⟩
    else
      match tx with
      | [] =>
        let z := zoneAt zs (lookupFirstZone zs tx)
        ⟨z.name, z.offset, alpha, omegaSec, z.isDST⟩
      | t0 :: _ =>
        if sec < t0.when then
          let z := zoneAt zs (lookupFirstZone zs tx)
          ⟨z.name, z.offset, alpha, t0.when, z.isDST⟩
        else
          let r := searchTx tx sec tx.length 0 tx.length omegaSec
          let t := tx.getD r.1 ⟨0, 0⟩
          let z := zoneAt zs t.index
          ⟨z.name, z.offset, t.when, r.2, z.isDST⟩

/-- Go's `time.FixedZone(name, offset)`. -/
def FixedZone (name : GoString) (offset : Int) : Location :=
  Location.loc name [⟨name, offset, false⟩] [⟨alpha, 0⟩]

/-! ## Instants and the calendar (`time/time.go`) -/

/-- A Go `time.Time`: the instant in Unix seconds plus nanoseconds, and the location
it is presented in.  A `nil` location pointer of Go is `utcLoc` here (`setLoc`
stores `nil` for `&utcLoc`, `Location()` returns `UTC` for `nil`).  The monotonic
clock reading is not modelled; parsed times carry none. -/
structure Time where
  sec : Int
  nsec : Int
  loc : Location
  deriving DecidableEq

def secondsPerMinute : Int := 60
def secondsPerHour : Int := 3600
def secondsPerDay : Int := 86400
def daysPer400Years : Int := 146097
def daysPer100Years : Int := 36524
def daysPer4Years : Int := 1461

/-- The year of the absolute epoch, `-292277022399`. -/
def absoluteZeroYear : Int := -292277022399

/-- Go's `unixToInternal + internalToAbsolute`: seconds from the absolute epoch to
the Unix epoch. -/
def unixToAbsolute : Int := 62135596800 + 9223371966579724800

/-- The zero `time.Time`: January 1, year 1, 00:00:00 UTC. -/
def Time.zero : Time := ⟨-62135596800, 0, Location.utcLoc⟩

/-- Go's `Time.Location`. -/
def Time.Location (t : Time) : Location := t.loc

/-- The UTC offset in force at the instant of `t` in its location, as `Time.abs` and
`Time.locabs` find it. -/
def Time.offset (t : Time) : Int :=
  match t.loc with
  | .utcLoc => 0
  | l => (l.lookup t.sec).offset

/-- Go's `Time.abs`: seconds since the absolute epoch, shifted to the wall clock of
the time's location. -/
def Time.abs (t : Time) : Int := t.sec + t.offset + unixToAbsolute

/-- Go's `isLeap`. -/
def isLeap (year : Int) : Bool :=
  Int.tmod year 4 == 0 && (Int.tmod year 100 != 0 || Int.tmod year 400 == 0)

/-- Go's `daysBefore` table: `daysBefore[m]` counts the days of a non-leap year
before month `m + 1`. -/
def daysBefore : List Int := [0, 31, 59, 90, 120, 151, 181, 212, 243, 273, 304, 334, 365]

/-- Entry `i` of `daysBefore`. -/
def daysBeforeAt (i : Int) : Int := daysBefore.getD i.toNat 0

/-- Go's `daysIn(m, year)`. -/
def daysIn (m : Int) (year : Int) : Int :=
  if m = 2 ∧ isLeap year then 29 else daysBeforeAt m - daysBeforeAt (m - 1)

/-- Go's `daysSinceEpoch(year)`: days from the absolute epoch to the start of
`year`. -/
def daysSinceEpoch (year : Int) : Int :=
  let y := year - absoluteZeroYear
  let n := y / 400
  let y := y - 400 * n
  let d := daysPer400Years * n
  let n := y / 100
  let y := y - 100 * n
  let d := d + daysPer100Years * n
  let n := y / 4
  let y := y - 4 * n
  let d := d + daysPer4Years * n
  d + 365 * y

/-- The calendar fields computed by `absDate`. -/
structure civilDate where
  year : Int
  month : Int
  day : Int
  yday : Int
  deriving DecidableEq

/-- Go's `absDate(abs, false)`: the year and the day of the year (from zero) of an
absolute time. -/
def absYday (abs : Int) : Int × Int :=
  let d := abs / secondsPerDay
  let n := d / daysPer400Years
  let y := 400 * n
  let d := d - daysPer400Years * n
  let n := d / daysPer100Years
  let n := n - n / 4
  let y := y + 100 * n
  let d := d - daysPer100Years * n
  let n := d / daysPer4Years
  let y := y + 4 * n
  let d := d - daysPer4Years * n
  let n := d / 365
  let n := n - n / 4
  let y := y + n
  let d := d - 365 * n
  (y + absoluteZeroYear, d)

/-- The second half of `absDate(abs, true)`: month and day of the month from the
year and the day of the year. -/
def monthDay (year yday : Int) : civilDate :=
  if isLeap year ∧ yday = 31 + 29 - 1 then ⟨year, 2, 29, yday⟩
  else
    let day := if isLeap year ∧ yday > 31 + 29 - 1 then yday - 1 else yday
    let month := day / 31
    let stop := daysBeforeAt (month + 1)
    if day ≥ stop then ⟨year, month + 2, day - stop + 1, yday⟩
    else ⟨year, month + 1, day - daysBeforeAt month + 1, yday⟩

/-- Go's `absDate(abs, true)`: year, month, day and day of year of an absolute
time. -/
def absDate (abs : Int) : civilDate := monthDay (absYday abs).1 (absYday abs).2

/-- Go's `absClock`: hour, minute and second of an absolute time. -/
def absClock (abs : Int) : Int × Int × Int :=
  let sec := abs % secondsPerDay
  let hour := sec / secondsPerHour
  let sec := sec - hour * secondsPerHour
  let min := sec / secondsPerMinute
  let sec := sec - min * secondsPerMinute
  (hour, min, sec)

/-- Go's `Time.Hour`. -/
def Time.Hour (t : Time) : Int := (t.abs % secondsPerDay) / secondsPerHour

/-- Go's `Time.Minute`. -/
def Time.Minute (t : Time) : Int := (t.abs % secondsPerHour) / secondsPerMinute

/-- Go's `Time.Second`. -/
def Time.Second (t : Time) : Int := t.abs % secondsPerMinute

/-- Go's `Time.Year`. -/
def Time.Year (t : Time) : Int := (absDate t.abs).year

/-- Go's `Time.Month`. -/
def Time.Month (t : Time) : Int := (absDate t.abs).month

/-- Go's `Time.Day`. -/
def Time.Day (t : Time) : Int := (absDate t.abs).day

/-- Go's `time.Hour`, a `Duration` in nanoseconds. -/
def Hour : Int := 3600000000000

/-- Go's `Time.Add(d)`. -/
def Time.Add (t : Time) (d : Int) : Time :=
  let dsec := Int.tdiv d 1000000000
  let nsec := t.nsec + Int.tmod d 1000000000
  if nsec ≥ 1000000000 then ⟨t.sec + (dsec + 1), nsec - 1000000000, t.loc⟩
  else if nsec < 0 then ⟨t.sec + (dsec - 1), nsec + 1000000000, t.loc⟩
  else ⟨t.sec + dsec, nsec, t.loc⟩

/-- Go's `norm(hi, lo, base)`. -/
def norm (hi lo base : Int) : Int × Int :=
  let (hi, lo) :=
    if lo < 0 then
      let n := Int.tdiv (-lo - 1) base + 1
      (hi - n, lo + n * base)
    else (hi, lo)
  if lo ≥ base then
    let n := Int.tdiv lo base
    (hi + n, lo - n * base)
  else (hi, lo)

/-- Go's `time.Date(year, month, day, hour, min, sec, nsec, loc)`. -/
def Date (year month day hour min sec nsec : Int) (loc : Location) : Time :=
  let m := month - 1
  let (year, m) := norm year m 12
  let month := m + 1
  let (sec, nsec) := norm sec nsec 1000000000
  let (min, sec) := norm min sec 60
  let (hour, min) := norm hour min 60
  let (day, hour) := norm day hour 24
  let d := daysSinceEpoch year
  let d := d + daysBeforeAt (month - 1)
  let d := if isLeap year ∧ month ≥ 3 then d + 1 else d
  let d := d + (day - 1)
  let abs := d * secondsPerDay
  let abs := abs + (hour * secondsPerHour + min * secondsPerMinute + sec)
  let unix := abs - unixToAbsolute
  let span := loc.lookup unix
  let unix :=
    if span.offset ≠ 0 then
      let utc := unix - span.offset
      let offset :=
        if utc < span.start ∨ utc ≥ span.stop then (loc.lookup utc).offset else span.offset
      unix - offset
    else unix
  ⟨unix, nsec, loc⟩

/-! ## Layouts, parsing and formatting (`time/format.go`) -/

/-- The layout elements (`std...` constants) that occur in the layouts of `time.go`. -/
inductive Std where
  | stdLongYear
  | stdZeroMonth
  | stdZeroDay
  | stdHour
  | stdZeroMinute
  | stdZeroSecond
  | stdISO8601TZ
  deriving DecidableEq

/-- One result of `nextStdChunk`: the literal text in front of a layout element, and
the element. -/
structure chunk where
  pre : GoString
  std : Std
  deriving DecidableEq

/-- A layout string together with the sequence of chunks that repeated calls of
`nextStdChunk` cut it into, and the literal text left after the last element. -/
structure Layout where
  text : GoString
  chunks : List chunk
  tail : GoString
  deriving DecidableEq

/-- Go's `isDigit(s, i)`. -/
def isDigitByte (c : Char) : Bool := decide (48 ≤ c.toNat) && decide (c.toNat ≤ 57)

/-- Go's `isDigit(s, i)`: whether `s[i]` is in range and is a decimal digit. -/
def isDigit (s : GoString) (i : Nat) : Bool :=
  match s.get? i with
  | none => false
  | some c => isDigitByte c

/-- The value `c - '0'` of a digit byte. -/
def digitVal (c : Char) : Int := (c.toNat : Int) - 48

/-- Go's `getnum(s, fixed)`: a leading one- or two-digit number (exactly two digits
when `fixed`), with the rest of the string. -/
def getnum (s : GoString) (fixed : Bool) : Option (Int × GoString) :=
  if !isDigit s 0 then none
  else if !isDigit s 1 then
    if fixed then none else some (digitVal (s.headD '0'), s.drop 1)
  else some (digitVal (s.headD '0') * 10 + digitVal ((s.drop 1).headD '0'), s.drop 2)

/-- Go's `leadingInt`, with the accumulator `x` of its loop made explicit. -/
def leadingInt : GoString → Int → Option (Int × GoString)
  | [], x => some (x, [])
  | c :: s, x =>
    if !isDigitByte c then some (x, c :: s)
    else if x > 9223372036854775808 / 10 then none
    else
      let x := x * 10 + digitVal c
      if x > 9223372036854775808 then none else leadingInt s x

/-- Go's `atoi`. -/
def atoi (s : GoString) : Option Int :=
  let signed : Bool × GoString :=
    match s with
    | c :: r => if c = '-' ∨ c = '+' then (decide (c = '-'), r) else (false, s)
    | [] => (false, s)
  match leadingInt signed.2 0 with
  | none => none
  | some (q, rem) =>
    if rem.length > 0 then none else some (if signed.1 then -q else q)

/-- Go's `commaOrPeriod`. -/
def commaOrPeriod (c : Char) : Bool := c == '.' || c == ','

/-- Go's `parseNanoseconds(value, nbytes)`. -/
def parseNanoseconds (value : GoString) (nbytes : Nat) : Option Int :=
  if !commaOrPeriod (value.headD '0') then none
  else
    let value := if nbytes > 10 then value.take 10 else value
    let nbytes := if nbytes > 10 then 10 else nbytes
    match atoi ((value.take nbytes).drop 1) with
    | none => none
    | some ns => if ns < 0 then none else some (ns * 10 ^ (10 - nbytes))

/-- Go's `cutspace`. -/
def cutspace : GoString → GoString
  | c :: s => if c = ' ' then cutspace s else c :: s
  | [] => []

/-- Go's `skip(value, prefix)`, with fuel for its loop (every round shortens the
literal text by at least one byte, so its length is enough). -/
def skipLoop : Nat → GoString → GoString → Option GoString
  | _, value, [] => some value
  | 0, _, _ :: _ => none
  | fuel + 1, value, p :: ps =>
    if p = ' ' then
      match value with
      | v :: vs =>
        if v ≠ ' ' then none else skipLoop fuel (cutspace (v :: vs)) (cutspace (p :: ps))
      | [] => skipLoop fuel [] (cutspace (p :: ps))
    else
      match value with
      | v :: vs => if v ≠ p then none else skipLoop fuel vs ps
      | [] => none

/-- Go's `skip(value, prefix)`. -/
def skip (value pre : GoString) : Option GoString := skipLoop pre.length value pre

/-- The variables of `parse` for the time being constructed. -/
structure parseState where
  year : Int
  month : Int
  day : Int
  hour : Int
  min : Int
  sec : Int
  nsec : Int
  z : Option Location
  zoneOffset : Int
  deriving DecidableEq

/-- The initial values of the variables of `parse`. -/
def parseState.init : parseState := ⟨0, -1, -1, 0, 0, 0, 0, none, -1⟩

/-- One round of the `switch std & stdMask` of `parse`: reads the element `std` off
the front of `value`.  `none` is any of the errors of the round (a malformed
element or a value out of range). -/
def parseStd (st : parseState) (std : Std) (value : GoString) :
    Option (parseState × GoString) :=
  match std with
  | .stdLongYear =>
    if value.length < 4 ∨ !isDigit value 0 then none
    else
      match atoi (value.take 4) with
      | none => none
      | some year => some ({ st with year := year }, value.drop 4)
  | .stdZeroMonth =>
    match getnum value true with
    | none => none
    | some (month, value) =>
      if month ≤ 0 ∨ 12 < month then none else some ({ st with month := month }, value)
  | .stdZeroDay =>
    match getnum value true with
    | none => none
    | some (day, value) => some ({ st with day := day }, value)
  | .stdHour =>
    match getnum value false with
    | none => none
    | some (hour, value) =>
      if hour < 0 ∨ 24 ≤ hour then none else some ({ st with hour := hour }, value)
  | .stdZeroMinute =>
    match getnum value true with
    | none => none
    | some (min, value) =>
      if min < 0 ∨ 60 ≤ min then none else some ({ st with min := min }, value)
  | .stdZeroSecond =>
    match getnum value true with
    | none => none
    | some (sec, value) =>
      if sec < 0 ∨ 60 ≤ sec then none
      else if value.length ≥ 2 ∧ commaOrPeriod (value.headD '0') ∧ isDigit value 1 then
        -- no layout of this file has a fractional-second element, so the fraction
        -- in the input is read here
        let n := 2 + ((value.drop 2).takeWhile isDigitByte).length
        match parseNanoseconds value n with
        | none => none
        | some nsec => some ({ st with sec := sec, nsec := nsec }, value.drop n)
      else some ({ st with sec := sec }, value)
  | .stdISO8601TZ =>
    if value.length ≥ 1 ∧ value.headD '0' = 'Z' then
      some ({ st with z := some UTC }, value.drop 1)
    else if value.length < 5 then none
    else
      let sign := value.take 1
      let hour := (value.drop 1).take 2
      let min := (value.drop 3).take 2
      let value := value.drop 5
      match getnum hour true with
      | none => none
      | some (hr, _) =>
        match getnum min true with
        | none => none
        | some (mm, _) =>
          if hr > 24 ∨ mm > 60 then none
          else
            let zoneOffset := (hr * 60 + mm) * 60 + 0
            if sign.headD '0' = '+' then some ({ st with zoneOffset := zoneOffset }, value)
            else if sign.headD '0' = '-' then
              some ({ st with zoneOffset := -zoneOffset }, value)
            else none

/-- The loop of `parse` over the chunks of the layout. -/
def parseChunks : List chunk → parseState → GoString → Option (parseState × GoString)
  | [], st, value => some (st, value)
  | c :: cs, st, value =>
    match skip value c.pre with
    | none => none
    | some value =>
      match parseStd st c.std value with
      | none => none
      | some (st, value) => parseChunks cs st value

/-- Go's `parse(layout, value, defaultLocation, local)`. -/
def parse (layout : Layout) (value : GoString) (defaultLocation loc : Location) :
    Except GoError Time :=
  match parseChunks layout.chunks parseState.init value with
  | none => .error (.parseError layout.text value)
  | some (st, rest) =>
    match skip rest layout.tail with
    | none => .error (.parseError layout.text value)
    | some rest =>
      if rest.length ≠ 0 then .error (.parseError layout.text value)
      else
        let month := if st.month < 0 then 1 else st.month
        let day := if st.day < 0 then 1 else st.day
        if day < 1 ∨ day > daysIn month st.year then
          .error (.parseError layout.text value)
        else
          match st.z with
          | some z => .ok (Date st.year month day st.hour st.min st.sec st.nsec z)
          | none =>
            if st.zoneOffset ≠ -1 then
              let t := Date st.year month day st.hour st.min st.sec st.nsec UTC
              let t : Time := { t with sec := t.sec - st.zoneOffset }
              if (loc.lookup t.sec).offset = st.zoneOffset then .ok { t with loc := loc }
              else .ok { t with loc := FixedZone [] st.zoneOffset }
            else
              .ok (Date st.year month day st.hour st.min st.sec st.nsec defaultLocation)

/-- Go's `time.ParseInLocation(layout, value, loc)`. -/
def ParseInLocation (layout : Layout) (value : GoString) (loc : Location) :
    Except GoError Time :=
  parse layout value loc loc

/-- The byte of the decimal digit `d`. -/
def digitByte (d : Int) : Char := Char.ofNat (48 + d.toNat)

/-- Go's `appendInt(b, x, width)`, the text it appends: the decimal form of `x`,
zero-padded to `width`. -/
def appendInt (x : Int) (width : Nat) : GoString :=
  let sign : GoString := if x < 0 then ['-'] else []
  let u : Int := if x < 0 then -x else x
  if width = 2 ∧ u < 100 then sign ++ [digitByte (u / 10), digitByte (u % 10)]
  else if width = 4 ∧ u < 10000 then
    sign ++ [digitByte (u / 1000), digitByte (u / 100 % 10), digitByte (u / 10 % 10),
      digitByte (u % 10)]
  else
    let ds := Nat.toDigits 10 u.toNat
    sign ++ List.replicate (width - ds.length) '0' ++ ds

/-- One round of the loop of `Time.AppendFormat`: the text of element `std`. -/
def formatStd (std : Std) (date : civilDate) (clock : Int × Int × Int) (offset : Int) :
    GoString :=
  match std with
  | .stdLongYear => appendInt date.year 4
  | .stdZeroMonth => appendInt date.month 2
  | .stdZeroDay => appendInt date.day 2
  | .stdHour => appendInt clock.1 2
  | .stdZeroMinute => appendInt clock.2.1 2
  | .stdZeroSecond => appendInt clock.2.2 2
  | .stdISO8601TZ =>
    if offset = 0 then ['Z']
    else
      let zone := Int.tdiv offset 60
      let sign : GoString := if zone < 0 then ['-'] else ['+']
      let zone := if zone < 0 then -zone else zone
      sign ++ appendInt (Int.tdiv zone 60) 2 ++ appendInt (Int.tmod zone 60) 2

/-- The loop of `Time.AppendFormat` over the chunks of the layout. -/
def formatChunks (date : civilDate) (clock : Int × Int × Int) (offset : Int) :
    List chunk → GoString
  | [] => []
  | c :: cs => c.pre ++ formatStd c.std date clock offset ++ formatChunks date clock offset cs

/-- Go's `Time.Format(layout)`. -/
def Time.Format (t : Time) (layout : Layout) : GoString :=
  formatChunks (absDate t.abs) (absClock t.abs) t.offset layout.chunks ++ layout.tail

end time

open time

/-! ## time.go -/

/-- The layout constant `rfc5545Date`, `20060102`. -/
def rfc5545Date : Layout :=
  ⟨"20060102".toList, [⟨[], .stdLongYear⟩, ⟨[], .stdZeroMonth⟩, ⟨[], .stdZeroDay⟩], []⟩

/-- The layout constant `rfc5545WithOffset`, `20060102T150405Z0700`. -/
def rfc5545WithOffset : Layout :=
  ⟨"20060102T150405Z0700".toList,
    [⟨[], .stdLongYear⟩, ⟨[], .stdZeroMonth⟩, ⟨[], .stdZeroDay⟩, ⟨['T'], .stdHour⟩,
      ⟨[], .stdZeroMinute⟩, ⟨[], .stdZeroSecond⟩, ⟨[], .stdISO8601TZ⟩], []⟩

/-- The layout constant `rfc5545WithoutOffset`, `20060102T150405`. -/
def rfc5545WithoutOffset : Layout :=
  ⟨"20060102T150405".toList,
    [⟨[], .stdLongYear⟩, ⟨[], .stdZeroMonth⟩, ⟨[], .stdZeroDay⟩, ⟨['T'], .stdHour⟩,
      ⟨[], .stdZeroMinute⟩, ⟨[], .stdZeroSecond⟩], []⟩

/-- An anchored match of `T02[0-9]{4}(Z|[0-9]{4})?$` at the start of `s`. -/
def twoAMAt : GoString → Bool
  | 'T' :: '0' :: '2' :: a :: b :: c :: d :: rest =>
    isDigitByte a && isDigitByte b && isDigitByte c && isDigitByte d &&
      (rest.isEmpty || rest == ['Z'] || (rest.length == 4 && rest.all isDigitByte))
  | _ => false

/-- The package variable `twoAMRegex` with its method `MatchString`: whether the
regular expression `T02[0-9]{4}(Z|[0-9]{4})?$` matches somewhere in `s`. -/
def twoAMRegex.MatchString : GoString → Bool
  | [] => false
  | c :: s => twoAMAt (c :: s) || twoAMRegex.MatchString s

/-- Lines 50-59 of `parseTime`: the three layouts tried in turn on the literal.
Returns `offsetFound`, the parsed time (the zero time when every layout fails) and
the error of the last attempt. -/
def parseLayouts (str : GoString) (loc : Location) : Bool × Time × Option GoError :=
  match ParseInLocation rfc5545WithOffset str loc with
  | .ok t => (true, t, none)
  | .error _ =>
    match ParseInLocation rfc5545WithoutOffset str loc with
    | .ok t => (false, t, none)
    | .error _ =>
      match ParseInLocation rfc5545Date str loc with
      | .ok t => (false, t, none)
      | .error err => (false, Time.zero, some err)

/-- Lines 82-86 of `parseTime`: the normalisation around daylight-saving
transitions. -/
def normalizeDST (t : Time) (str : GoString) : Time :=
  let tMinusHour := t.Add (-1 * time.Hour)
  if t.Hour = tMinusHour.Hour then tMinusHour
  else if twoAMRegex.MatchString str then t.Add (1 * time.Hour)
  else t

/-- Lines 50-88 of `parseTime`: what it returns once the working zone `loc`, the
flag `tzidFound` and the literal `str` are known. -/
def parseLiteral (loc : Location) (tzidFound : Bool) (str : GoString) :
    Time × Bool × Option GoError :=
  let parsed := parseLayouts str loc
  let offsetFound := parsed.1
  let t := parsed.2.1
  let err := parsed.2.2
  (normalizeDST t str, !(tzidFound || offsetFound), err)

/-- The function `parseTime` of `time.go`.  The result is `none` when the call
panics, and otherwise the three values it returns: the time, the floating flag and
the error (`none` for `nil`). -/
def parseTime (LoadLocation : GoString → Except GoError Location) (str : GoString)
    (defaultLoc : Option Location) : Option (Time × Bool × Option GoError) :=
  let t : Time := Time.zero
  let defaultLoc : Location :=
    match defaultLoc with
    | none => UTC
    | some l => l
  let idBeg := strings.Index str ";TZID=".toList
  if idBeg ≥ 0 then
    let locBeg := idBeg + 6
    match sliceFrom str locBeg with
    | none => none
    | some afterId =>
      let locEnd := locBeg + strings.Index afterId ":".toList
      if locEnd < 0 then some (t, false, some (.errorsNew "no end to TZID".toList))
      else
        match sliceRange str locBeg locEnd with
        | none => none
        | some name =>
          match LoadLocation name with
          | .error err => some (t, false, some err)
          | .ok loc =>
            match sliceFrom str (locEnd + 1) with
            | none => none
            | some str => some (parseLiteral loc true str)
  else
    let colonIdx := strings.IndexAny str ":=".toList
    match sliceFrom str (colonIdx + 1) with
    | none => none
    | some str => some (parseLiteral defaultLoc false str)

/-- The function `formatTime` of `time.go`. -/
def formatTime (pfx : GoString) (t : Time) (floatingLocation : Bool) : GoString :=
  if floatingLocation then
    pfx ++ ":".toList ++ t.Format rfc5545WithoutOffset
  else if t.Location = UTC then
    pfx ++ ":".toList ++ t.Format rfc5545WithoutOffset ++ "Z".toList
  else
    pfx ++ ";TZID=".toList ++ t.Location.String ++ ":".toList ++ t.Format rfc5545WithoutOffset

/-! ## Vocabulary of the claims -/

/-- Whether the literal `lit` matches the layout: `time.ParseInLocation` returns a
`nil` error on it. -/
def matchesLayout (layout : Layout) (lit : GoString) (loc : Location) : Bool :=
  match ParseInLocation layout lit loc with
  | .ok _ => true
  | .error _ => false

/-- The two decimal digits of `n` (for `0 ≤ n < 100`). -/
def twoDigits (n : Int) : GoString := [digitByte (n / 10), digitByte (n % 10)]

/-- The four decimal digits of `n` (for `0 ≤ n < 10000`). -/
def fourDigits (n : Int) : GoString :=
  [digitByte (n / 1000), digitByte (n / 100 % 10), digitByte (n / 10 % 10), digitByte (n % 10)]

/-- The civil literal `YYYYMMDDTHHMMSS` of a time in its own zone: the digits of its
year, month, day, hour, minute and second. -/
def civilLiteral (t : Time) : GoString :=
  fourDigits t.Year ++ twoDigits t.Month ++ twoDigits t.Day ++ ['T'] ++
    twoDigits t.Hour ++ twoDigits t.Minute ++ twoDigits t.Second

/-- Whether the literal carries a `Z` or a numeric-offset suffix: it ends in `Z`, or
in a sign followed by four digits. -/
def hasOffsetSuffix (lit : GoString) : Bool :=
  match lit.reverse with
  | 'Z' :: _ => true
  | d :: c :: b :: a :: s :: _ =>
    (s == '+' || s == '-') && isDigitByte a && isDigitByte b && isDigitByte c && isDigitByte d
  | _ => false

/-- The bytes of a literal without zone information: digits, the `T` between date
and time, and the `.` or `,` of a fraction of a second. -/
def plainByte (c : Char) : Prop := isDigitByte c = true ∨ c = 'T' ∨ c = '.' ∨ c = ','

/-- The day of the year (counted from zero) of the calendar date `year`-`month`-`day`,
as `time.Date` adds it up. -/
def yearDay (year month day : Int) : Int :=
  daysBeforeAt (month - 1) + (if isLeap year = true ∧ month ≥ 3 then 1 else 0) + (day - 1)

/-- The number written by two digit bytes. -/
def digits2 (a b : Char) : Int := digitVal a * 10 + digitVal b

/-- The number written by four digit bytes. -/
def digits4 (a b c d : Char) : Int :=
  digitVal a * 1000 + digitVal b * 100 + digitVal c * 10 + digitVal d

/-- Midnight of a calendar date read as UTC wall-clock time, in Unix seconds. -/
def midnightUTC (year month day : Int) : Int := (Date year month day 0 0 0 0 UTC).sec

/-- The instant (Unix seconds) that `time.Date` resolves the midnight of a calendar
date to in the zone `loc`. -/
def midnightIn (year month day : Int) (loc : Location) : Int :=
  (Date year month day 0 0 0 0 loc).sec

/-- Eight bytes `YYYYMMDD` that write a valid calendar date: digits, with the month
from 01 to 12 and the day from 01 to the length of that month in that year. -/
def validDate (c1 c2 c3 c4 c5 c6 c7 c8 : Char) : Bool :=
  [c1, c2, c3, c4, c5, c6, c7, c8].all isDigitByte &&
    decide (1 ≤ digits2 c5 c6 ∧ digits2 c5 c6 ≤ 12 ∧ 1 ≤ digits2 c7 c8 ∧
      digits2 c7 c8 ≤ daysIn (digits2 c5 c6) (digits4 c1 c2 c3 c4))

/-- Six bytes `HHMMSS` that write a time of day: digits, with the hour at most 23 and
the minute and the second at most 59. -/
def validClock (h1 h2 m1 m2 s1 s2 : Char) : Bool :=
  [h1, h2, m1, m2, s1, s2].all isDigitByte &&
    decide (digits2 h1 h2 ≤ 23 ∧ digits2 m1 m2 ≤ 59 ∧ digits2 s1 s2 ≤ 59)

/-- What is left of a text after a fraction of a second at its start, if there is
one: a `.` or `,` followed by one or more digits. -/
def afterFraction : GoString → GoString
  | c :: d :: r =>
    if commaOrPeriod c && isDigitByte d then r.dropWhile isDigitByte else c :: d :: r
  | s => s

/-- A zone suffix: `Z`, or a sign and four digits `HHMM` with the hours at most 24 and
the minutes at most 60. -/
def validOffset : GoString → Bool
  | [z] => z == 'Z'
  | [s, a, b, c, d] =>
    (s == '+' || s == '-') && [a, b, c, d].all isDigitByte &&
      decide (digits2 a b ≤ 24 ∧ digits2 c d ≤ 60)
  | _ => false

/-- What may follow the date in a literal: nothing, or `T`, a time of day, an optional
fraction of a second and an optional zone suffix. -/
def wellFormedTime : GoString → Bool
  | [] => true
  | t :: h1 :: h2 :: m1 :: m2 :: s1 :: s2 :: tail =>
    t == 'T' && validClock h1 h2 m1 m2 s1 s2 &&
      ((afterFraction tail).isEmpty || validOffset (afterFraction tail))
  | _ => false

/-- A literal that one of the three layouts accepts, described by its text: a valid
date `YYYYMMDD`, alone or followed by `T`, a time of day `HHMMSS`, an optional fraction
of a second and an optional `Z` or numeric offset. -/
def wellFormedLiteral : GoString → Bool
  | c1 :: c2 :: c3 :: c4 :: c5 :: c6 :: c7 :: c8 :: rest =>
    validDate c1 c2 c3 c4 c5 c6 c7 c8 && wellFormedTime rest
  | _ => false

/-- The end of a literal, read backwards: four digits, then `2`, `0` and `T`. -/
def twoAMTail : GoString → Bool
  | d :: c :: b :: a :: x2 :: x0 :: t :: _ =>
    t == 'T' && x0 == '0' && x2 == '2' && isDigitByte a && isDigitByte b && isDigitByte c &&
      isDigitByte d
  | _ => false

/-- Whether the literal ends in `T02` followed by four digits and an optional `Z`. -/
def endsInTwoAM (lit : GoString) : Bool :=
  match lit.reverse with
  | z :: r => twoAMTail (z :: r) || (z == 'Z' && twoAMTail r)
  | [] => false

/-- Whether the literal ends in a numeric offset: a sign and four digits. -/
def hasNumericOffset (lit : GoString) : Bool :=
  match lit.reverse with
  | d :: c :: b :: a :: s :: _ =>
    (s == '+' || s == '-') && isDigitByte a && isDigitByte b && isDigitByte c && isDigitByte d
  | _ => false

/-- The pattern `YYYYMMDD` of the spec's table of textual layouts, read to the letter:
eight digits. -/
def specDateOnly (lit : GoString) : Bool := lit.length == 8 && lit.all isDigitByte

/-- The pattern `YYYYMMDD'T'HHMMSS` of the spec's table of textual layouts, read to the
letter: eight digits, `T`, six digits. -/
def specDateTime (lit : GoString) : Bool :=
  lit.length == 15 && (lit.take 8).all isDigitByte && (lit.drop 8).take 1 == ['T'] &&
    (lit.drop 9).all isDigitByte

/-- The suffix `Z` or `±HHMM` of the spec's offset-qualified pattern. -/
def specOffset (s : GoString) : Bool :=
  s == ['Z'] ||
    (s.length == 5 && (s.take 1 == ['+'] || s.take 1 == ['-']) && (s.drop 1).all isDigitByte)

/-- Whether the literal has one of the three patterns of the spec's table of textual
layouts: offset-qualified, zone-qualified without offset, or date-only. -/
def specLayoutPattern (lit : GoString) : Bool :=
  (specDateTime (lit.take 15) && specOffset (lit.drop 15)) || specDateTime lit ||
    specDateOnly lit

/-! ## Zone tables used in the examples

Excerpts of the IANA tables: the transitions around one year, with the standard and
the daylight zone. -/

/-- America/New_York in 2007: EDT from 2007-03-11 07:00 UTC, EST from 2007-11-04
06:00 UTC. -/
def newYork2007 : Location :=
  .loc "America/New_York".toList
    [⟨"EST".toList, -18000, false⟩, ⟨"EDT".toList, -14400, true⟩]
    [⟨1173596400, 1⟩, ⟨1194156000, 0⟩]

/-- Europe/Berlin in 2007: CEST from 2007-03-25 01:00 UTC, CET from 2007-10-28
01:00 UTC. -/
def berlin2007 : Location :=
  .loc "Europe/Berlin".toList
    [⟨"CET".toList, 3600, false⟩, ⟨"CEST".toList, 7200, true⟩]
    [⟨1174784400, 1⟩, ⟨1193533200, 0⟩]

/-- America/Winnipeg in 2005: CDT from 2005-04-03 08:00 UTC, CST from 2005-10-30
08:00 UTC (the clock went from 03:00 CDT back to 02:00 CST). -/
def winnipeg2005 : Location :=
  .loc "America/Winnipeg".toList
    [⟨"CST".toList, -21600, false⟩, ⟨"CDT".toList, -18000, true⟩]
    [⟨1112515200, 1⟩, ⟨1130659200, 0⟩]

/-- America/Sao_Paulo in 2018: summer time from 2017-10-15 03:00 UTC, standard time
from 2018-02-18 02:00 UTC (the clock went from 00:00 back to 23:00), summer time from
2018-11-04 03:00 UTC (the clock went from 00:00 to 01:00). -/
def saoPaulo2018 : Location :=
  .loc "America/Sao_Paulo".toList
    [⟨"-03".toList, -10800, false⟩, ⟨"-02".toList, -7200, true⟩]
    [⟨1508036400, 1⟩, ⟨1518919200, 0⟩, ⟨1541300400, 1⟩]

/-- Pacific/Apia around the end of 2011: UTC-10 (summer time) from 2011-09-24 14:00 UTC,
UTC+14 from 2011-12-30 10:00 UTC, when the zone moved across the date line and
2011-12-30 was left out of its calendar, UTC+13 from 2012-03-31 14:00 UTC. -/
def apia2011 : Location :=
  .loc "Pacific/Apia".toList
    [⟨"-11".toList, -39600, false⟩, ⟨"-10".toList, -36000, true⟩,
      ⟨"+14".toList, 50400, true⟩, ⟨"+13".toList, 46800, false⟩]
    [⟨1316872800, 1⟩, ⟨1325239200, 2⟩, ⟨1333202400, 3⟩]

/-- A zone whose clock is set back by an hour and a half: UTC+01:30 until 2018-02-17
23:30 UTC and UTC afterwards, as a table loaded with `time.LoadLocationFromTZData` may
have it.  Its wall clock reads 00:00 of 2018-02-18 at 22:30 UTC of the day before and
again at 00:00 UTC. -/
def setBack90 : Location :=
  .loc "Test/SetBack90".toList
    [⟨"+0130".toList, 5400, false⟩, ⟨"+00".toList, 0, false⟩]
    [⟨1518910200, 1⟩]

/-- A zone resolver that knows the four tables above and fails on any other name. -/
def zoneinfo (name : GoString) : Except GoError Location :=
  if name = "America/New_York".toList then .ok newYork2007
  else if name = "Europe/Berlin".toList then .ok berlin2007
  else if name = "America/Winnipeg".toList then .ok winnipeg2005
  else if name = "America/Sao_Paulo".toList then .ok saoPaulo2018
  else .error (.external ("unknown time zone ".toList ++ name))

/-- A zone of constant offset named `UTC+05:30`, as `time.FixedZone("UTC+05:30", 19800)`
builds it. -/
def fixed0530 : Location := FixedZone "UTC+05:30".toList 19800

/-- A zone resolver that knows the zone `UTC+05:30` by its name and otherwise answers
as `zoneinfo`. -/
def zoneinfoFixed (name : GoString) : Except GoError Location :=
  if name = "UTC+05:30".toList then .ok fixed0530 else zoneinfo name

/-! ## Theorems -/

/-! ### Searching and slicing strings -/

theorem startsWith_length {s p : GoString} (h : strings.startsWith s p = true) :
    p.length ≤ s.length := by
  induction p generalizing s with
  | nil => simp
  | cons a p ih =>
    cases s with
    | nil => simp [strings.startsWith] at h
    | cons c s =>
      simp only [strings.startsWith, Bool.and_eq_true] at h
      have := ih h.2
      simp only [List.length_cons]
      omega

theorem startsWith_iff (s p : GoString) : strings.startsWith s p = true ↔ p <+: s := by
  induction p generalizing s with
  | nil => simp [strings.startsWith]
  | cons a p ih =>
    cases s with
    | nil => simp [strings.startsWith]
    | cons c s =>
      simp only [strings.startsWith, Bool.and_eq_true, beq_iff_eq, ih, List.cons_prefix_cons]
      constructor
      · rintro ⟨h1, h2⟩
        exact ⟨h1.symm, h2⟩
      · rintro ⟨h1, h2⟩
        exact ⟨h1.symm, h2⟩

theorem indexFrom_bounds (sub s : GoString) (k : Nat) (hsub : sub ≠ []) :
    strings.indexFrom sub s k = -1 ∨
      ((k : Int) ≤ strings.indexFrom sub s k ∧
        strings.indexFrom sub s k + sub.length ≤ (k : Int) + s.length) := by
  induction s generalizing k with
  | nil =>
    left
    cases sub with
    | nil => exact absurd rfl hsub
    | cons a sub => simp [strings.indexFrom]
  | cons c s ih =>
    unfold strings.indexFrom
    by_cases h : strings.startsWith (c :: s) sub = true
    · right
      have := startsWith_length h
      simp only [h, if_true]
      refine ⟨le_refl _, ?_⟩
      exact_mod_cast Nat.add_le_add_left this k
    · simp only [h]
      rcases ih (k + 1) with h1 | ⟨h1, h2⟩
      · left; simpa using h1
      · right
        simp only [Bool.false_eq_true, if_false, List.length_cons, Nat.cast_add, Nat.cast_one] at *
        constructor <;> omega

theorem Index_bounds (s sub : GoString) (hsub : sub ≠ []) :
    strings.Index s sub = -1 ∨
      (0 ≤ strings.Index s sub ∧ strings.Index s sub + sub.length ≤ s.length) := by
  have := indexFrom_bounds sub s 0 hsub
  simpa [strings.Index] using this

/-- `strings.Index` is negative exactly when `sub` does not occur in `s`. -/
theorem Index_neg_iff (s sub : GoString) : strings.Index s sub < 0 ↔ ¬ sub <:+: s := by
  have key : ∀ (k : Nat), strings.indexFrom sub s k < 0 ↔ ¬ sub <:+: s := by
    induction s with
    | nil =>
      intro k
      cases sub with
      | nil => simp [strings.indexFrom]
      | cons a sub => simp [strings.indexFrom]
    | cons c s ih =>
      intro k
      rw [strings.indexFrom, List.infix_cons_iff]
      by_cases h : strings.startsWith (c :: s) sub = true
      · have hp := (startsWith_iff _ _).mp h
        simp only [h, if_true, hp, true_or, not_true_eq_false, iff_false, not_lt]
        omega
      · have hp : ¬ sub <+: c :: s := fun hp => h ((startsWith_iff _ _).mpr hp)
        simp only [h, Bool.false_eq_true, if_false, hp, false_or]
        exact ih (k + 1)
  exact key 0

theorem indexAnyFrom_bounds (chars s : GoString) (k : Nat) :
    strings.indexAnyFrom chars s k = -1 ∨
      ((k : Int) ≤ strings.indexAnyFrom chars s k ∧
        strings.indexAnyFrom chars s k < (k : Int) + s.length) := by
  induction s generalizing k with
  | nil => left; rfl
  | cons c s ih =>
    unfold strings.indexAnyFrom
    by_cases h : chars.contains c = true
    · right
      simp only [h, if_true, List.length_cons, Nat.cast_add, Nat.cast_one]
      constructor <;> omega
    · simp only [h]
      rcases ih (k + 1) with h1 | ⟨h1, h2⟩
      · left; simpa using h1
      · right
        simp only [Bool.false_eq_true, if_false, List.length_cons, Nat.cast_add, Nat.cast_one] at *
        constructor <;> omega

theorem IndexAny_bounds (s chars : GoString) :
    strings.IndexAny s chars = -1 ∨
      (0 ≤ strings.IndexAny s chars ∧ strings.IndexAny s chars < s.length) := by
  have := indexAnyFrom_bounds chars s 0
  simpa [strings.IndexAny] using this

theorem indexFrom_single_of_not_mem (c : Char) (s : GoString) (k : Nat) (h : c ∉ s) :
    strings.indexFrom [c] s k = -1 := by
  induction s generalizing k with
  | nil => simp [strings.indexFrom]
  | cons a s ih =>
    simp only [List.mem_cons, not_or] at h
    have hne : a ≠ c := fun e => h.1 e.symm
    simp [strings.indexFrom, strings.startsWith, hne, ih (k + 1) h.2]

theorem indexFrom_single_append (c : Char) (a b : GoString) (k : Nat) (h : c ∉ a) :
    strings.indexFrom [c] (a ++ c :: b) k = (k : Int) + a.length := by
  induction a generalizing k with
  | nil => simp [strings.indexFrom, strings.startsWith]
  | cons x a ih =>
    simp only [List.mem_cons, not_or] at h
    have hne : x ≠ c := fun e => h.1 e.symm
    have hrec := ih (k + 1) h.2
    show strings.indexFrom [c] (x :: (a ++ c :: b)) k = _
    rw [strings.indexFrom]
    simp only [strings.startsWith]
    have hx : (x == c) = false := by simpa using hne
    simp only [hx, Bool.false_and, Bool.false_eq_true, if_false, hrec, List.length_cons]
    push_cast
    omega

/-! ### The two arms of `parseTime` -/

theorem tzid_toList : ";TZID=".toList = [';', 'T', 'Z', 'I', 'D', '='] := rfl

theorem colon_toList : ":".toList = [':'] := rfl

theorem parseTime_absent (R : GoString → Except GoError Location) (str : GoString)
    (z : Option Location) (h : strings.Index str ";TZID=".toList < 0) :
    parseTime R str z
      = some (parseLiteral (z.getD UTC) false
          (str.drop (strings.IndexAny str ":=".toList + 1).toNat)) := by
  have hb := IndexAny_bounds str ":=".toList
  have hs : sliceFrom str (strings.IndexAny str ":=".toList + 1)
      = some (str.drop (strings.IndexAny str ":=".toList + 1).toNat) := by
    unfold sliceFrom
    rw [if_pos]
    constructor <;> omega
  unfold parseTime
  simp only [ge_iff_le, not_le.mpr h, if_false, hs]
  cases z <;> rfl

theorem parseTime_annotated (R : GoString → Except GoError Location)
    (pre name rest : GoString) (z : Option Location)
    (hidx : strings.Index (pre ++ ";TZID=".toList ++ name ++ ':' :: rest) ";TZID=".toList
      = pre.length)
    (hname : ':' ∉ name) :
    parseTime R (pre ++ ";TZID=".toList ++ name ++ ':' :: rest) z
      = match R name with
        | .error err => some (Time.zero, false, some err)
        | .ok loc => some (parseLiteral loc true rest) := by
  have h1 : sliceFrom (pre ++ ";TZID=".toList ++ name ++ ':' :: rest) ((pre.length : Int) + 6)
      = some (name ++ ':' :: rest) := by
    unfold sliceFrom
    rw [if_pos]
    · congr 1
      have : ((pre.length : Int) + 6).toNat = (pre ++ ";TZID=".toList).length := by
        simp [tzid_toList]; omega
      rw [this, List.append_assoc, List.drop_left]
    · simp [tzid_toList]; omega
  have h2 : strings.Index (name ++ ':' :: rest) ":".toList = name.length := by
    have := indexFrom_single_append ':' name rest 0 hname
    simpa [strings.Index, colon_toList] using this
  have h3 : sliceRange (pre ++ ";TZID=".toList ++ name ++ ':' :: rest) ((pre.length : Int) + 6)
      ((pre.length : Int) + 6 + name.length) = some name := by
    unfold sliceRange
    rw [if_pos]
    · congr 1
      have e1 : ((pre.length : Int) + 6).toNat = (pre ++ ";TZID=".toList).length := by
        simp [tzid_toList]; omega
      have e2 : ((pre.length : Int) + 6 + name.length).toNat - (pre ++ ";TZID=".toList).length
          = name.length := by
        simp [tzid_toList]; omega
      rw [e1, e2, List.append_assoc, List.drop_left, List.take_left]
    · simp [tzid_toList]; omega
  have h4 : sliceFrom (pre ++ ";TZID=".toList ++ name ++ ':' :: rest)
      ((pre.length : Int) + 6 + name.length + 1) = some rest := by
    unfold sliceFrom
    rw [if_pos]
    · congr 1
      have e1 : ((pre.length : Int) + 6 + name.length + 1).toNat
          = (pre ++ ";TZID=".toList ++ name ++ [':']).length := by
        simp [tzid_toList]; omega
      have e2 : pre ++ ";TZID=".toList ++ name ++ ':' :: rest
          = (pre ++ ";TZID=".toList ++ name ++ [':']) ++ rest := by simp
      rw [e1, e2, List.drop_left]
    · simp [tzid_toList]; omega
  have hneg : ¬ ((pre.length : Int) + 6 + name.length < 0) := by omega
  unfold parseTime
  simp only [hidx, ge_iff_le, Nat.cast_nonneg, if_true, h1, h2, h3, h4, hneg, if_false]

theorem parseTime_present (R : GoString → Except GoError Location) (str : GoString)
    (z z' : Option Location) (h : 0 ≤ strings.Index str ";TZID=".toList) :
    parseTime R str z = parseTime R str z' ∧
      ∀ t f e, parseTime R str z = some (t, f, e) → f = false := by
  constructor
  · unfold parseTime
    simp only [ge_iff_le, h, if_true]
  · intro t f e ht
    unfold parseTime at ht
    simp only [ge_iff_le, h, if_true] at ht
    split at ht
    · cases ht
    · split_ifs at ht
      · simp only [Option.some.injEq, Prod.mk.injEq] at ht
        exact ht.2.1.symm
      · split at ht
        · cases ht
        · split at ht
          · simp only [Option.some.injEq, Prod.mk.injEq] at ht
            exact ht.2.1.symm
          · split at ht
            · cases ht
            · simp only [parseLiteral, Option.some.injEq, Prod.mk.injEq] at ht
              rw [← ht.2.1]
              rfl

/-! ### The calendar -/

theorem isLeap_iff (year : Int) :
    isLeap year = true ↔ year % 4 = 0 ∧ (year % 100 ≠ 0 ∨ year % 400 = 0) := by
  have h : ∀ b : Int, Int.tmod year b = 0 ↔ year % b = 0 := by
    intro b
    constructor
    · intro h
      exact Int.emod_eq_zero_of_dvd (Int.dvd_of_tmod_eq_zero h)
    · intro h
      exact Int.tmod_eq_zero_of_dvd (Int.dvd_of_emod_eq_zero h)
  simp [isLeap, h]

theorem absYday_facts (abs : Int) :
    0 ≤ (absYday abs).2 ∧ (absYday abs).2 ≤ 365 ∧
      ((absYday abs).2 = 365 → isLeap (absYday abs).1 = true) := by
  rw [isLeap_iff]
  simp only [absYday, secondsPerDay, daysPer400Years, daysPer100Years, daysPer4Years,
    absoluteZeroYear]
  generalize abs / 86400 = D
  generalize ha : D / 146097 = a
  generalize hd1 : D - 146097 * a = d1
  have b1 : 0 ≤ d1 ∧ d1 < 146097 := by omega
  generalize hb : d1 / 36524 = b
  generalize hc : b - b / 4 = c
  have b2 : 0 ≤ c ∧ c ≤ 3 := by omega
  generalize hd2 : d1 - 36524 * c = d2
  have b3 : 0 ≤ d2 ∧ d2 ≤ 36524 ∧ (d2 = 36524 → c = 3) := by omega
  generalize he : d2 / 1461 = e
  generalize hd3 : d2 - 1461 * e = d3
  have b4 : 0 ≤ d3 ∧ d3 < 1461 ∧ 0 ≤ e ∧ e ≤ 24 := by omega
  generalize hf : d3 / 365 = f
  generalize hg : f - f / 4 = g
  have b5 : 0 ≤ g ∧ g ≤ 3 := by omega
  omega

theorem monthDay_bounds (year yd : Int) (h0 : 0 ≤ yd) (h1 : yd ≤ 365)
    (h2 : yd = 365 → isLeap year = true) :
    (monthDay year yd).year = year ∧ 1 ≤ (monthDay year yd).month ∧
      (monthDay year yd).month ≤ 12 ∧ 1 ≤ (monthDay year yd).day ∧
      (monthDay year yd).day ≤ 31 := by
  have key : ∀ day : Int, 0 ≤ day → day ≤ 364 →
      ∀ r : civilDate,
        r = (if day ≥ daysBeforeAt (day / 31 + 1)
          then ⟨year, day / 31 + 2, day - daysBeforeAt (day / 31 + 1) + 1, yd⟩
          else ⟨year, day / 31 + 1, day - daysBeforeAt (day / 31) + 1, yd⟩) →
        r.year = year ∧ 1 ≤ r.month ∧ r.month ≤ 12 ∧ 1 ≤ r.day ∧ r.day ≤ 31 := by
    intro day hd0 hd1 r hr
    generalize hm : day / 31 = m at hr
    have hmb : 0 ≤ m ∧ m ≤ 11 := by omega
    obtain ⟨hm0, hm1⟩ := hmb
    interval_cases m <;> simp [daysBeforeAt, daysBefore] at hr <;>
      split_ifs at hr <;> subst hr <;> simp <;> omega
  unfold monthDay
  by_cases hl : isLeap year = true
  · by_cases h59 : yd = 31 + 29 - 1
    · simp [hl, h59]
    · by_cases hgt : yd > 31 + 29 - 1
      · simp only [hl, h59, hgt, and_self, and_false, if_true, if_false, true_and]
        exact key (yd - 1) (by omega) (by omega) _ rfl
      · simp only [hl, h59, hgt, and_self, and_false, if_true, if_false, true_and]
        exact key yd (by omega) (by omega) _ rfl
  · have hl2 : isLeap year = false := by simpa using hl
    have : yd ≤ 364 := by
      by_contra hc
      have : yd = 365 := by omega
      exact hl (h2 this)
    simp only [hl2, Bool.false_eq_true, false_and, if_false]
    exact key yd h0 this _ rfl

theorem absDate_bounds (abs : Int) :
    1 ≤ (absDate abs).month ∧ (absDate abs).month ≤ 12 ∧ 1 ≤ (absDate abs).day ∧
      (absDate abs).day ≤ 31 := by
  have h := absYday_facts abs
  exact (monthDay_bounds _ _ h.1 h.2.1 h.2.2).2

theorem absYday_daysSinceEpoch (y yd : Int) (h0 : 0 ≤ yd)
    (h1 : yd < 365 ∨ (yd = 365 ∧ isLeap y = true)) :
    absYday ((daysSinceEpoch y + yd) * secondsPerDay) = (y, yd) := by
  rw [isLeap_iff] at h1
  simp only [absYday, daysSinceEpoch, secondsPerDay, daysPer400Years, daysPer100Years,
    daysPer4Years, absoluteZeroYear, sub_neg_eq_add]
  generalize hY : y + 292277022399 = Y at *
  have hy : y = Y - 292277022399 := by omega
  subst hy
  generalize ha : Y / 400 = a
  generalize hr : Y - 400 * a = r
  have br : 0 ≤ r ∧ r < 400 := by omega
  generalize hb : r / 100 = b
  generalize hr2 : r - 100 * b = r2
  have br2 : 0 ≤ r2 ∧ r2 < 100 ∧ 0 ≤ b ∧ b ≤ 3 := by omega
  generalize hc : r2 / 4 = c
  generalize hr3 : r2 - 4 * c = r3
  have br3 : 0 ≤ r3 ∧ r3 ≤ 3 ∧ 0 ≤ c ∧ c ≤ 24 := by omega
  have hY2 : Y = 400 * a + 100 * b + 4 * c + r3 := by omega
  have hleap : yd = 365 → r3 = 3 ∧ (c ≠ 24 ∨ b = 3) := by
    intro h
    rcases h1 with h1 | ⟨-, h4, h5⟩
    · omega
    · omega
  have hyd : yd ≤ 365 := by omega
  generalize hD : (146097 * a + 36524 * b + 1461 * c + 365 * r3 + yd) = D
  have e0 : D * 86400 / 86400 = D := by omega
  rw [e0]
  have e1 : D / 146097 = a := by omega
  rw [e1]
  generalize hd1 : D - 146097 * a = d1
  have hd1' : d1 = 36524 * b + 1461 * c + 365 * r3 + yd := by omega
  generalize hs2 : 1461 * c + 365 * r3 + yd = s2 at *
  have hs2b : 0 ≤ s2 := by omega
  have hcase : s2 < 36524 ∨ (b = 3 ∧ s2 = 36524) := by omega
  have e2 : d1 / 36524 - d1 / 36524 / 4 = b := by
    rcases hcase with h | ⟨h3, h⟩
    · have : d1 / 36524 = b := by omega
      rw [this]
      omega
    · have : d1 / 36524 = 4 := by omega
      rw [this]
      omega
  rw [e2]
  generalize hd2 : d1 - 36524 * b = d2
  have hd2' : d2 = s2 := by omega
  subst hd2'
  generalize hs3 : 365 * r3 + yd = s3 at *
  have hs3b : 0 ≤ s3 ∧ s3 ≤ 1460 := by omega
  have e3 : d2 / 1461 = c := by omega
  rw [e3]
  generalize hd3 : d2 - 1461 * c = d3
  have hd3' : d3 = s3 := by omega
  subst hd3'
  have hcase4 : yd < 365 ∨ (r3 = 3 ∧ yd = 365) := by omega
  have e4 : d3 / 365 - d3 / 365 / 4 = r3 := by
    rcases hcase4 with h | ⟨h3, h⟩
    · have : d3 / 365 = r3 := by omega
      rw [this]
      omega
    · have : d3 / 365 = 4 := by omega
      rw [this]
      omega
  rw [e4]
  simp only [Prod.mk.injEq]
  constructor <;> omega

theorem monthEstimate (year yd day m : Int) (hm1 : 1 ≤ m) (hm2 : m ≤ 12)
    (h1 : daysBeforeAt (m - 1) ≤ day) (h2 : day < daysBeforeAt m) :
    (if day ≥ daysBeforeAt (day / 31 + 1)
      then (⟨year, day / 31 + 2, day - daysBeforeAt (day / 31 + 1) + 1, yd⟩ : civilDate)
      else ⟨year, day / 31 + 1, day - daysBeforeAt (day / 31) + 1, yd⟩)
      = ⟨year, m, day - daysBeforeAt (m - 1) + 1, yd⟩ := by
  generalize hq : day / 31 = q
  have hqb : 0 ≤ q ∧ q ≤ 11 := by
    interval_cases m <;> simp [daysBeforeAt, daysBefore] at h1 h2 <;> omega
  obtain ⟨hq0, hq1⟩ := hqb
  interval_cases m <;> simp [daysBeforeAt, daysBefore] at h1 h2 <;>
    interval_cases q <;> simp [daysBeforeAt, daysBefore] <;> omega

theorem daysBefore_facts (m : Int) (hm1 : 1 ≤ m) (hm2 : m ≤ 12) :
    0 ≤ daysBeforeAt (m - 1) ∧ daysBeforeAt (m - 1) < daysBeforeAt m ∧
      daysBeforeAt m ≤ 365 ∧ (m ≥ 3 → 59 ≤ daysBeforeAt (m - 1)) ∧
      (m = 1 → daysBeforeAt (m - 1) = 0 ∧ daysBeforeAt m = 31) ∧
      (m = 2 → daysBeforeAt (m - 1) = 31 ∧ daysBeforeAt m = 59) ∧
      (daysBeforeAt m = 365 → m = 12) := by
  interval_cases m <;> simp [daysBeforeAt, daysBefore]

theorem monthDay_civil (y m d : Int) (hm1 : 1 ≤ m) (hm2 : m ≤ 12) (hd1 : 1 ≤ d)
    (hd2 : d ≤ daysIn m y) :
    monthDay y (yearDay y m d) = ⟨y, m, d, yearDay y m d⟩ ∧ 0 ≤ yearDay y m d ∧
      (yearDay y m d < 365 ∨ (yearDay y m d = 365 ∧ isLeap y = true)) := by
  obtain ⟨f0, f1, f2, f3, f4, f5, f6⟩ := daysBefore_facts m hm1 hm2
  unfold daysIn at hd2
  unfold monthDay
  cases hl : isLeap y with
  | false =>
    simp only [hl, Bool.false_eq_true, false_and, and_false, if_false] at hd2 ⊢
    have hyd : yearDay y m d = daysBeforeAt (m - 1) + (d - 1) := by
      simp [yearDay, hl]
    have e := monthEstimate y (yearDay y m d) (yearDay y m d) m hm1 hm2 (by omega) (by omega)
    rw [e]
    refine ⟨?_, by omega, Or.inl (by omega)⟩
    congr 1
    omega
  | true =>
    simp only [hl, and_true, true_and] at hd2 ⊢
    by_cases h3 : m ≥ 3
    · have hyd : yearDay y m d = daysBeforeAt (m - 1) + 1 + (d - 1) := by
        simp [yearDay, hl, h3]
      have hm : ¬ m = 2 := by omega
      rw [if_neg hm] at hd2
      have f3' := f3 h3
      have c1 : ¬ (yearDay y m d = 31 + 29 - 1) := by omega
      have c2 : yearDay y m d > 31 + 29 - 1 := by omega
      simp only [c1, c2, if_false, if_true]
      have e := monthEstimate y (yearDay y m d) (yearDay y m d - 1) m hm1 hm2 (by omega)
        (by omega)
      rw [e]
      refine ⟨?_, by omega, by omega⟩
      congr 1
      omega
    · have hyd : yearDay y m d = daysBeforeAt (m - 1) + (d - 1) := by
        simp [yearDay, hl, h3]
      by_cases h29 : m = 2 ∧ d = 29
      · obtain ⟨rfl, rfl⟩ := h29
        have := f5 rfl
        have c1 : yearDay y 2 29 = 31 + 29 - 1 := by omega
        simp only [c1, if_true]
        refine ⟨trivial, by omega, Or.inl (by omega)⟩
      · have hlt : yearDay y m d < 59 := by
          by_cases hm : m = 2
          · have := f5 hm
            rw [if_pos hm] at hd2
            omega
          · have hm' : m = 1 := by omega
            have := f4 hm'
            rw [if_neg hm] at hd2
            omega
        have c1 : ¬ (yearDay y m d = 31 + 29 - 1) := by omega
        have c2 : ¬ (yearDay y m d > 31 + 29 - 1) := by omega
        simp only [c1, c2, if_false]
        have hup : yearDay y m d < daysBeforeAt m := by
          by_cases hm : m = 2
          · have := f5 hm
            omega
          · rw [if_neg hm] at hd2
            omega
        have e := monthEstimate y (yearDay y m d) (yearDay y m d) m hm1 hm2 (by omega) hup
        rw [e]
        refine ⟨?_, by omega, Or.inl (by omega)⟩
        congr 1
        omega

theorem absDate_civil (y m d : Int) (hm1 : 1 ≤ m) (hm2 : m ≤ 12) (hd1 : 1 ≤ d)
    (hd2 : d ≤ daysIn m y) :
    absDate ((daysSinceEpoch y + yearDay y m d) * secondsPerDay)
      = ⟨y, m, d, yearDay y m d⟩ := by
  obtain ⟨h1, h2, h3⟩ := monthDay_civil y m d hm1 hm2 hd1 hd2
  unfold absDate
  rw [absYday_daysSinceEpoch y _ h2 h3]
  exact h1

theorem absClock_eq (t : Time) :
    absClock t.abs = (t.Hour, t.Minute, t.Second) ∧ 0 ≤ t.Hour ∧ t.Hour < 24 ∧
      0 ≤ t.Minute ∧ t.Minute < 60 ∧ 0 ≤ t.Second ∧ t.Second < 60 := by
  simp only [absClock, Time.Hour, Time.Minute, Time.Second, secondsPerDay, secondsPerHour,
    secondsPerMinute, Prod.mk.injEq]
  generalize t.abs = a
  refine ⟨⟨trivial, ?_, ?_⟩, ?_⟩
  all_goals omega

/-! ### Formatting -/

theorem appendInt_two (x : Int) (h0 : 0 ≤ x) (h1 : x < 100) : appendInt x 2 = twoDigits x := by
  simp [appendInt, twoDigits, not_lt.mpr h0, h1]

theorem appendInt_four (x : Int) (h0 : 0 ≤ x) (h1 : x ≤ 9999) :
    appendInt x 4 = fourDigits x := by
  have : x < 10000 := by omega
  simp [appendInt, fourDigits, not_lt.mpr h0, this]

theorem Format_eq_civilLiteral (t : Time) (h0 : 0 ≤ t.Year) (h1 : t.Year ≤ 9999) :
    t.Format rfc5545WithoutOffset = civilLiteral t := by
  have hb := absDate_bounds t.abs
  have hc := absClock_eq t
  simp only [Time.Format, rfc5545WithoutOffset, formatChunks, formatStd, hc.1, civilLiteral,
    List.nil_append, List.append_nil]
  have e1 : appendInt (absDate t.abs).year 4 = fourDigits t.Year := appendInt_four _ h0 h1
  have e2 : appendInt (absDate t.abs).month 2 = twoDigits t.Month :=
    appendInt_two _ (by omega) (by omega)
  have e3 : appendInt (absDate t.abs).day 2 = twoDigits t.Day :=
    appendInt_two _ (by omega) (by omega)
  have e4 : appendInt t.Hour 2 = twoDigits t.Hour := appendInt_two _ (by omega) (by omega)
  have e5 : appendInt t.Minute 2 = twoDigits t.Minute := appendInt_two _ (by omega) (by omega)
  have e6 : appendInt t.Second 2 = twoDigits t.Second := appendInt_two _ (by omega) (by omega)
  rw [e1, e2, e3, e4, e5, e6]
  simp [List.append_assoc]

/-! ### What the layouts consume -/

theorem getnum_fixed_some {s : GoString} {n : Int} {rest : GoString}
    (h : getnum s true = some (n, rest)) :
    ∃ a b, s = a :: b :: rest ∧ isDigitByte a = true ∧ isDigitByte b = true ∧
      n = digitVal a * 10 + digitVal b := by
  match s, h with
  | [], h => simp [getnum, isDigit] at h
  | [a], h =>
    by_cases ha : isDigitByte a = true <;> simp [getnum, isDigit, ha] at h
  | a :: b :: r, h =>
    by_cases ha : isDigitByte a = true <;> by_cases hb : isDigitByte b = true <;>
      simp [getnum, isDigit, ha, hb] at h
    exact ⟨a, b, by rw [h.2], ha, hb, h.1.symm⟩

theorem getnum_free_some {s : GoString} {n : Int} {rest : GoString}
    (h : getnum s false = some (n, rest)) :
    ∃ p, s = p ++ rest ∧ ∀ c ∈ p, isDigitByte c = true := by
  match s, h with
  | [], h => simp [getnum, isDigit] at h
  | [a], h =>
    by_cases ha : isDigitByte a = true <;> simp [getnum, isDigit, ha] at h
    exact ⟨[a], by rw [h.2]; rfl, by simpa using ha⟩
  | a :: b :: r, h =>
    by_cases ha : isDigitByte a = true <;> by_cases hb : isDigitByte b = true <;>
      simp [getnum, isDigit, ha, hb] at h
    · exact ⟨[a, b], by rw [← h.2]; rfl, by simp [ha, hb]⟩
    · exact ⟨[a], by rw [← h.2]; rfl, by simpa using ha⟩

theorem leadingInt_all_digits {s : GoString} {x q : Int}
    (h : leadingInt s x = some (q, [])) : ∀ c ∈ s, isDigitByte c = true := by
  induction s generalizing x with
  | nil => simp
  | cons a s ih =>
    unfold leadingInt at h
    by_cases ha : isDigitByte a = true
    · simp only [ha, Bool.not_true, Bool.false_eq_true, if_false] at h
      split_ifs at h
      intro c hc
      rcases List.mem_cons.mp hc with rfl | hc
      · exact ha
      · exact ih h c hc
    · simp [ha] at h

theorem atoi_all_digits {s : GoString} {q : Int} (h0 : isDigit s 0 = true)
    (h : atoi s = some q) : ∀ c ∈ s, isDigitByte c = true := by
  match s, h0, h with
  | [], h0, _ => simp [isDigit] at h0
  | a :: r, h0, h =>
    have ha : isDigitByte a = true := by simpa [isDigit] using h0
    have h1 : a ≠ '-' := by rintro rfl; revert ha; decide
    have h2 : a ≠ '+' := by rintro rfl; revert ha; decide
    simp only [atoi, h1, h2, or_self, if_false] at h
    split at h
    · cases h
    · rename_i q' rem hl
      have hr : rem = [] := by
        by_contra hne
        have : rem.length > 0 := List.length_pos.mpr hne
        simp [this] at h
      subst hr
      exact leadingInt_all_digits hl

theorem take_length_takeWhile (p : Char → Bool) (l : GoString) :
    l.take (l.takeWhile p).length = l.takeWhile p := by
  induction l with
  | nil => rfl
  | cons a l ih =>
    by_cases h : p a = true
    · simp [List.takeWhile_cons, h, ih]
    · simp [List.takeWhile_cons, h]

theorem plainByte_of_commaOrPeriod {c : Char} (h : commaOrPeriod c = true) : plainByte c := by
  simp only [commaOrPeriod, Bool.or_eq_true, beq_iff_eq] at h
  rcases h with h | h
  · exact Or.inr (Or.inr (Or.inl h))
  · exact Or.inr (Or.inr (Or.inr h))

theorem parseStd_consumes {st st' : parseState} {std : Std} {v v' : GoString}
    (h : parseStd st std v = some (st', v')) (hstd : std ≠ .stdISO8601TZ) :
    ∃ p, v = p ++ v' ∧ ∀ c ∈ p, plainByte c := by
  cases std with
  | stdISO8601TZ => exact absurd rfl hstd
  | stdLongYear =>
    simp only [parseStd] at h
    split_ifs at h with hc
    split at h
    · cases h
    · rename_i year hy
      simp only [Option.some.injEq, Prod.mk.injEq] at h
      have hlen : 4 ≤ v.length := by
        by_contra hn
        exact hc (Or.inl (by omega))
      have hd0 : isDigit v 0 = true := by
        by_contra hn
        exact hc (Or.inr (by simpa using hn))
      have hd0' : isDigit (v.take 4) 0 = true := by
        cases v with
        | nil => simp [isDigit] at hd0
        | cons a r => simpa [isDigit] using hd0
      refine ⟨v.take 4, ?_, fun c hc => Or.inl (atoi_all_digits hd0' hy c hc)⟩
      rw [← h.2, List.take_append_drop]
  | stdZeroMonth =>
    simp only [parseStd] at h
    split at h
    · cases h
    · rename_i n rest hg
      split_ifs at h
      simp only [Option.some.injEq, Prod.mk.injEq] at h
      obtain ⟨a, b, hs, ha, hb, -⟩ := getnum_fixed_some hg
      exact ⟨[a, b], by rw [hs, ← h.2]; rfl, by simp [plainByte, ha, hb]⟩
  | stdZeroDay =>
    simp only [parseStd] at h
    split at h
    · cases h
    · rename_i n rest hg
      simp only [Option.some.injEq, Prod.mk.injEq] at h
      obtain ⟨a, b, hs, ha, hb, -⟩ := getnum_fixed_some hg
      exact ⟨[a, b], by rw [hs, ← h.2]; rfl, by simp [plainByte, ha, hb]⟩
  | stdHour =>
    simp only [parseStd] at h
    split at h
    · cases h
    · rename_i n rest hg
      split_ifs at h
      simp only [Option.some.injEq, Prod.mk.injEq] at h
      obtain ⟨p, hs, hp⟩ := getnum_free_some hg
      exact ⟨p, by rw [hs, ← h.2], fun c hc => Or.inl (hp c hc)⟩
  | stdZeroMinute =>
    simp only [parseStd] at h
    split at h
    · cases h
    · rename_i n rest hg
      split_ifs at h
      simp only [Option.some.injEq, Prod.mk.injEq] at h
      obtain ⟨a, b, hs, ha, hb, -⟩ := getnum_fixed_some hg
      exact ⟨[a, b], by rw [hs, ← h.2]; rfl, by simp [plainByte, ha, hb]⟩
  | stdZeroSecond =>
    simp only [parseStd] at h
    split at h
    · cases h
    · rename_i n rest hg
      obtain ⟨a, b, hs, ha, hb, -⟩ := getnum_fixed_some hg
      split_ifs at h with h1 h2
      · -- a fraction of a second follows
        split at h
        · cases h
        · simp only [Option.some.injEq, Prod.mk.injEq] at h
          obtain ⟨hl, hsep, hdig⟩ := h2
          match rest, hl, hsep, hdig, h with
          | x :: y :: r, _, hsep, hdig, h =>
            have hx : plainByte x := plainByte_of_commaOrPeriod (by simpa using hsep)
            have hy : isDigitByte y = true := by simpa [isDigit] using hdig
            refine ⟨[a, b] ++ (x :: y :: r.takeWhile isDigitByte), ?_, ?_⟩
            · rw [hs, ← h.2]
              have e : 2 + (List.takeWhile isDigitByte (List.drop 2 (x :: y :: r))).length
                  = (r.takeWhile isDigitByte).length + 2 := by
                simp only [List.drop_succ_cons, List.drop_zero]; omega
              rw [e]
              simp only [List.drop_succ_cons, List.cons_append, List.nil_append,
                List.cons.injEq, true_and]
              conv_lhs => rw [← List.take_append_drop (r.takeWhile isDigitByte).length r]
              rw [take_length_takeWhile]
            · intro c hc
              simp only [List.cons_append, List.nil_append, List.mem_cons] at hc
              rcases hc with rfl | rfl | rfl | rfl | hc
              · exact Or.inl ha
              · exact Or.inl hb
              · exact hx
              · exact Or.inl hy
              · have := List.mem_takeWhile_imp hc
                exact Or.inl this
      · simp only [Option.some.injEq, Prod.mk.injEq] at h
        exact ⟨[a, b], by rw [hs, ← h.2]; rfl, by simp [plainByte, ha, hb]⟩

theorem skip_nil (v : GoString) : skip v [] = some v := by
  cases v <;> rfl

theorem skip_T {v v' : GoString} (h : skip v ['T'] = some v') : v = 'T' :: v' := by
  cases v with
  | nil => simp [skip, skipLoop] at h
  | cons x xs =>
    by_cases hx : x = 'T'
    · subst hx
      simp [skip, skipLoop] at h
      rw [h]
    · simp [skip, skipLoop, hx] at h

theorem skip_T_nil : skip [] ['T'] = none := rfl

theorem parseChunks_append (cs ds : List chunk) (st : parseState) (v : GoString) :
    parseChunks (cs ++ ds) st v
      = match parseChunks cs st v with
        | none => none
        | some (st1, v1) => parseChunks ds st1 v1 := by
  induction cs generalizing st v with
  | nil => rfl
  | cons c cs ih =>
    simp only [List.cons_append, parseChunks]
    cases skip v c.pre with
    | none => rfl
    | some v1 =>
      simp only []
      cases parseStd st c.std v1 with
      | none => rfl
      | some r => exact ih r.1 r.2

theorem parseChunks_consumes {cs : List chunk} {st st' : parseState} {v v' : GoString}
    (hcs : ∀ c ∈ cs, (c.pre = [] ∨ c.pre = ['T']) ∧ c.std ≠ .stdISO8601TZ)
    (h : parseChunks cs st v = some (st', v')) :
    ∃ p, v = p ++ v' ∧ ∀ c ∈ p, plainByte c := by
  induction cs generalizing st v with
  | nil =>
    simp only [parseChunks, Option.some.injEq, Prod.mk.injEq] at h
    exact ⟨[], by simp [h.2], by simp⟩
  | cons c cs ih =>
    have hc := hcs c (List.mem_cons_self _ _)
    have hrest : ∀ d ∈ cs, (d.pre = [] ∨ d.pre = ['T']) ∧ d.std ≠ .stdISO8601TZ :=
      fun d hd => hcs d (List.mem_cons_of_mem _ hd)
    simp only [parseChunks] at h
    cases hs : skip v c.pre with
    | none => simp [hs] at h
    | some v1 =>
      simp only [hs] at h
      cases hp : parseStd st c.std v1 with
      | none => simp [hp] at h
      | some r =>
        obtain ⟨st1, v2⟩ := r
        simp only [hp] at h
        obtain ⟨p2, e2, a2⟩ := parseStd_consumes hp hc.2
        obtain ⟨p3, e3, a3⟩ := ih hrest h
        rcases hc.1 with hpre | hpre
        · rw [hpre, skip_nil] at hs
          cases hs
          refine ⟨p2 ++ p3, by rw [e2, e3, List.append_assoc], ?_⟩
          intro x hx
          rcases List.mem_append.mp hx with hx | hx
          · exact a2 x hx
          · exact a3 x hx
        · rw [hpre] at hs
          have e1 := skip_T hs
          refine ⟨'T' :: (p2 ++ p3), by rw [e1, e2, e3]; simp, ?_⟩
          intro x hx
          rcases List.mem_cons.mp hx with rfl | hx
          · exact Or.inr (Or.inl rfl)
          · rcases List.mem_append.mp hx with hx | hx
            · exact a2 x hx
            · exact a3 x hx

theorem parseStd_zone_end {st st' : parseState} {v : GoString}
    (h : parseStd st .stdISO8601TZ v = some (st', [])) :
    v = ['Z'] ∨ ∃ s a b c d, v = [s, a, b, c, d] ∧ (s = '+' ∨ s = '-') ∧
      isDigitByte a = true ∧ isDigitByte b = true ∧ isDigitByte c = true ∧
      isDigitByte d = true := by
  simp only [parseStd] at h
  by_cases h1 : v.length ≥ 1 ∧ v.headD '0' = 'Z'
  · left
    rw [if_pos h1] at h
    simp only [Option.some.injEq, Prod.mk.injEq] at h
    match v, h1, h with
    | x :: r, h1, h =>
      simp only [List.headD_cons] at h1
      simp only [List.drop_succ_cons, List.drop_zero] at h
      rw [h1.2, h.2]
  · right
    rw [if_neg h1] at h
    by_cases h2 : v.length < 5
    · rw [if_pos h2] at h
      cases h
    · rw [if_neg h2] at h
      match v, h2, h with
      | [s, a, b, c, d], _, h =>
        simp only [List.drop_succ_cons, List.drop_zero, List.take_succ_cons, List.take_zero,
          List.headD_cons] at h
        split at h
        · cases h
        · rename_i hr r1 hg1
          split at h
          · cases h
          · rename_i mm r2 hg2
            obtain ⟨a', b', e1, ha, hb, -⟩ := getnum_fixed_some hg1
            obtain ⟨c', d', e2, hc, hd, -⟩ := getnum_fixed_some hg2
            simp only [List.cons.injEq] at e1 e2
            obtain ⟨rfl, rfl, -⟩ := e1
            obtain ⟨rfl, rfl, -⟩ := e2
            refine ⟨s, a, b, c, d, rfl, ?_, ha, hb, hc, hd⟩
            by_cases hp : s = '+'
            · exact Or.inl hp
            · by_cases hm : s = '-'
              · exact Or.inr hm
              · simp [hp, hm] at h
      | [], h2, _ => simp at h2
      | [_], h2, _ => simp at h2
      | [_, _], h2, _ => simp at h2
      | [_, _, _], h2, _ => simp at h2
      | [_, _, _, _], h2, _ => simp at h2
      | _ :: _ :: _ :: _ :: _ :: _ :: _, _, h =>
        simp only [List.drop_succ_cons, List.drop_zero] at h
        split at h
        · cases h
        · split at h
          · cases h
          · split_ifs at h <;> simp at h

theorem matchesLayout_loc (L : Layout) (lit : GoString) (loc loc' : Location) :
    matchesLayout L lit loc = matchesLayout L lit loc' := by
  unfold matchesLayout ParseInLocation parse
  cases parseChunks L.chunks parseState.init lit with
  | none => rfl
  | some r =>
    obtain ⟨st, rest⟩ := r
    simp only []
    cases skip rest L.tail with
    | none => rfl
    | some rest' =>
      simp only []
      split_ifs <;> first | rfl | (cases st.z <;> rfl)

theorem matches_parseChunks {L : Layout} {lit : GoString} {loc : Location}
    (h : matchesLayout L lit loc = true) :
    ∃ st rest, parseChunks L.chunks parseState.init lit = some (st, rest) ∧
      skip rest L.tail = some [] := by
  unfold matchesLayout ParseInLocation parse at h
  cases hpc : parseChunks L.chunks parseState.init lit with
  | none => simp [hpc] at h
  | some r =>
    obtain ⟨st, rest⟩ := r
    simp only [hpc] at h
    cases hs : skip rest L.tail with
    | none => simp [hs] at h
    | some rest' =>
      simp only [hs] at h
      by_cases hl : rest'.length ≠ 0
      · simp [hl] at h
      · have : rest' = [] := by
          cases rest' with
          | nil => rfl
          | cons _ _ => simp at hl
        exact ⟨st, rest, rfl, by rw [hs, this]⟩

theorem plain_chunks_withoutOffset :
    ∀ c ∈ rfc5545WithoutOffset.chunks,
      (c.pre = [] ∨ c.pre = ['T']) ∧ c.std ≠ .stdISO8601TZ := by
  decide

theorem plain_chunks_date :
    ∀ c ∈ rfc5545Date.chunks, (c.pre = [] ∨ c.pre = ['T']) ∧ c.std ≠ .stdISO8601TZ := by
  decide

theorem hasOffsetSuffix_append_Z (p : GoString) : hasOffsetSuffix (p ++ ['Z']) = true := by
  simp [hasOffsetSuffix]

theorem hasOffsetSuffix_append_offset (p : GoString) (s a b c d : Char)
    (hs : s = '+' ∨ s = '-') (ha : isDigitByte a = true) (hb : isDigitByte b = true)
    (hc : isDigitByte c = true) (hd : isDigitByte d = true) :
    hasOffsetSuffix (p ++ [s, a, b, c, d]) = true := by
  have hdZ : d ≠ 'Z' := by rintro rfl; revert hd; decide
  have : (p ++ [s, a, b, c, d]).reverse = d :: c :: b :: a :: s :: p.reverse := by simp
  unfold hasOffsetSuffix
  rw [this]
  split
  · rename_i heq
    simp only [List.cons.injEq] at heq
    exact absurd heq.1 hdZ
  · rename_i heq
    simp only [List.cons.injEq] at heq
    obtain ⟨rfl, rfl, rfl, rfl, rfl, -⟩ := heq
    rcases hs with rfl | rfl <;> simp [ha, hb, hc, hd]
  · rename_i h1 h2
    exact absurd rfl (h2 _ _ _ _ _ _)

theorem hasOffsetSuffix_of_withOffset {lit : GoString} {loc : Location}
    (h : matchesLayout rfc5545WithOffset lit loc = true) : hasOffsetSuffix lit = true := by
  obtain ⟨st, rest, hpc, hs⟩ := matches_parseChunks h
  have hr : rest = [] := by
    have : skip rest [] = some [] := hs
    rw [skip_nil] at this
    exact Option.some.inj this
  subst hr
  have hch : rfc5545WithOffset.chunks
      = rfc5545WithoutOffset.chunks ++ [⟨[], .stdISO8601TZ⟩] := rfl
  rw [hch, parseChunks_append] at hpc
  cases h1 : parseChunks rfc5545WithoutOffset.chunks parseState.init lit with
  | none => rw [h1] at hpc; cases hpc
  | some r =>
    obtain ⟨st1, v1⟩ := r
    rw [h1] at hpc
    simp only [parseChunks, skip_nil] at hpc
    obtain ⟨p, e, -⟩ := parseChunks_consumes plain_chunks_withoutOffset h1
    cases h2 : parseStd st1 .stdISO8601TZ v1 with
    | none => simp [h2] at hpc
    | some r2 =>
      obtain ⟨st2, v2⟩ := r2
      simp only [h2, Option.some.injEq, Prod.mk.injEq] at hpc
      rw [hpc.2] at h2
      rcases parseStd_zone_end h2 with hz | ⟨s, a, b, c, d, hv, hs, ha, hb, hc, hd⟩
      · rw [e, hz]
        exact hasOffsetSuffix_append_Z p
      · rw [e, hv]
        exact hasOffsetSuffix_append_offset p s a b c d hs ha hb hc hd

theorem plain_of_matches {L : Layout} {lit : GoString} {loc : Location}
    (hL : ∀ c ∈ L.chunks, (c.pre = [] ∨ c.pre = ['T']) ∧ c.std ≠ .stdISO8601TZ)
    (ht : L.tail = []) (h : matchesLayout L lit loc = true) : ∀ c ∈ lit, plainByte c := by
  obtain ⟨st, rest, hpc, hs⟩ := matches_parseChunks h
  rw [ht, skip_nil] at hs
  have hr : rest = [] := Option.some.inj hs
  subst hr
  obtain ⟨p, e, hp⟩ := parseChunks_consumes hL hpc
  rw [e, List.append_nil]
  exact hp

theorem not_plain_Z : ¬ plainByte 'Z' := by
  simp [plainByte]; decide

theorem not_plain_plus : ¬ plainByte '+' := by
  simp [plainByte]; decide

theorem not_plain_minus : ¬ plainByte '-' := by
  simp [plainByte]; decide

theorem hasOffsetSuffix_of_plain {lit : GoString} (h : ∀ c ∈ lit, plainByte c) :
    hasOffsetSuffix lit = false := by
  have hrev : ∀ c ∈ lit.reverse, plainByte c := fun c hc => h c (List.mem_reverse.mp hc)
  unfold hasOffsetSuffix
  split
  · rename_i r heq
    rw [heq] at hrev
    exact absurd (hrev 'Z' (List.mem_cons_self _ _)) not_plain_Z
  · rename_i d c b a s r hZ heq
    rw [heq] at hrev
    have hs : plainByte s := hrev s (by simp)
    have h1 : s ≠ '+' := by rintro rfl; exact not_plain_plus hs
    have h2 : s ≠ '-' := by rintro rfl; exact not_plain_minus hs
    simp [h1, h2]
  · rfl

theorem parseLayouts_offsetFound (lit : GoString) (loc : Location) :
    (parseLayouts lit loc).1 = matchesLayout rfc5545WithOffset lit loc := by
  unfold parseLayouts matchesLayout
  cases ParseInLocation rfc5545WithOffset lit loc <;>
    cases ParseInLocation rfc5545WithoutOffset lit loc <;>
    cases ParseInLocation rfc5545Date lit loc <;> rfl

theorem parseLayouts_err_none (lit : GoString) (loc : Location) :
    (parseLayouts lit loc).2.2 = none ↔
      (matchesLayout rfc5545WithOffset lit loc = true ∨
        matchesLayout rfc5545WithoutOffset lit loc = true ∨
        matchesLayout rfc5545Date lit loc = true) := by
  unfold parseLayouts matchesLayout
  cases ParseInLocation rfc5545WithOffset lit loc <;>
    cases ParseInLocation rfc5545WithoutOffset lit loc <;>
    cases ParseInLocation rfc5545Date lit loc <;> simp

/-! ### Date-only literals -/

theorem digitVal_range {c : Char} (h : isDigitByte c = true) :
    0 ≤ digitVal c ∧ digitVal c ≤ 9 := by
  simp only [isDigitByte, Bool.and_eq_true, decide_eq_true_eq] at h
  unfold digitVal
  omega

theorem leadingInt_step (c : Char) (s : GoString) (x : Int) (hc : isDigitByte c = true)
    (hx0 : 0 ≤ x) (hx : x ≤ 99999) :
    leadingInt (c :: s) x = leadingInt s (x * 10 + digitVal c) := by
  have := digitVal_range hc
  rw [leadingInt]
  simp only [hc, Bool.not_true, Bool.false_eq_true, if_false]
  rw [if_neg (by omega), if_neg (by omega)]

theorem atoi_four (a b c d : Char) (ha : isDigitByte a = true) (hb : isDigitByte b = true)
    (hc : isDigitByte c = true) (hd : isDigitByte d = true) :
    atoi [a, b, c, d] = some (digits4 a b c d) := by
  have ra := digitVal_range ha
  have rb := digitVal_range hb
  have rc := digitVal_range hc
  have rd := digitVal_range hd
  have h1 : a ≠ '-' := by rintro rfl; revert ha; decide
  have h2 : a ≠ '+' := by rintro rfl; revert ha; decide
  simp only [atoi, h1, h2, or_self, if_false]
  rw [leadingInt_step a _ 0 ha (by omega) (by omega),
    leadingInt_step b _ _ hb (by omega) (by omega),
    leadingInt_step c _ _ hc (by omega) (by omega),
    leadingInt_step d _ _ hd (by omega) (by omega)]
  simp only [leadingInt, List.length_nil, gt_iff_lt, lt_self_iff_false, if_false,
    Option.some.injEq, digits4]
  rw [if_neg Bool.false_ne_true]
  ring

theorem getnum_two (a b : Char) (r : GoString) (ha : isDigitByte a = true)
    (hb : isDigitByte b = true) : getnum (a :: b :: r) true = some (digits2 a b, r) := by
  simp [getnum, isDigit, ha, hb, digits2]

theorem parseStd_year (st : parseState) (a b c d : Char) (r : GoString)
    (ha : isDigitByte a = true) (hb : isDigitByte b = true) (hc : isDigitByte c = true)
    (hd : isDigitByte d = true) :
    parseStd st .stdLongYear (a :: b :: c :: d :: r)
      = some ({ st with year := digits4 a b c d }, r) := by
  have hy : atoi (List.take 4 (a :: b :: c :: d :: r)) = some (digits4 a b c d) :=
    atoi_four a b c d ha hb hc hd
  have hlen : ¬ ((a :: b :: c :: d :: r).length < 4 ∨ (!isDigit (a :: b :: c :: d :: r) 0) = true) := by
    simp [isDigit, ha]
  simp only [parseStd]
  rw [if_neg hlen, hy]
  rfl

theorem parseStd_month (st : parseState) (a b : Char) (r : GoString)
    (ha : isDigitByte a = true) (hb : isDigitByte b = true) (h1 : 1 ≤ digits2 a b)
    (h2 : digits2 a b ≤ 12) :
    parseStd st .stdZeroMonth (a :: b :: r) = some ({ st with month := digits2 a b }, r) := by
  have hrange : ¬ (digits2 a b ≤ 0 ∨ 12 < digits2 a b) := by omega
  simp only [parseStd]
  rw [getnum_two a b r ha hb]
  simp only [hrange, if_false]

theorem parseStd_day (st : parseState) (a b : Char) (r : GoString)
    (ha : isDigitByte a = true) (hb : isDigitByte b = true) :
    parseStd st .stdZeroDay (a :: b :: r) = some ({ st with day := digits2 a b }, r) := by
  simp only [parseStd]
  rw [getnum_two a b r ha hb]

/-- The three leading chunks that all layouts of `time.go` share. -/
theorem parseChunks_ymd (c1 c2 c3 c4 c5 c6 c7 c8 : Char) (r : GoString)
    (hdig : ∀ c ∈ [c1, c2, c3, c4, c5, c6, c7, c8], isDigitByte c = true)
    (hm1 : 1 ≤ digits2 c5 c6) (hm2 : digits2 c5 c6 ≤ 12) :
    parseChunks rfc5545Date.chunks parseState.init (c1 :: c2 :: c3 :: c4 :: c5 :: c6 :: c7 :: c8 :: r)
      = some ({ parseState.init with
          year := digits4 c1 c2 c3 c4, month := digits2 c5 c6, day := digits2 c7 c8 }, r) := by
  simp only [List.mem_cons, List.mem_singleton, forall_eq_or_imp, forall_eq,
    List.not_mem_nil, false_implies, implies_true, and_true] at hdig
  obtain ⟨h1, h2, h3, h4, h5, h6, h7, h8⟩ := hdig
  simp only [rfc5545Date, parseChunks, skip_nil]
  rw [parseStd_year _ c1 c2 c3 c4 _ h1 h2 h3 h4]
  simp only []
  rw [parseStd_month _ c5 c6 _ h5 h6 hm1 hm2]
  simp only []
  rw [parseStd_day _ c7 c8 _ h7 h8]

theorem parseLayouts_date (c1 c2 c3 c4 c5 c6 c7 c8 : Char) (loc : Location)
    (hdig : ∀ c ∈ [c1, c2, c3, c4, c5, c6, c7, c8], isDigitByte c = true)
    (hm1 : 1 ≤ digits2 c5 c6) (hm2 : digits2 c5 c6 ≤ 12) (hd1 : 1 ≤ digits2 c7 c8)
    (hd2 : digits2 c7 c8 ≤ daysIn (digits2 c5 c6) (digits4 c1 c2 c3 c4)) :
    parseLayouts [c1, c2, c3, c4, c5, c6, c7, c8] loc
      = (false, Date (digits4 c1 c2 c3 c4) (digits2 c5 c6) (digits2 c7 c8) 0 0 0 0 loc, none) := by
  have hymd := parseChunks_ymd c1 c2 c3 c4 c5 c6 c7 c8 [] hdig hm1 hm2
  have e1 : rfc5545WithOffset.chunks = rfc5545Date.chunks ++
      [⟨['T'], .stdHour⟩, ⟨[], .stdZeroMinute⟩, ⟨[], .stdZeroSecond⟩, ⟨[], .stdISO8601TZ⟩] := rfl
  have e2 : rfc5545WithoutOffset.chunks = rfc5545Date.chunks ++
      [⟨['T'], .stdHour⟩, ⟨[], .stdZeroMinute⟩, ⟨[], .stdZeroSecond⟩] := rfl
  have p1 : ParseInLocation rfc5545WithOffset [c1, c2, c3, c4, c5, c6, c7, c8] loc
      = .error (.parseError rfc5545WithOffset.text [c1, c2, c3, c4, c5, c6, c7, c8]) := by
    unfold ParseInLocation parse
    rw [e1, parseChunks_append, hymd]
    simp only [parseChunks, skip_T_nil]
  have p2 : ParseInLocation rfc5545WithoutOffset [c1, c2, c3, c4, c5, c6, c7, c8] loc
      = .error (.parseError rfc5545WithoutOffset.text [c1, c2, c3, c4, c5, c6, c7, c8]) := by
    unfold ParseInLocation parse
    rw [e2, parseChunks_append, hymd]
    simp only [parseChunks, skip_T_nil]
  have p3 : ParseInLocation rfc5545Date [c1, c2, c3, c4, c5, c6, c7, c8] loc
      = .ok (Date (digits4 c1 c2 c3 c4) (digits2 c5 c6) (digits2 c7 c8) 0 0 0 0 loc) := by
    unfold ParseInLocation parse
    rw [hymd]
    have ht : rfc5545Date.tail = [] := rfl
    have hmn : ¬ (digits2 c5 c6 < 0) := by omega
    have hdn : ¬ (digits2 c7 c8 < 0) := by omega
    have hv : ¬ (digits2 c7 c8 < 1 ∨
        digits2 c7 c8 > daysIn (digits2 c5 c6) (digits4 c1 c2 c3 c4)) := by omega
    simp only [ht, skip_nil, List.length_nil, ne_eq, not_true_eq_false, if_false, hmn, hdn, hv,
      parseState.init]
  unfold parseLayouts
  rw [p1]
  simp only []
  rw [p2]
  simp only []
  rw [p3]

/-! ### `time.Date` at midnight and the normalisation -/

theorem norm_id (hi lo base : Int) (h0 : 0 ≤ lo) (h1 : lo < base) :
    norm hi lo base = (hi, lo) := by
  simp [time.norm, not_lt.mpr h0, not_le.mpr h1]

theorem Time_offset_eq (s n : Int) (loc : Location) :
    Time.offset ⟨s, n, loc⟩ = (loc.lookup s).offset := by
  cases loc <;> rfl

theorem midnightUTC_eq (y m d : Int) (hm1 : 1 ≤ m) (hm2 : m ≤ 12) :
    midnightUTC y m d = (daysSinceEpoch y + yearDay y m d) * secondsPerDay - unixToAbsolute := by
  have n1 := norm_id y (m - 1) 12 (by omega) (by omega)
  have n2 := norm_id 0 0 1000000000 (by omega) (by omega)
  have n3 := norm_id 0 0 60 (by omega) (by omega)
  have n4 := norm_id d 0 24 (by omega) (by omega)
  unfold midnightUTC Date
  simp only [n1, n2, n3, n4]
  have hl : ∀ s : Int, (UTC.lookup s).offset = 0 := fun _ => rfl
  simp only [hl, ne_eq, not_true_eq_false, if_false, yearDay, secondsPerHour, secondsPerMinute,
    sub_add_cancel]
  split_ifs <;> ring

theorem Date_midnight_fields (y m d : Int) (loc : Location) :
    Date y m d 0 0 0 0 loc = ⟨(Date y m d 0 0 0 0 loc).sec, 0, loc⟩ := by
  have hn : (Date y m d 0 0 0 0 loc).nsec = 0 := by
    unfold Date
    simp only [norm_id 0 0 1000000000 (by omega) (by omega)]
  have hl : (Date y m d 0 0 0 0 loc).loc = loc := rfl
  have : Date y m d 0 0 0 0 loc
      = ⟨(Date y m d 0 0 0 0 loc).sec, (Date y m d 0 0 0 0 loc).nsec,
          (Date y m d 0 0 0 0 loc).loc⟩ := rfl
  rw [this, hn, hl]

theorem Date_midnight (y m d : Int) (loc : Location)
    (h1 : (loc.lookup (midnightUTC y m d - (loc.lookup (midnightUTC y m d)).offset)).offset
      = (loc.lookup (midnightUTC y m d)).offset) :
    Date y m d 0 0 0 0 loc
      = ⟨midnightUTC y m d - (loc.lookup (midnightUTC y m d)).offset, 0, loc⟩ := by
  have hu : (Date y m d 0 0 0 0 loc).sec
      = (let u := midnightUTC y m d
         let span := loc.lookup u
         if span.offset ≠ 0 then
           u - (if u - span.offset < span.start ∨ u - span.offset ≥ span.stop
             then (loc.lookup (u - span.offset)).offset else span.offset)
         else u) := by
    unfold midnightUTC Date
    simp only [UTC, Location.lookup, ne_eq, not_true_eq_false, if_false]
  have hn : (Date y m d 0 0 0 0 loc).nsec = 0 := by
    unfold Date
    simp only [norm_id 0 0 1000000000 (by omega) (by omega)]
  have hl : (Date y m d 0 0 0 0 loc).loc = loc := rfl
  have : Date y m d 0 0 0 0 loc
      = ⟨(Date y m d 0 0 0 0 loc).sec, (Date y m d 0 0 0 0 loc).nsec,
          (Date y m d 0 0 0 0 loc).loc⟩ := rfl
  rw [this, hu, hn, hl]
  simp only [h1]
  congr 1
  split_ifs <;> omega

theorem Add_minus_hour (s : Int) (loc : Location) :
    Time.Add ⟨s, 0, loc⟩ (-1 * time.Hour) = ⟨s - 3600, 0, loc⟩ := by
  have e1 : Int.tdiv (-1 * time.Hour) 1000000000 = -3600 := by decide
  have e2 : Int.tmod (-1 * time.Hour) 1000000000 = 0 := by decide
  unfold Time.Add
  simp only [e1, e2]
  simp
  rfl

theorem twoAMAt_of_head_ne (c : Char) (s : GoString) (h : c ≠ 'T') :
    twoAMAt (c :: s) = false := by
  unfold twoAMAt
  split
  · rename_i heq
    simp only [List.cons.injEq] at heq
    exact absurd heq.1 h
  · rfl

theorem twoAMRegex_digits (s : GoString) (h : ∀ c ∈ s, isDigitByte c = true) :
    twoAMRegex.MatchString s = false := by
  induction s with
  | nil => rfl
  | cons c s ih =>
    have hc : c ≠ 'T' := by
      rintro rfl
      have := h 'T' (List.mem_cons_self _ _)
      revert this
      decide
    unfold twoAMRegex.MatchString
    rw [twoAMAt_of_head_ne c s hc, ih (fun x hx => h x (List.mem_cons_of_mem _ hx))]
    rfl

/-! ### The location of a parsed time -/

theorem Add_loc (t : Time) (d : Int) : (t.Add d).loc = t.loc := by
  simp only [Time.Add]
  split_ifs <;> rfl

theorem normalizeDST_loc (t : Time) (str : GoString) : (normalizeDST t str).loc = t.loc := by
  unfold normalizeDST
  simp only []
  split_ifs
  · exact Add_loc _ _
  · exact Add_loc _ _
  · rfl

theorem parseStd_keeps_zone {st st' : parseState} {std : Std} {v v' : GoString}
    (h : parseStd st std v = some (st', v')) (hstd : std ≠ .stdISO8601TZ) :
    st'.z = st.z ∧ st'.zoneOffset = st.zoneOffset := by
  cases std with
  | stdISO8601TZ => exact absurd rfl hstd
  | stdLongYear =>
    simp only [parseStd] at h
    split_ifs at h
    split at h
    · cases h
    · simp only [Option.some.injEq, Prod.mk.injEq] at h
      rw [← h.1]
      exact ⟨rfl, rfl⟩
  | stdZeroMonth =>
    simp only [parseStd] at h
    split at h
    · cases h
    · split_ifs at h
      simp only [Option.some.injEq, Prod.mk.injEq] at h
      rw [← h.1]
      exact ⟨rfl, rfl⟩
  | stdZeroDay =>
    simp only [parseStd] at h
    split at h
    · cases h
    · simp only [Option.some.injEq, Prod.mk.injEq] at h
      rw [← h.1]
      exact ⟨rfl, rfl⟩
  | stdHour =>
    simp only [parseStd] at h
    split at h
    · cases h
    · split_ifs at h
      simp only [Option.some.injEq, Prod.mk.injEq] at h
      rw [← h.1]
      exact ⟨rfl, rfl⟩
  | stdZeroMinute =>
    simp only [parseStd] at h
    split at h
    · cases h
    · split_ifs at h
      simp only [Option.some.injEq, Prod.mk.injEq] at h
      rw [← h.1]
      exact ⟨rfl, rfl⟩
  | stdZeroSecond =>
    simp only [parseStd] at h
    split at h
    · cases h
    · split_ifs at h
      · split at h
        · cases h
        · simp only [Option.some.injEq, Prod.mk.injEq] at h
          rw [← h.1]
          exact ⟨rfl, rfl⟩
      · simp only [Option.some.injEq, Prod.mk.injEq] at h
        rw [← h.1]
        exact ⟨rfl, rfl⟩

theorem parseChunks_keeps_zone {cs : List chunk} {st st' : parseState} {v v' : GoString}
    (hcs : ∀ c ∈ cs, (c.pre = [] ∨ c.pre = ['T']) ∧ c.std ≠ .stdISO8601TZ)
    (h : parseChunks cs st v = some (st', v')) :
    st'.z = st.z ∧ st'.zoneOffset = st.zoneOffset := by
  induction cs generalizing st v with
  | nil =>
    simp only [parseChunks, Option.some.injEq, Prod.mk.injEq] at h
    rw [← h.1]
    exact ⟨rfl, rfl⟩
  | cons c cs ih =>
    have hc := hcs c (List.mem_cons_self _ _)
    have hrest : ∀ d ∈ cs, (d.pre = [] ∨ d.pre = ['T']) ∧ d.std ≠ .stdISO8601TZ :=
      fun d hd => hcs d (List.mem_cons_of_mem _ hd)
    simp only [parseChunks] at h
    cases hs : skip v c.pre with
    | none => simp [hs] at h
    | some v1 =>
      simp only [hs] at h
      cases hp : parseStd st c.std v1 with
      | none => simp [hp] at h
      | some r =>
        obtain ⟨st1, v2⟩ := r
        simp only [hp] at h
        have h1 := parseStd_keeps_zone hp hc.2
        have h2 := ih hrest h
        exact ⟨h2.1.trans h1.1, h2.2.trans h1.2⟩

/-- A layout without zone element yields a time in the location it is parsed in. -/
theorem ParseInLocation_loc {L : Layout} {lit : GoString} {loc : Location} {t : Time}
    (hL : ∀ c ∈ L.chunks, (c.pre = [] ∨ c.pre = ['T']) ∧ c.std ≠ .stdISO8601TZ)
    (h : ParseInLocation L lit loc = .ok t) : t.loc = loc := by
  unfold ParseInLocation parse at h
  cases hpc : parseChunks L.chunks parseState.init lit with
  | none => simp [hpc] at h
  | some r =>
    obtain ⟨st, rest⟩ := r
    have hz := parseChunks_keeps_zone hL hpc
    have hz1 : st.z = none := hz.1
    have hz2 : st.zoneOffset = -1 := hz.2
    simp only [hpc] at h
    cases hs : skip rest L.tail with
    | none => simp [hs] at h
    | some rest' =>
      simp only [hs, hz1, hz2, ne_eq, not_true_eq_false, if_false] at h
      split_ifs at h <;>
        (simp only [Except.ok.injEq] at h
         rw [← h]
         rfl)

theorem parseLayouts_loc_of_floating {lit : GoString} {loc : Location}
    (h1 : (parseLayouts lit loc).1 = false) (h2 : (parseLayouts lit loc).2.2 = none) :
    (parseLayouts lit loc).2.1.loc = loc := by
  unfold parseLayouts at h1 h2 ⊢
  cases e1 : ParseInLocation rfc5545WithOffset lit loc with
  | ok t => simp [e1] at h1
  | error _ =>
    simp only [e1] at h2 ⊢
    cases e2 : ParseInLocation rfc5545WithoutOffset lit loc with
    | ok t =>
      simp only [e2]
      exact ParseInLocation_loc plain_chunks_withoutOffset e2
    | error _ =>
      simp only [e2] at h2 ⊢
      cases e3 : ParseInLocation rfc5545Date lit loc with
      | ok t =>
        simp only [e3]
        exact ParseInLocation_loc plain_chunks_date e3
      | error _ => simp [e3] at h2

/-! ### Where the separators are found -/

theorem sep_toList : ":=".toList = [':', '='] := rfl

/-- The text `;TZID=` is found right after a part that holds no `=`. -/
theorem indexFrom_tzid_append (pre rest : GoString) (k : Nat) (h : '=' ∉ pre) :
    strings.indexFrom ";TZID=".toList (pre ++ ";TZID=".toList ++ rest) k
      = (k : Int) + pre.length := by
  induction pre generalizing k with
  | nil => simp [strings.indexFrom, strings.startsWith, tzid_toList]
  | cons x pre ih =>
    simp only [List.mem_cons, not_or] at h
    have hrec := ih (k + 1) h.2
    have hno : strings.startsWith (x :: (pre ++ ";TZID=".toList ++ rest)) ";TZID=".toList
        = false := by
      rcases pre with _ | ⟨a, _ | ⟨b, _ | ⟨c, _ | ⟨d, _ | ⟨e, pre⟩⟩⟩⟩⟩
      all_goals simp [strings.startsWith, tzid_toList]
      intro _ _ _ _ _ he
      simp [he] at h
    show strings.indexFrom ";TZID=".toList (x :: (pre ++ ";TZID=".toList ++ rest)) k = _
    rw [strings.indexFrom]
    simp only [hno, Bool.false_eq_true, if_false, hrec, List.length_cons]
    push_cast
    omega

theorem Index_tzid_append (pre rest : GoString) (h : '=' ∉ pre) :
    strings.Index (pre ++ ";TZID=".toList ++ rest) ";TZID=".toList = pre.length := by
  have := indexFrom_tzid_append pre rest 0 h
  simpa [strings.Index] using this

theorem not_tzid_of_no_eq {s : GoString} (h : '=' ∉ s) : ¬ ";TZID=".toList <:+: s := by
  intro hi
  exact h (hi.subset (by simp [tzid_toList]))

theorem indexAnyFrom_sep_none (s : GoString) (k : Nat) (h : ∀ c ∈ s, c ≠ ':' ∧ c ≠ '=') :
    strings.indexAnyFrom ":=".toList s k = -1 := by
  induction s generalizing k with
  | nil => rfl
  | cons a s ih =>
    have ha := h a (List.mem_cons_self _ _)
    have hrec := ih (k + 1) (fun c hc => h c (List.mem_cons_of_mem _ hc))
    rw [strings.indexAnyFrom]
    have hc : (":=".toList).contains a = false := by
      simp [sep_toList, ha.1, ha.2]
    simp only [hc, Bool.false_eq_true, if_false, hrec]

theorem indexAnyFrom_sep_append (p l : GoString) (s : Char) (k : Nat)
    (hp : ∀ c ∈ p, c ≠ ':' ∧ c ≠ '=') (hs : s = ':' ∨ s = '=') :
    strings.indexAnyFrom ":=".toList (p ++ s :: l) k = (k : Int) + p.length := by
  induction p generalizing k with
  | nil =>
    have hc : (":=".toList).contains s = true := by
      rcases hs with rfl | rfl <;> simp [sep_toList]
    show strings.indexAnyFrom ":=".toList (s :: l) k = _
    rw [strings.indexAnyFrom]
    simp only [hc, if_true, List.length_nil]
    push_cast
    omega
  | cons a p ih =>
    have ha := hp a (List.mem_cons_self _ _)
    have hrec := ih (k + 1) (fun c hc => hp c (List.mem_cons_of_mem _ hc))
    have hc : (":=".toList).contains a = false := by
      simp [sep_toList, ha.1, ha.2]
    show strings.indexAnyFrom ":=".toList (a :: (p ++ s :: l)) k = _
    rw [strings.indexAnyFrom]
    simp only [hc, Bool.false_eq_true, if_false, hrec, List.length_cons]
    push_cast
    omega

/-- Without annotation and without separator the whole text is the literal. -/
theorem parseTime_no_separator (R : GoString → Except GoError Location) (str : GoString)
    (z : Option Location) (hno : ¬ ";TZID=".toList <:+: str)
    (h : ∀ c ∈ str, c ≠ ':' ∧ c ≠ '=') :
    parseTime R str z = some (parseLiteral (z.getD UTC) false str) := by
  rw [parseTime_absent R str z ((Index_neg_iff _ _).mpr hno)]
  have : strings.IndexAny str ":=".toList = -1 := indexAnyFrom_sep_none str 0 h
  rw [this]
  rfl

/-- Without annotation the literal is what follows the first `:` or `=`. -/
theorem parseTime_separator (R : GoString → Except GoError Location) (p l : GoString)
    (s : Char) (z : Option Location) (hno : ¬ ";TZID=".toList <:+: p ++ s :: l)
    (hp : ∀ c ∈ p, c ≠ ':' ∧ c ≠ '=') (hs : s = ':' ∨ s = '=') :
    parseTime R (p ++ s :: l) z = some (parseLiteral (z.getD UTC) false l) := by
  rw [parseTime_absent R _ z ((Index_neg_iff _ _).mpr hno)]
  have : strings.IndexAny (p ++ s :: l) ":=".toList = p.length := by
    have := indexAnyFrom_sep_append p l s 0 hp hs
    simpa [strings.IndexAny] using this
  rw [this]
  have e : ((p.length : Int) + 1).toNat = (p ++ [s]).length := by
    simp
  rw [e]
  have e2 : p ++ s :: l = (p ++ [s]) ++ l := by simp
  rw [e2, List.drop_left]

/-! ### The calendar, read backwards -/

/-- Every day of a non-leap year lies in one of the twelve months of `daysBefore`. -/
theorem month_of_day (x : Int) (h0 : 0 ≤ x) (h1 : x ≤ 364) :
    ∃ m : Int, 1 ≤ m ∧ m ≤ 12 ∧ daysBeforeAt (m - 1) ≤ x ∧ x < daysBeforeAt m := by
  have h : x < 31 ∨ (31 ≤ x ∧ x < 59) ∨ (59 ≤ x ∧ x < 90) ∨ (90 ≤ x ∧ x < 120) ∨
      (120 ≤ x ∧ x < 151) ∨ (151 ≤ x ∧ x < 181) ∨ (181 ≤ x ∧ x < 212) ∨
      (212 ≤ x ∧ x < 243) ∨ (243 ≤ x ∧ x < 273) ∨ (273 ≤ x ∧ x < 304) ∨
      (304 ≤ x ∧ x < 334) ∨ (334 ≤ x ∧ x < 365) := by omega
  rcases h with h | h | h | h | h | h | h | h | h | h | h | h
  · exact ⟨1, by decide, by decide, by simp [daysBeforeAt, daysBefore]; omega,
      by simp [daysBeforeAt, daysBefore]; omega⟩
  · exact ⟨2, by decide, by decide, by simp [daysBeforeAt, daysBefore]; omega,
      by simp [daysBeforeAt, daysBefore]; omega⟩
  · exact ⟨3, by decide, by decide, by simp [daysBeforeAt, daysBefore]; omega,
      by simp [daysBeforeAt, daysBefore]; omega⟩
  · exact ⟨4, by decide, by decide, by simp [daysBeforeAt, daysBefore]; omega,
      by simp [daysBeforeAt, daysBefore]; omega⟩
  · exact ⟨5, by decide, by decide, by simp [daysBeforeAt, daysBefore]; omega,
      by simp [daysBeforeAt, daysBefore]; omega⟩
  · exact ⟨6, by decide, by decide, by simp [daysBeforeAt, daysBefore]; omega,
      by simp [daysBeforeAt, daysBefore]; omega⟩
  · exact ⟨7, by decide, by decide, by simp [daysBeforeAt, daysBefore]; omega,
      by simp [daysBeforeAt, daysBefore]; omega⟩
  · exact ⟨8, by decide, by decide, by simp [daysBeforeAt, daysBefore]; omega,
      by simp [daysBeforeAt, daysBefore]; omega⟩
  · exact ⟨9, by decide, by decide, by simp [daysBeforeAt, daysBefore]; omega,
      by simp [daysBeforeAt, daysBefore]; omega⟩
  · exact ⟨10, by decide, by decide, by simp [daysBeforeAt, daysBefore]; omega,
      by simp [daysBeforeAt, daysBefore]; omega⟩
  · exact ⟨11, by decide, by decide, by simp [daysBeforeAt, daysBefore]; omega,
      by simp [daysBeforeAt, daysBefore]; omega⟩
  · exact ⟨12, by decide, by decide, by simp [daysBeforeAt, daysBefore]; omega,
      by simp [daysBeforeAt, daysBefore]; omega⟩

/-- Every day of a year is the day of the year of a valid calendar date. -/
theorem yearDay_surjective (y yd : Int) (h0 : 0 ≤ yd) (h1 : yd ≤ 365)
    (h2 : yd = 365 → isLeap y = true) :
    ∃ m d : Int, 1 ≤ m ∧ m ≤ 12 ∧ 1 ≤ d ∧ d ≤ daysIn m y ∧ yearDay y m d = yd := by
  by_cases hl : isLeap y = true
  · by_cases hlo : yd < 59
    · obtain ⟨m, hm1, hm2, hx1, hx2⟩ := month_of_day yd h0 (by omega)
      obtain ⟨f0, f1, f2, f3, f4, f5, f6⟩ := daysBefore_facts m hm1 hm2
      have hm : m < 3 := by
        by_contra hc
        have := f3 (by omega)
        omega
      refine ⟨m, yd - daysBeforeAt (m - 1) + 1, hm1, hm2, by omega, ?_, ?_⟩
      · unfold daysIn
        split_ifs <;> omega
      · unfold yearDay
        rw [if_neg (by omega)]
        omega
    · by_cases h59 : yd = 59
      · refine ⟨2, 29, by decide, by decide, by decide, ?_, ?_⟩
        · simp [daysIn, hl]
        · simp [yearDay, daysBeforeAt, daysBefore, h59]
      · obtain ⟨m, hm1, hm2, hx1, hx2⟩ := month_of_day (yd - 1) (by omega) (by omega)
        obtain ⟨f0, f1, f2, f3, f4, f5, f6⟩ := daysBefore_facts m hm1 hm2
        have hm : 3 ≤ m := by
          by_contra hc
          have hc2 : m = 1 ∨ m = 2 := by omega
          rcases hc2 with e | e
          · have := f4 e
            omega
          · have := f5 e
            omega
        refine ⟨m, yd - 1 - daysBeforeAt (m - 1) + 1, hm1, hm2, by omega, ?_, ?_⟩
        · unfold daysIn
          rw [if_neg (by omega)]
          omega
        · unfold yearDay
          rw [if_pos ⟨hl, by omega⟩]
          omega
  · have hyd : yd ≤ 364 := by
      by_contra hc
      exact hl (h2 (by omega))
    obtain ⟨m, hm1, hm2, hx1, hx2⟩ := month_of_day yd h0 hyd
    refine ⟨m, yd - daysBeforeAt (m - 1) + 1, hm1, hm2, by omega, ?_, ?_⟩
    · unfold daysIn
      rw [if_neg (fun h => hl h.2)]
      omega
    · unfold yearDay
      rw [if_neg (fun h => hl h.1)]
      omega

/-- The month and day that `absDate` computes name the day of the year it started
from, and the day exists in that month. -/
theorem monthDay_inverse (y yd : Int) (h0 : 0 ≤ yd) (h1 : yd ≤ 365)
    (h2 : yd = 365 → isLeap y = true) :
    yearDay y (monthDay y yd).month (monthDay y yd).day = yd ∧
      1 ≤ (monthDay y yd).day ∧ (monthDay y yd).day ≤ daysIn (monthDay y yd).month y := by
  obtain ⟨m, d, hm1, hm2, hd1, hd2, he⟩ := yearDay_surjective y yd h0 h1 h2
  have h := (monthDay_civil y m d hm1 hm2 hd1 hd2).1
  rw [he] at h
  rw [h]
  exact ⟨he, hd1, hd2⟩

/-- The year and the day of the year that `absDate` computes add up to the day number
it started from. -/
theorem daysSinceEpoch_absYday (abs : Int) :
    daysSinceEpoch (absYday abs).1 + (absYday abs).2 = abs / secondsPerDay := by
  simp only [absYday, daysSinceEpoch, secondsPerDay, daysPer400Years, daysPer100Years,
    daysPer4Years, absoluteZeroYear, sub_neg_eq_add]
  generalize abs / 86400 = D
  generalize ha : D / 146097 = a
  generalize hd1 : D - 146097 * a = d1
  have b1 : 0 ≤ d1 ∧ d1 < 146097 := by omega
  generalize hb : d1 / 36524 = b
  generalize hc : b - b / 4 = c
  have b2 : 0 ≤ c ∧ c ≤ 3 := by omega
  generalize hd2 : d1 - 36524 * c = d2
  have b3 : 0 ≤ d2 ∧ d2 ≤ 36524 ∧ (d2 = 36524 → c = 3) := by omega
  generalize he : d2 / 1461 = e
  generalize hd3 : d2 - 1461 * e = d3
  have b4 : 0 ≤ d3 ∧ d3 < 1461 ∧ 0 ≤ e ∧ e ≤ 24 := by omega
  generalize hf : d3 / 365 = f
  generalize hg : f - f / 4 = g
  have b5 : 0 ≤ g ∧ g ≤ 3 := by omega
  generalize hY : 400 * a + 100 * c + 4 * e + g + -292277022399 + 292277022399 = Y
  have hY2 : Y = 400 * a + 100 * c + 4 * e + g := by omega
  have e1 : Y / 400 = a := by omega
  rw [e1]
  generalize hr : Y - 400 * a = r
  have hr2 : r = 100 * c + 4 * e + g := by omega
  have e2 : r / 100 = c := by omega
  rw [e2]
  generalize hr3 : r - 100 * c = r3
  have hr4 : r3 = 4 * e + g := by omega
  have e3 : r3 / 4 = e := by omega
  rw [e3]
  omega

/-! ### Digits written and read back -/

theorem digitByte_facts (k : Int) (h0 : 0 ≤ k) (h1 : k ≤ 9) :
    isDigitByte (digitByte k) = true ∧ digitVal (digitByte k) = k := by
  interval_cases k <;> exact ⟨rfl, rfl⟩

theorem twoDigits_facts (x : Int) (h0 : 0 ≤ x) (h1 : x < 100) :
    ∃ a b : Char, twoDigits x = [a, b] ∧ isDigitByte a = true ∧ isDigitByte b = true ∧
      digits2 a b = x := by
  have ha := digitByte_facts (x / 10) (by omega) (by omega)
  have hb := digitByte_facts (x % 10) (by omega) (by omega)
  refine ⟨_, _, rfl, ha.1, hb.1, ?_⟩
  unfold digits2
  rw [ha.2, hb.2]
  omega

theorem fourDigits_facts (x : Int) (h0 : 0 ≤ x) (h1 : x ≤ 9999) :
    ∃ a b c d : Char, fourDigits x = [a, b, c, d] ∧ isDigitByte a = true ∧
      isDigitByte b = true ∧ isDigitByte c = true ∧ isDigitByte d = true ∧
      digits4 a b c d = x := by
  have ha := digitByte_facts (x / 1000) (by omega) (by omega)
  have hb := digitByte_facts (x / 100 % 10) (by omega) (by omega)
  have hc := digitByte_facts (x / 10 % 10) (by omega) (by omega)
  have hd := digitByte_facts (x % 10) (by omega) (by omega)
  refine ⟨_, _, _, _, rfl, ha.1, hb.1, hc.1, hd.1, ?_⟩
  unfold digits4
  rw [ha.2, hb.2, hc.2, hd.2]
  omega

theorem twoDigits_inj (x y : Int) (hx0 : 0 ≤ x) (hx1 : x < 100) (hy0 : 0 ≤ y) (hy1 : y < 100)
    (h : twoDigits x = twoDigits y) : x = y := by
  obtain ⟨a, b, e1, -, -, v1⟩ := twoDigits_facts x hx0 hx1
  obtain ⟨c, d, e2, -, -, v2⟩ := twoDigits_facts y hy0 hy1
  rw [e1, e2] at h
  simp only [List.cons.injEq, and_true] at h
  rw [← v1, ← v2, h.1, h.2]

theorem fourDigits_inj (x y : Int) (hx0 : 0 ≤ x) (hx1 : x ≤ 9999) (hy0 : 0 ≤ y)
    (hy1 : y ≤ 9999) (h : fourDigits x = fourDigits y) : x = y := by
  obtain ⟨a, b, c, d, e1, -, -, -, -, v1⟩ := fourDigits_facts x hx0 hx1
  obtain ⟨a', b', c', d', e2, -, -, -, -, v2⟩ := fourDigits_facts y hy0 hy1
  rw [e1, e2] at h
  simp only [List.cons.injEq, and_true] at h
  rw [← v1, ← v2, h.1, h.2.1, h.2.2.1, h.2.2.2]

theorem twoDigits_length (x : Int) : (twoDigits x).length = 2 := rfl

theorem fourDigits_length (x : Int) : (fourDigits x).length = 4 := rfl

/-- The civil literal determines the six calendar fields. -/
theorem civilLiteral_inj (t1 t2 : Time) (h10 : 0 ≤ t1.Year) (h11 : t1.Year ≤ 9999)
    (h20 : 0 ≤ t2.Year) (h21 : t2.Year ≤ 9999) (h : civilLiteral t1 = civilLiteral t2) :
    t1.Year = t2.Year ∧ t1.Month = t2.Month ∧ t1.Day = t2.Day ∧ t1.Hour = t2.Hour ∧
      t1.Minute = t2.Minute ∧ t1.Second = t2.Second := by
  have hb1 := absDate_bounds t1.abs
  have hb2 := absDate_bounds t2.abs
  have hc1 := (absClock_eq t1).2
  have hc2 := (absClock_eq t2).2
  unfold civilLiteral at h
  simp only [List.append_assoc] at h
  have s1 := List.append_inj h (by simp [fourDigits_length])
  have s2 := List.append_inj s1.2 (by simp [twoDigits_length])
  have s3 := List.append_inj s2.2 (by simp [twoDigits_length])
  have s4 := List.append_inj s3.2 rfl
  have s5 := List.append_inj s4.2 (by simp [twoDigits_length])
  have s6 := List.append_inj s5.2 (by simp [twoDigits_length])
  refine ⟨fourDigits_inj _ _ h10 h11 h20 h21 s1.1, ?_, ?_, ?_, ?_, ?_⟩
  · exact twoDigits_inj _ _ (by unfold Time.Month; omega) (by unfold Time.Month; omega)
      (by unfold Time.Month; omega) (by unfold Time.Month; omega) s2.1
  · exact twoDigits_inj _ _ (by unfold Time.Day; omega) (by unfold Time.Day; omega)
      (by unfold Time.Day; omega) (by unfold Time.Day; omega) s3.1
  · exact twoDigits_inj _ _ (by omega) (by omega) (by omega) (by omega) s5.1
  · exact twoDigits_inj _ _ (by omega) (by omega) (by omega) (by omega) s6.1
  · exact twoDigits_inj _ _ (by omega) (by omega) (by omega) (by omega) s6.2

/-- The six calendar fields determine the wall-clock second count. -/
theorem abs_of_fields (t1 t2 : Time) (hy : t1.Year = t2.Year) (hm : t1.Month = t2.Month)
    (hd : t1.Day = t2.Day) (hh : t1.Hour = t2.Hour) (hmi : t1.Minute = t2.Minute)
    (hs : t1.Second = t2.Second) : t1.abs = t2.abs := by
  have f1 := absYday_facts t1.abs
  have f2 := absYday_facts t2.abs
  have y1 := (monthDay_bounds _ _ f1.1 f1.2.1 f1.2.2).1
  have y2 := (monthDay_bounds _ _ f2.1 f2.2.1 f2.2.2).1
  have i1 := (monthDay_inverse _ _ f1.1 f1.2.1 f1.2.2).1
  have i2 := (monthDay_inverse _ _ f2.1 f2.2.1 f2.2.2).1
  have a1 := daysSinceEpoch_absYday t1.abs
  have a2 := daysSinceEpoch_absYday t2.abs
  unfold Time.Year absDate at hy
  unfold Time.Month absDate at hm
  unfold Time.Day absDate at hd
  rw [y1, y2] at hy
  rw [hm, hd, hy] at i1
  have hyd : (absYday t1.abs).2 = (absYday t2.abs).2 := i1.symm.trans i2
  have hday : t1.abs / secondsPerDay = t2.abs / secondsPerDay := by
    rw [← a1, ← a2, hy, hyd]
  unfold Time.Hour at hh
  unfold Time.Minute at hmi
  unfold Time.Second at hs
  simp only [secondsPerDay, secondsPerHour, secondsPerMinute] at hday hh hmi hs
  generalize t1.abs = a at *
  generalize t2.abs = b at *
  omega

/-- Two times with four-digit years have the same civil literal exactly when their
wall-clock second counts agree. -/
theorem civilLiteral_eq_iff (t1 t2 : Time) (h10 : 0 ≤ t1.Year) (h11 : t1.Year ≤ 9999)
    (h20 : 0 ≤ t2.Year) (h21 : t2.Year ≤ 9999) :
    civilLiteral t1 = civilLiteral t2 ↔ t1.abs = t2.abs := by
  constructor
  · intro h
    obtain ⟨a, b, c, d, e, f⟩ := civilLiteral_inj t1 t2 h10 h11 h20 h21 h
    exact abs_of_fields t1 t2 a b c d e f
  · intro h
    unfold civilLiteral Time.Year Time.Month Time.Day Time.Hour Time.Minute Time.Second
    rw [h]

/-- With the flag `false`, two times of one zone are formatted alike exactly when
their layout texts agree. -/
theorem formatTime_eq_iff (pfx : GoString) (t1 t2 : Time) (hloc : t1.Location = t2.Location) :
    formatTime pfx t1 false = formatTime pfx t2 false ↔
      t1.Format rfc5545WithoutOffset = t2.Format rfc5545WithoutOffset := by
  unfold formatTime
  simp only [Bool.false_eq_true, if_false, ← hloc]
  split_ifs
  · simp only [List.append_assoc, List.append_right_inj, List.append_left_inj]
  · simp only [List.append_assoc, List.append_right_inj]

/-! ### Date-time literals -/

theorem getnum_free_two (a b : Char) (r : GoString) (ha : isDigitByte a = true)
    (hb : isDigitByte b = true) : getnum (a :: b :: r) false = some (digits2 a b, r) := by
  simp [getnum, isDigit, ha, hb, digits2]

theorem digits2_nonneg (a b : Char) (ha : isDigitByte a = true) (hb : isDigitByte b = true) :
    0 ≤ digits2 a b := by
  have := digitVal_range ha
  have := digitVal_range hb
  unfold digits2
  omega

theorem parseStd_hour (st : parseState) (a b : Char) (r : GoString)
    (ha : isDigitByte a = true) (hb : isDigitByte b = true) (h : digits2 a b < 24) :
    parseStd st .stdHour (a :: b :: r) = some ({ st with hour := digits2 a b }, r) := by
  have h0 := digits2_nonneg a b ha hb
  have hrange : ¬ (digits2 a b < 0 ∨ 24 ≤ digits2 a b) := by omega
  simp only [parseStd]
  rw [getnum_free_two a b r ha hb]
  simp only [hrange, if_false]

theorem parseStd_minute (st : parseState) (a b : Char) (r : GoString)
    (ha : isDigitByte a = true) (hb : isDigitByte b = true) (h : digits2 a b < 60) :
    parseStd st .stdZeroMinute (a :: b :: r) = some ({ st with min := digits2 a b }, r) := by
  have h0 := digits2_nonneg a b ha hb
  have hrange : ¬ (digits2 a b < 0 ∨ 60 ≤ digits2 a b) := by omega
  simp only [parseStd]
  rw [getnum_two a b r ha hb]
  simp only [hrange, if_false]

theorem parseStd_second (st : parseState) (a b : Char) (r : GoString)
    (ha : isDigitByte a = true) (hb : isDigitByte b = true) (h : digits2 a b < 60)
    (hr : r.length < 2) :
    parseStd st .stdZeroSecond (a :: b :: r) = some ({ st with sec := digits2 a b }, r) := by
  have h0 := digits2_nonneg a b ha hb
  have hrange : ¬ (digits2 a b < 0 ∨ 60 ≤ digits2 a b) := by omega
  have hfrac : ¬ (r.length ≥ 2 ∧ commaOrPeriod (r.headD '0') = true ∧ isDigit r 1 = true) := by
    omega
  simp only [parseStd]
  rw [getnum_two a b r ha hb]
  simp only [hrange, if_false, hfrac]

/-- The chunks of the time of day, on `T` and six digits with at most one byte after
them. -/
theorem parseChunks_hms (st : parseState) (h1 h2 m1 m2 s1 s2 : Char) (r : GoString)
    (hdig : ∀ c ∈ [h1, h2, m1, m2, s1, s2], isDigitByte c = true)
    (hh : digits2 h1 h2 < 24) (hm : digits2 m1 m2 < 60) (hs : digits2 s1 s2 < 60)
    (hr : r.length < 2) :
    parseChunks [⟨['T'], .stdHour⟩, ⟨[], .stdZeroMinute⟩, ⟨[], .stdZeroSecond⟩] st
        ('T' :: h1 :: h2 :: m1 :: m2 :: s1 :: s2 :: r)
      = some ({ st with hour := digits2 h1 h2, min := digits2 m1 m2, sec := digits2 s1 s2 },
          r) := by
  simp only [List.mem_cons, List.mem_singleton, forall_eq_or_imp, forall_eq,
    List.not_mem_nil, false_implies, implies_true, and_true] at hdig
  obtain ⟨d1, d2, d3, d4, d5, d6⟩ := hdig
  have hT : skip ('T' :: h1 :: h2 :: m1 :: m2 :: s1 :: s2 :: r) ['T']
      = some (h1 :: h2 :: m1 :: m2 :: s1 :: s2 :: r) := by
    simp [skip, skipLoop]
  simp only [parseChunks, skip_nil, hT]
  rw [parseStd_hour _ h1 h2 _ d1 d2 hh]
  simp only []
  rw [parseStd_minute _ m1 m2 _ d3 d4 hm]
  simp only []
  rw [parseStd_second _ s1 s2 _ d5 d6 hs hr]

theorem parseChunks_Z (st : parseState) :
    parseChunks [⟨[], .stdISO8601TZ⟩] st ['Z'] = some ({ st with z := some UTC }, []) := by
  simp [parseChunks, skip_nil, parseStd]

/-- What the two date-time layouts do on a literal of eight digits, `T` and six digits
that name a valid date and time of day, and what the offset layout does on the literal
followed by `Z`. -/
theorem ParseInLocation_datetime (c1 c2 c3 c4 c5 c6 c7 c8 h1 h2 m1 m2 s1 s2 : Char)
    (loc : Location)
    (hdig : ∀ c ∈ [c1, c2, c3, c4, c5, c6, c7, c8], isDigitByte c = true)
    (htig : ∀ c ∈ [h1, h2, m1, m2, s1, s2], isDigitByte c = true)
    (hm1 : 1 ≤ digits2 c5 c6) (hm2 : digits2 c5 c6 ≤ 12) (hd1 : 1 ≤ digits2 c7 c8)
    (hd2 : digits2 c7 c8 ≤ daysIn (digits2 c5 c6) (digits4 c1 c2 c3 c4))
    (hh : digits2 h1 h2 < 24) (hm : digits2 m1 m2 < 60) (hs : digits2 s1 s2 < 60) :
    ParseInLocation rfc5545WithOffset
        [c1, c2, c3, c4, c5, c6, c7, c8, 'T', h1, h2, m1, m2, s1, s2] loc
      = .error (.parseError rfc5545WithOffset.text
          [c1, c2, c3, c4, c5, c6, c7, c8, 'T', h1, h2, m1, m2, s1, s2]) ∧
    ParseInLocation rfc5545WithoutOffset
        [c1, c2, c3, c4, c5, c6, c7, c8, 'T', h1, h2, m1, m2, s1, s2] loc
      = .ok (Date (digits4 c1 c2 c3 c4) (digits2 c5 c6) (digits2 c7 c8) (digits2 h1 h2)
          (digits2 m1 m2) (digits2 s1 s2) 0 loc) ∧
    ParseInLocation rfc5545WithOffset
        [c1, c2, c3, c4, c5, c6, c7, c8, 'T', h1, h2, m1, m2, s1, s2, 'Z'] loc
      = .ok (Date (digits4 c1 c2 c3 c4) (digits2 c5 c6) (digits2 c7 c8) (digits2 h1 h2)
          (digits2 m1 m2) (digits2 s1 s2) 0 UTC) := by
  have e1 : rfc5545WithOffset.chunks = rfc5545Date.chunks ++
      ([⟨['T'], .stdHour⟩, ⟨[], .stdZeroMinute⟩, ⟨[], .stdZeroSecond⟩] ++
        [⟨[], .stdISO8601TZ⟩]) := rfl
  have e2 : rfc5545WithoutOffset.chunks = rfc5545Date.chunks ++
      [⟨['T'], .stdHour⟩, ⟨[], .stdZeroMinute⟩, ⟨[], .stdZeroSecond⟩] := rfl
  have ht1 : rfc5545WithOffset.tail = [] := rfl
  have ht2 : rfc5545WithoutOffset.tail = [] := rfl
  have hmn : ¬ (digits2 c5 c6 < 0) := by omega
  have hdn : ¬ (digits2 c7 c8 < 0) := by omega
  have hv : ¬ (digits2 c7 c8 < 1 ∨
      digits2 c7 c8 > daysIn (digits2 c5 c6) (digits4 c1 c2 c3 c4)) := by omega
  refine ⟨?_, ?_, ?_⟩
  · unfold ParseInLocation parse
    rw [e1, parseChunks_append,
      parseChunks_ymd c1 c2 c3 c4 c5 c6 c7 c8 ['T', h1, h2, m1, m2, s1, s2] hdig hm1 hm2]
    simp only []
    rw [parseChunks_append, parseChunks_hms _ h1 h2 m1 m2 s1 s2 [] htig hh hm hs (by simp)]
    simp only [parseChunks, skip_nil, parseStd, List.length_nil]
    rfl
  · unfold ParseInLocation parse
    rw [e2, parseChunks_append,
      parseChunks_ymd c1 c2 c3 c4 c5 c6 c7 c8 ['T', h1, h2, m1, m2, s1, s2] hdig hm1 hm2]
    simp only []
    rw [parseChunks_hms _ h1 h2 m1 m2 s1 s2 [] htig hh hm hs (by simp)]
    simp only [ht2, skip_nil, List.length_nil, ne_eq, not_true_eq_false, if_false, hmn, hdn,
      hv, parseState.init]
  · unfold ParseInLocation parse
    rw [e1, parseChunks_append,
      parseChunks_ymd c1 c2 c3 c4 c5 c6 c7 c8 ['T', h1, h2, m1, m2, s1, s2, 'Z'] hdig hm1 hm2]
    simp only []
    rw [parseChunks_append, parseChunks_hms _ h1 h2 m1 m2 s1 s2 ['Z'] htig hh hm hs (by simp)]
    simp only []
    rw [parseChunks_Z]
    simp only [ht1, skip_nil, List.length_nil, ne_eq, not_true_eq_false, if_false, hmn, hdn,
      hv, parseState.init]

theorem Date_loc (year month day hour min sec nsec : Int) (loc : Location) :
    (Date year month day hour min sec nsec loc).loc = loc := rfl

/-- The calendar fields of a time name a valid date. -/
theorem Time_fields_valid (t : Time) :
    1 ≤ t.Month ∧ t.Month ≤ 12 ∧ 1 ≤ t.Day ∧ t.Day ≤ daysIn t.Month t.Year := by
  have f := absYday_facts t.abs
  have b := monthDay_bounds _ _ f.1 f.2.1 f.2.2
  have i := monthDay_inverse _ _ f.1 f.2.1 f.2.2
  unfold Time.Month Time.Day Time.Year absDate
  rw [b.1]
  exact ⟨b.2.1, b.2.2.1, i.2.1, i.2.2⟩

/-- The layouts on the civil literal of a time with a four-digit year: the literal
itself is read by the layout without offset, the literal followed by `Z` by the layout
with offset. -/
theorem parseLayouts_civilLiteral (t : Time) (loc : Location) (h0 : 0 ≤ t.Year)
    (h1 : t.Year ≤ 9999) :
    parseLayouts (civilLiteral t) loc
        = (false, Date t.Year t.Month t.Day t.Hour t.Minute t.Second 0 loc, none) ∧
      parseLayouts (civilLiteral t ++ ['Z']) loc
        = (true, Date t.Year t.Month t.Day t.Hour t.Minute t.Second 0 UTC, none) := by
  obtain ⟨v1, v2, v3, v4⟩ := Time_fields_valid t
  have hc := (absClock_eq t).2
  obtain ⟨c1, c2, c3, c4, ey, g1, g2, g3, g4, vy⟩ := fourDigits_facts t.Year h0 h1
  obtain ⟨c5, c6, em, g5, g6, vm⟩ := twoDigits_facts t.Month (by omega) (by omega)
  obtain ⟨c7, c8, ed, g7, g8, vd⟩ := twoDigits_facts t.Day (by omega) (by
    have : daysIn t.Month t.Year ≤ 31 := by
      unfold daysIn
      obtain ⟨f0, f1, f2, f3, f4, f5, f6⟩ := daysBefore_facts t.Month v1 v2
      split_ifs
      · omega
      · generalize t.Month = m at *
        interval_cases m <;> simp [daysBeforeAt, daysBefore]
    omega)
  obtain ⟨a1, a2, eh, g9, g10, vh⟩ := twoDigits_facts t.Hour (by omega) (by omega)
  obtain ⟨a3, a4, emi, g11, g12, vmi⟩ := twoDigits_facts t.Minute (by omega) (by omega)
  obtain ⟨a5, a6, es, g13, g14, vs⟩ := twoDigits_facts t.Second (by omega) (by omega)
  have hlit : civilLiteral t = [c1, c2, c3, c4, c5, c6, c7, c8, 'T', a1, a2, a3, a4, a5, a6] := by
    unfold civilLiteral
    rw [ey, em, ed, eh, emi, es]
    rfl
  have hdig : ∀ c ∈ [c1, c2, c3, c4, c5, c6, c7, c8], isDigitByte c = true := by
    simp [g1, g2, g3, g4, g5, g6, g7, g8]
  have htig : ∀ c ∈ [a1, a2, a3, a4, a5, a6], isDigitByte c = true := by
    simp [g9, g10, g11, g12, g13, g14]
  obtain ⟨p1, p2, p3⟩ := ParseInLocation_datetime c1 c2 c3 c4 c5 c6 c7 c8 a1 a2 a3 a4 a5 a6 loc
    hdig htig (by omega) (by omega) (by omega) (by rw [vy, vm, vd]; exact v4) (by omega)
    (by omega) (by omega)
  rw [vy, vm, vd, vh, vmi, vs] at p2 p3
  rw [hlit]
  constructor
  · unfold parseLayouts
    rw [p1]
    simp only []
    rw [p2]
  · unfold parseLayouts
    show (match ParseInLocation rfc5545WithOffset
        [c1, c2, c3, c4, c5, c6, c7, c8, 'T', a1, a2, a3, a4, a5, a6, 'Z'] loc with
      | .ok t => (true, t, none)
      | .error _ => _) = _
    rw [p3]

theorem digit_ne_sep {c : Char} (h : isDigitByte c = true) : c ≠ ':' ∧ c ≠ '=' := by
  constructor <;> rintro rfl <;> revert h <;> decide

/-- The civil literal holds no separator. -/
theorem civilLiteral_no_sep (t : Time) (h0 : 0 ≤ t.Year) (h1 : t.Year ≤ 9999) :
    ∀ c ∈ civilLiteral t, c ≠ ':' ∧ c ≠ '=' := by
  have hb := absDate_bounds t.abs
  have hm : 1 ≤ t.Month ∧ t.Month ≤ 12 := ⟨hb.1, hb.2.1⟩
  have hd : 1 ≤ t.Day ∧ t.Day ≤ 31 := ⟨hb.2.2.1, hb.2.2.2⟩
  have hc := (absClock_eq t).2
  intro c hc'
  simp only [civilLiteral, fourDigits, twoDigits, List.mem_append, List.mem_cons,
    List.mem_singleton, List.not_mem_nil, or_false] at hc'
  have hT : ('T' : Char) ≠ ':' ∧ ('T' : Char) ≠ '=' := by decide
  rcases hc' with ((((((h | h | h | h) | h | h) | h | h) | h) | h | h) | h | h) | h | h
  all_goals first
    | (rw [h]; exact hT)
    | (rw [h]; exact digit_ne_sep (digitByte_facts _ (by omega) (by omega)).1)

theorem formatTime_floating (pfx : GoString) (t : Time) :
    formatTime pfx t true = pfx ++ ':' :: t.Format rfc5545WithoutOffset := by
  simp [formatTime, colon_toList]

theorem formatTime_utc (pfx : GoString) (t : Time) (h : t.Location = UTC) :
    formatTime pfx t false = pfx ++ ':' :: (t.Format rfc5545WithoutOffset ++ ['Z']) := by
  simp [formatTime, colon_toList, h]

theorem formatTime_named (pfx : GoString) (t : Time) (h : t.Location ≠ UTC) :
    formatTime pfx t false
      = pfx ++ ";TZID=".toList ++ t.Location.String ++ ':' :: t.Format rfc5545WithoutOffset := by
  simp [formatTime, colon_toList, h]

/-! ### The layouts, read backwards -/

theorem parseStd_year_inv {st st' : parseState} {v r : GoString}
    (h : parseStd st .stdLongYear v = some (st', r)) :
    ∃ a b c d, v = a :: b :: c :: d :: r ∧ isDigitByte a = true ∧ isDigitByte b = true ∧
      isDigitByte c = true ∧ isDigitByte d = true ∧
      st' = { st with year := digits4 a b c d } := by
  simp only [parseStd] at h
  split_ifs at h with hc
  match v, hc, h with
  | a :: b :: c :: d :: r', hc, h =>
    simp only [List.take_succ_cons, List.take_zero, List.drop_succ_cons, List.drop_zero] at h
    have ha : isDigitByte a = true := by
      by_contra hn
      exact hc (Or.inr (by simpa [isDigit] using hn))
    split at h
    · cases h
    · rename_i year hy
      have hall := atoi_all_digits (by simpa [isDigit] using ha) hy
      have hb := hall b (by simp)
      have hc' := hall c (by simp)
      have hd := hall d (by simp)
      rw [atoi_four a b c d ha hb hc' hd] at hy
      simp only [Option.some.injEq, Prod.mk.injEq] at h hy
      refine ⟨a, b, c, d, by rw [h.2], ha, hb, hc', hd, ?_⟩
      rw [← h.1, hy]
  | [], hc, _ => exact absurd (Or.inl (by simp)) hc
  | [_], hc, _ => exact absurd (Or.inl (by simp)) hc
  | [_, _], hc, _ => exact absurd (Or.inl (by simp)) hc
  | [_, _, _], hc, _ => exact absurd (Or.inl (by simp)) hc

theorem parseStd_month_inv {st st' : parseState} {v r : GoString}
    (h : parseStd st .stdZeroMonth v = some (st', r)) :
    ∃ a b, v = a :: b :: r ∧ isDigitByte a = true ∧ isDigitByte b = true ∧
      1 ≤ digits2 a b ∧ digits2 a b ≤ 12 ∧ st' = { st with month := digits2 a b } := by
  simp only [parseStd] at h
  split at h
  · cases h
  · rename_i n rest hg
    obtain ⟨a, b, hs, ha, hb, hn⟩ := getnum_fixed_some hg
    split_ifs at h with hr
    simp only [Option.some.injEq, Prod.mk.injEq] at h
    have hn' : n = digits2 a b := hn
    subst hn'
    exact ⟨a, b, by rw [hs, h.2], ha, hb, by omega, by omega, h.1.symm⟩

theorem parseStd_day_inv {st st' : parseState} {v r : GoString}
    (h : parseStd st .stdZeroDay v = some (st', r)) :
    ∃ a b, v = a :: b :: r ∧ isDigitByte a = true ∧ isDigitByte b = true ∧
      st' = { st with day := digits2 a b } := by
  simp only [parseStd] at h
  split at h
  · cases h
  · rename_i n rest hg
    obtain ⟨a, b, hs, ha, hb, hn⟩ := getnum_fixed_some hg
    simp only [Option.some.injEq, Prod.mk.injEq] at h
    have hn' : n = digits2 a b := hn
    subst hn'
    exact ⟨a, b, by rw [hs, h.2], ha, hb, h.1.symm⟩

theorem parseStd_minute_inv {st st' : parseState} {v r : GoString}
    (h : parseStd st .stdZeroMinute v = some (st', r)) :
    ∃ a b, v = a :: b :: r ∧ isDigitByte a = true ∧ isDigitByte b = true ∧
      digits2 a b < 60 ∧ st' = { st with min := digits2 a b } := by
  simp only [parseStd] at h
  split at h
  · cases h
  · rename_i n rest hg
    obtain ⟨a, b, hs, ha, hb, hn⟩ := getnum_fixed_some hg
    split_ifs at h with hr
    simp only [Option.some.injEq, Prod.mk.injEq] at h
    have hn' : n = digits2 a b := hn
    subst hn'
    exact ⟨a, b, by rw [hs, h.2], ha, hb, by omega, h.1.symm⟩

/-- The hour is read off one or two digits; a single digit is followed by no digit. -/
theorem parseStd_hour_inv {st st' : parseState} {v r : GoString}
    (h : parseStd st .stdHour v = some (st', r)) :
    (∃ a b, v = a :: b :: r ∧ isDigitByte a = true ∧ isDigitByte b = true ∧
      digits2 a b < 24 ∧ st' = { st with hour := digits2 a b }) ∨
    (∃ a, v = a :: r ∧ isDigit r 0 = false) := by
  simp only [parseStd] at h
  split at h
  · cases h
  · rename_i n rest hg
    split_ifs at h with hr
    simp only [Option.some.injEq, Prod.mk.injEq] at h
    match v, hg with
    | [], hg => simp [getnum, isDigit] at hg
    | [a], hg =>
      by_cases ha : isDigitByte a = true <;> simp [getnum, isDigit, ha] at hg
      right
      exact ⟨a, by rw [← h.2, hg.2], by rw [← h.2, hg.2]; rfl⟩
    | a :: b :: r', hg =>
      by_cases ha : isDigitByte a = true <;> by_cases hb : isDigitByte b = true <;>
        simp [getnum, isDigit, ha, hb] at hg
      · left
        have hn : n = digits2 a b := hg.1.symm
        subst hn
        exact ⟨a, b, by rw [← h.2, ← hg.2], ha, hb, by omega, h.1.symm⟩
      · right
        refine ⟨a, by rw [← h.2, ← hg.2], ?_⟩
        rw [← h.2, ← hg.2]
        simp [isDigit, hb]

/-! ### A fraction of a second -/

theorem drop_length_takeWhile (p : Char → Bool) (l : GoString) :
    l.drop (l.takeWhile p).length = l.dropWhile p := by
  induction l with
  | nil => rfl
  | cons a l ih =>
    by_cases h : p a = true
    · simp [List.takeWhile_cons, List.dropWhile_cons, h, ih]
    · simp [List.takeWhile_cons, List.dropWhile_cons, h]

theorem take_le_takeWhile (p : Char → Bool) (l : GoString) (m : Nat)
    (h : m ≤ (l.takeWhile p).length) : l.take m = (l.takeWhile p).take m := by
  conv_rhs => rw [← take_length_takeWhile p l, List.take_take]
  rw [Nat.min_eq_left h]

/-- A run of digits short enough not to overflow is read to its end. -/
theorem leadingInt_digits (ds : GoString) (x : Int) (hd : ∀ c ∈ ds, isDigitByte c = true)
    (hx0 : 0 ≤ x) (hx : (x + 1) * 10 ^ ds.length ≤ 10 ^ 9) :
    ∃ q, leadingInt ds x = some (q, []) ∧ 0 ≤ q := by
  induction ds generalizing x with
  | nil => exact ⟨x, rfl, hx0⟩
  | cons c ds ih =>
    have hc := hd c (List.mem_cons_self _ _)
    have hv := digitVal_range hc
    have hP : (0 : Int) < 10 ^ ds.length := by positivity
    simp only [List.length_cons, pow_succ] at hx
    have hx1 : x + 1 ≤ 10 ^ 9 := by nlinarith
    have hx2 : x ≤ 1000000000 := by
      have : (10 : Int) ^ 9 = 1000000000 := by norm_num
      omega
    rw [leadingInt]
    simp only [hc, Bool.not_true, Bool.false_eq_true, if_false]
    rw [if_neg (by omega), if_neg (by omega)]
    apply ih (x * 10 + digitVal c) (fun a ha => hd a (List.mem_cons_of_mem _ ha)) (by omega)
    nlinarith

theorem atoi_digits (d : Char) (ds : GoString) (hd : isDigitByte d = true)
    (hds : ∀ c ∈ ds, isDigitByte c = true) (hlen : ds.length ≤ 8) :
    ∃ q, atoi (d :: ds) = some q ∧ 0 ≤ q := by
  have h1 : d ≠ '-' := by rintro rfl; revert hd; decide
  have h2 : d ≠ '+' := by rintro rfl; revert hd; decide
  have hall : ∀ c ∈ d :: ds, isDigitByte c = true := by
    intro c hc
    rcases List.mem_cons.mp hc with rfl | hc
    · exact hd
    · exact hds c hc
  have hpow : ((0 : Int) + 1) * 10 ^ (d :: ds).length ≤ 10 ^ 9 := by
    simp only [zero_add, one_mul, List.length_cons]
    exact pow_le_pow_right₀ (by norm_num) (by omega)
  obtain ⟨q, hq, hq0⟩ := leadingInt_digits (d :: ds) 0 hall (le_refl _) hpow
  refine ⟨q, ?_, hq0⟩
  simp only [atoi, h1, h2, or_self, if_false, hq, List.length_nil, gt_iff_lt,
    lt_self_iff_false, Bool.false_eq_true]

theorem parseNanoseconds_some (c d : Char) (r : GoString) (hc : commaOrPeriod c = true)
    (hd : isDigitByte d = true) :
    ∃ ns, parseNanoseconds (c :: d :: r) (2 + (r.takeWhile isDigitByte).length) = some ns := by
  have htw : ∀ x ∈ r.takeWhile isDigitByte, isDigitByte x = true :=
    fun x hx => List.mem_takeWhile_imp hx
  unfold parseNanoseconds
  simp only [List.headD_cons, hc, Bool.not_true, Bool.false_eq_true, if_false]
  by_cases hn : 2 + (r.takeWhile isDigitByte).length > 10
  · simp only [hn, if_true]
    have e : List.drop 1 (List.take 10 (List.take 10 (c :: d :: r))) = d :: r.take 8 := by
      simp [List.take_take]
    rw [e, take_le_takeWhile isDigitByte r 8 (by omega)]
    obtain ⟨q, hq, hq0⟩ := atoi_digits d ((r.takeWhile isDigitByte).take 8) hd
      (fun x hx => htw x (List.mem_of_mem_take hx)) (by simp)
    rw [hq]
    simp only [not_lt.mpr hq0, if_false]
    exact ⟨_, rfl⟩
  · simp only [hn, if_false]
    have e : List.drop 1 (List.take (2 + (r.takeWhile isDigitByte).length) (c :: d :: r))
        = d :: r.takeWhile isDigitByte := by
      have : 2 + (r.takeWhile isDigitByte).length = (r.takeWhile isDigitByte).length + 1 + 1 := by
        omega
      rw [this]
      simp only [List.take_succ_cons, List.drop_succ_cons, List.drop_zero,
        take_length_takeWhile]
    rw [e]
    obtain ⟨q, hq, hq0⟩ := atoi_digits d (r.takeWhile isDigitByte) hd htw (by omega)
    rw [hq]
    simp only [not_lt.mpr hq0, if_false]
    exact ⟨_, rfl⟩

theorem afterFraction_fraction (c d : Char) (r : GoString) (hc : commaOrPeriod c = true)
    (hd : isDigitByte d = true) :
    afterFraction (c :: d :: r) = r.dropWhile isDigitByte := by
  simp [afterFraction, hc, hd]

theorem afterFraction_none (tail : GoString)
    (h : ¬ (tail.length ≥ 2 ∧ commaOrPeriod (tail.headD '0') = true ∧ isDigit tail 1 = true)) :
    afterFraction tail = tail := by
  match tail, h with
  | [], _ => rfl
  | [_], _ => rfl
  | c :: d :: r, h =>
    have : ¬ (commaOrPeriod c = true ∧ isDigitByte d = true) := by
      intro hcd
      exact h ⟨by simp, by simpa using hcd.1, by simpa [isDigit] using hcd.2⟩
    simp only [afterFraction, Bool.and_eq_true, this, if_false]

/-- The seconds element on two digits below 60: it also takes a fraction of a second
that follows. -/
theorem parseStd_second_some (st : parseState) (a b : Char) (tail : GoString)
    (ha : isDigitByte a = true) (hb : isDigitByte b = true) (h : digits2 a b < 60) :
    ∃ n, parseStd st .stdZeroSecond (a :: b :: tail)
      = some ({ st with sec := digits2 a b, nsec := n }, afterFraction tail) := by
  have h0 := digits2_nonneg a b ha hb
  have hrange : ¬ (digits2 a b < 0 ∨ 60 ≤ digits2 a b) := by omega
  simp only [parseStd]
  rw [getnum_two a b tail ha hb]
  simp only [hrange, if_false]
  by_cases hf : tail.length ≥ 2 ∧ commaOrPeriod (tail.headD '0') = true ∧ isDigit tail 1 = true
  · rw [if_pos hf]
    match tail, hf with
    | c :: d :: r, hf =>
      have hc : commaOrPeriod c = true := by simpa using hf.2.1
      have hd : isDigitByte d = true := by simpa [isDigit] using hf.2.2
      obtain ⟨ns, hns⟩ := parseNanoseconds_some c d r hc hd
      simp only [List.drop_succ_cons, List.drop_zero] at hns ⊢
      rw [hns, afterFraction_fraction c d r hc hd]
      refine ⟨ns, ?_⟩
      simp only [Option.some.injEq, Prod.mk.injEq, true_and]
      have e : 2 + (List.takeWhile isDigitByte r).length
          = (List.takeWhile isDigitByte r).length + 1 + 1 := by omega
      rw [e, List.drop_succ_cons, List.drop_succ_cons, drop_length_takeWhile]
  · rw [if_neg hf, afterFraction_none tail hf]
    exact ⟨st.nsec, rfl⟩

theorem parseStd_second_inv {st st' : parseState} {v r : GoString}
    (h : parseStd st .stdZeroSecond v = some (st', r)) :
    ∃ a b tail n, v = a :: b :: tail ∧ isDigitByte a = true ∧ isDigitByte b = true ∧
      digits2 a b < 60 ∧ r = afterFraction tail ∧
      st' = { st with sec := digits2 a b, nsec := n } := by
  cases hg : getnum v true with
  | none => simp [parseStd, hg] at h
  | some p =>
    obtain ⟨n, tail⟩ := p
    obtain ⟨a, b, hs, ha, hb, hn⟩ := getnum_fixed_some hg
    have hn' : n = digits2 a b := hn
    subst hn'
    by_cases hr : digits2 a b < 60
    · obtain ⟨ns, hns⟩ := parseStd_second_some st a b tail ha hb hr
      rw [hs, hns] at h
      simp only [Option.some.injEq, Prod.mk.injEq] at h
      exact ⟨a, b, tail, ns, hs, ha, hb, hr, h.2.symm, h.1.symm⟩
    · have hrange : digits2 a b < 0 ∨ 60 ≤ digits2 a b := Or.inr (by omega)
      simp [parseStd, hg, hrange] at h

/-- The zone element on a zone suffix. -/
theorem parseStd_zone_some (st : parseState) (v : GoString) (hv : validOffset v = true) :
    ∃ st', parseStd st .stdISO8601TZ v = some (st', []) ∧ st'.year = st.year ∧
      st'.month = st.month ∧ st'.day = st.day := by
  match v, hv with
  | [z], hv =>
    have hz : z = 'Z' := by simpa [validOffset] using hv
    subst hz
    exact ⟨{ st with z := some UTC }, by simp [parseStd], rfl, rfl, rfl⟩
  | [s, a, b, c, d], hv =>
    simp only [validOffset, List.all_cons, List.all_nil, Bool.and_true, Bool.and_eq_true,
      Bool.or_eq_true, beq_iff_eq, decide_eq_true_eq] at hv
    obtain ⟨⟨hs, ha, hb, hc, hd⟩, h1, h2⟩ := hv
    have hsZ : s ≠ 'Z' := by rcases hs with rfl | rfl <;> decide
    have hnz : ¬ (List.length [s, a, b, c, d] ≥ 1 ∧ List.headD [s, a, b, c, d] '0' = 'Z') := by
      simp [hsZ]
    have hlen : ¬ (List.length [s, a, b, c, d] < 5) := by simp
    have hr : ¬ (digits2 a b > 24 ∨ digits2 c d > 60) := by omega
    simp only [parseStd]
    rw [if_neg hnz, if_neg hlen]
    simp only [List.drop_succ_cons, List.drop_zero, List.take_succ_cons, List.take_zero,
      List.take_nil, List.headD_cons]
    rw [getnum_two a b [] ha hb, getnum_two c d [] hc hd]
    simp only [hr, if_false]
    rcases hs with rfl | rfl
    · rw [if_pos rfl]
      exact ⟨_, rfl, rfl, rfl, rfl⟩
    · rw [if_neg (by decide), if_pos rfl]
      exact ⟨_, rfl, rfl, rfl, rfl⟩

theorem parseStd_zone_inv {st st' : parseState} {v : GoString}
    (h : parseStd st .stdISO8601TZ v = some (st', [])) : validOffset v = true := by
  rcases parseStd_zone_end h with hz | ⟨s, a, b, c, d, hv, hs, ha, hb, hc, hd⟩
  · rw [hz]
    rfl
  · subst hv
    have hsZ : s ≠ 'Z' := by rcases hs with rfl | rfl <;> decide
    have hnz : ¬ (List.length [s, a, b, c, d] ≥ 1 ∧ List.headD [s, a, b, c, d] '0' = 'Z') := by
      simp [hsZ]
    have hlen : ¬ (List.length [s, a, b, c, d] < 5) := by simp
    simp only [parseStd] at h
    rw [if_neg hnz, if_neg hlen] at h
    simp only [List.drop_succ_cons, List.drop_zero, List.take_succ_cons, List.take_zero,
      List.take_nil, List.headD_cons] at h
    rw [getnum_two a b [] ha hb, getnum_two c d [] hc hd] at h
    simp only [] at h
    by_cases hr : digits2 a b > 24 ∨ digits2 c d > 60
    · rw [if_pos hr] at h
      cases h
    · simp only [validOffset, List.all_cons, List.all_nil, Bool.and_true, Bool.and_eq_true,
        Bool.or_eq_true, beq_iff_eq, decide_eq_true_eq]
      exact ⟨⟨hs, ha, hb, hc, hd⟩, by omega, by omega⟩

theorem parseChunks_ymd_inv {v r : GoString} {st' : parseState}
    (h : parseChunks rfc5545Date.chunks parseState.init v = some (st', r)) :
    ∃ c1 c2 c3 c4 c5 c6 c7 c8, v = c1 :: c2 :: c3 :: c4 :: c5 :: c6 :: c7 :: c8 :: r ∧
      (∀ c ∈ [c1, c2, c3, c4, c5, c6, c7, c8], isDigitByte c = true) ∧
      1 ≤ digits2 c5 c6 ∧ digits2 c5 c6 ≤ 12 ∧
      st' = { parseState.init with
        year := digits4 c1 c2 c3 c4, month := digits2 c5 c6, day := digits2 c7 c8 } := by
  simp only [rfc5545Date, parseChunks, skip_nil] at h
  cases e1 : parseStd parseState.init .stdLongYear v with
  | none => simp [e1] at h
  | some p1 =>
    obtain ⟨st1, v1⟩ := p1
    simp only [e1] at h
    cases e2 : parseStd st1 .stdZeroMonth v1 with
    | none => simp [e2] at h
    | some p2 =>
      obtain ⟨st2, v2⟩ := p2
      simp only [e2] at h
      cases e3 : parseStd st2 .stdZeroDay v2 with
      | none => simp [e3] at h
      | some p3 =>
        obtain ⟨st3, v3⟩ := p3
        simp only [e3, Option.some.injEq, Prod.mk.injEq] at h
        obtain ⟨c1, c2, c3, c4, hv, g1, g2, g3, g4, hs1⟩ := parseStd_year_inv e1
        obtain ⟨c5, c6, hv1, g5, g6, hm1, hm2, hs2⟩ := parseStd_month_inv e2
        obtain ⟨c7, c8, hv2, g7, g8, hs3⟩ := parseStd_day_inv e3
        refine ⟨c1, c2, c3, c4, c5, c6, c7, c8, ?_, ?_, hm1, hm2, ?_⟩
        · rw [hv, hv1, hv2, h.2]
        · simp [g1, g2, g3, g4, g5, g6, g7, g8]
        · rw [← h.1, hs3, hs2, hs1]

theorem validClock_iff (h1 h2 m1 m2 s1 s2 : Char) :
    validClock h1 h2 m1 m2 s1 s2 = true ↔
      (∀ c ∈ [h1, h2, m1, m2, s1, s2], isDigitByte c = true) ∧ digits2 h1 h2 < 24 ∧
        digits2 m1 m2 < 60 ∧ digits2 s1 s2 < 60 := by
  simp only [validClock, Bool.and_eq_true, List.all_eq_true, decide_eq_true_eq]
  constructor
  · rintro ⟨hd, a, b, c⟩
    exact ⟨hd, by omega, by omega, by omega⟩
  · rintro ⟨hd, a, b, c⟩
    exact ⟨hd, by omega, by omega, by omega⟩

theorem validDate_iff (c1 c2 c3 c4 c5 c6 c7 c8 : Char) :
    validDate c1 c2 c3 c4 c5 c6 c7 c8 = true ↔
      (∀ c ∈ [c1, c2, c3, c4, c5, c6, c7, c8], isDigitByte c = true) ∧
        1 ≤ digits2 c5 c6 ∧ digits2 c5 c6 ≤ 12 ∧ 1 ≤ digits2 c7 c8 ∧
        digits2 c7 c8 ≤ daysIn (digits2 c5 c6) (digits4 c1 c2 c3 c4) := by
  simp only [validDate, Bool.and_eq_true, List.all_eq_true, decide_eq_true_eq]

/-- The chunks of the time of day on `T`, a valid time of day and any tail: a fraction
of a second at the start of the tail is taken as well. -/
theorem parseChunks_hms_some (st : parseState) (h1 h2 m1 m2 s1 s2 : Char) (tail : GoString)
    (hc : validClock h1 h2 m1 m2 s1 s2 = true) :
    ∃ st', parseChunks [⟨['T'], .stdHour⟩, ⟨[], .stdZeroMinute⟩, ⟨[], .stdZeroSecond⟩] st
        ('T' :: h1 :: h2 :: m1 :: m2 :: s1 :: s2 :: tail) = some (st', afterFraction tail) ∧
      st'.year = st.year ∧ st'.month = st.month ∧ st'.day = st.day ∧ st'.z = st.z ∧
      st'.zoneOffset = st.zoneOffset := by
  obtain ⟨hdig, hh, hm, hs⟩ := (validClock_iff _ _ _ _ _ _).mp hc
  simp only [List.mem_cons, List.mem_singleton, forall_eq_or_imp, forall_eq,
    List.not_mem_nil, false_implies, implies_true, and_true] at hdig
  obtain ⟨d1, d2, d3, d4, d5, d6⟩ := hdig
  have hT : skip ('T' :: h1 :: h2 :: m1 :: m2 :: s1 :: s2 :: tail) ['T']
      = some (h1 :: h2 :: m1 :: m2 :: s1 :: s2 :: tail) := by
    simp [skip, skipLoop]
  simp only [parseChunks, skip_nil, hT]
  rw [parseStd_hour _ h1 h2 _ d1 d2 hh]
  simp only []
  rw [parseStd_minute _ m1 m2 _ d3 d4 hm]
  simp only []
  obtain ⟨n, hn⟩ := parseStd_second_some
    { st with hour := digits2 h1 h2, min := digits2 m1 m2 } s1 s2 tail d5 d6 hs
  rw [hn]
  exact ⟨_, rfl, rfl, rfl, rfl, rfl, rfl⟩

theorem parseChunks_hms_inv {st st' : parseState} {v r : GoString}
    (h : parseChunks [⟨['T'], .stdHour⟩, ⟨[], .stdZeroMinute⟩, ⟨[], .stdZeroSecond⟩] st v
      = some (st', r)) :
    ∃ h1 h2 m1 m2 s1 s2 tail, v = 'T' :: h1 :: h2 :: m1 :: m2 :: s1 :: s2 :: tail ∧
      validClock h1 h2 m1 m2 s1 s2 = true ∧ r = afterFraction tail := by
  simp only [parseChunks, skip_nil] at h
  cases e0 : skip v ['T'] with
  | none => simp [e0] at h
  | some v0 =>
    have hv0 := skip_T e0
    simp only [e0] at h
    cases e1 : parseStd st .stdHour v0 with
    | none => simp [e1] at h
    | some p1 =>
      obtain ⟨st1, v1⟩ := p1
      simp only [e1] at h
      cases e2 : parseStd st1 .stdZeroMinute v1 with
      | none => simp [e2] at h
      | some p2 =>
        obtain ⟨st2, v2⟩ := p2
        simp only [e2] at h
        cases e3 : parseStd st2 .stdZeroSecond v2 with
        | none => simp [e3] at h
        | some p3 =>
          obtain ⟨st3, v3⟩ := p3
          simp only [e3, Option.some.injEq, Prod.mk.injEq] at h
          obtain ⟨m1, m2, hv1, g3, g4, hm, -⟩ := parseStd_minute_inv e2
          obtain ⟨s1, s2, tail, n, hv2, g5, g6, hs, hr, -⟩ := parseStd_second_inv e3
          rcases parseStd_hour_inv e1 with ⟨h1, h2, hv, g1, g2, hh, -⟩ | ⟨a, -, hnd⟩
          · refine ⟨h1, h2, m1, m2, s1, s2, tail, ?_, ?_, ?_⟩
            · rw [hv0, hv, hv1, hv2]
            · rw [validClock_iff]
              exact ⟨by simp [g1, g2, g3, g4, g5, g6], hh, hm, hs⟩
            · rw [← h.2, hr]
          · rw [hv1] at hnd
            simp [isDigit, g3] at hnd

/-- What `parse` adds to the chunks for a layout without trailing text: nothing is left
of the value, and the day exists in its month. -/
theorem matchesLayout_iff (L : Layout) (lit : GoString) (loc : Location) (ht : L.tail = []) :
    matchesLayout L lit loc = true ↔
      ∃ st, parseChunks L.chunks parseState.init lit = some (st, []) ∧
        ¬ ((if st.day < 0 then 1 else st.day) < 1 ∨
          (if st.day < 0 then 1 else st.day)
            > daysIn (if st.month < 0 then 1 else st.month) st.year) := by
  unfold matchesLayout ParseInLocation parse
  rw [ht]
  cases hpc : parseChunks L.chunks parseState.init lit with
  | none => simp
  | some p =>
    obtain ⟨st, rest⟩ := p
    simp only [skip_nil, Option.some.injEq, Prod.mk.injEq, exists_eq_left']
    cases rest with
    | cons x xs => simp
    | nil =>
      simp only [List.length_nil, ne_eq, not_true_eq_false, if_false, and_true,
        exists_eq_left']
      by_cases hd : (if st.day < 0 then 1 else st.day) < 1 ∨
          (if st.day < 0 then 1 else st.day)
            > daysIn (if st.month < 0 then 1 else st.month) st.year
      · simp [hd]
      · simp only [hd, if_false, not_false_eq_true, iff_true]
        cases st.z with
        | some z => rfl
        | none =>
          simp only []
          split_ifs <;> rfl

theorem chunks_withoutOffset :
    rfc5545WithoutOffset.chunks = rfc5545Date.chunks ++
      [⟨['T'], .stdHour⟩, ⟨[], .stdZeroMinute⟩, ⟨[], .stdZeroSecond⟩] := rfl

theorem chunks_withOffset :
    rfc5545WithOffset.chunks = rfc5545WithoutOffset.chunks ++ [⟨[], .stdISO8601TZ⟩] := rfl

/-- The chunks of date and time of day on a literal that starts with a valid date, `T`
and a valid time of day. -/
theorem parseChunks_datetime_some (c1 c2 c3 c4 c5 c6 c7 c8 h1 h2 m1 m2 s1 s2 : Char)
    (tail : GoString)
    (hdig : ∀ c ∈ [c1, c2, c3, c4, c5, c6, c7, c8], isDigitByte c = true)
    (hm1 : 1 ≤ digits2 c5 c6) (hm2 : digits2 c5 c6 ≤ 12)
    (hc : validClock h1 h2 m1 m2 s1 s2 = true) :
    ∃ st, parseChunks rfc5545WithoutOffset.chunks parseState.init
        (c1 :: c2 :: c3 :: c4 :: c5 :: c6 :: c7 :: c8 :: 'T' :: h1 :: h2 :: m1 :: m2 :: s1 ::
          s2 :: tail) = some (st, afterFraction tail) ∧
      st.year = digits4 c1 c2 c3 c4 ∧ st.month = digits2 c5 c6 ∧ st.day = digits2 c7 c8 ∧
      st.z = none ∧ st.zoneOffset = -1 := by
  rw [chunks_withoutOffset, parseChunks_append,
    parseChunks_ymd c1 c2 c3 c4 c5 c6 c7 c8 _ hdig hm1 hm2]
  simp only []
  obtain ⟨st, hst, f1, f2, f3, f4, f5⟩ := parseChunks_hms_some
    { parseState.init with
      year := digits4 c1 c2 c3 c4, month := digits2 c5 c6, day := digits2 c7 c8 }
    h1 h2 m1 m2 s1 s2 tail hc
  exact ⟨st, hst, f1, f2, f3, f4, f5⟩

theorem parseChunks_datetime_inv {lit r : GoString} {st : parseState}
    (h : parseChunks rfc5545WithoutOffset.chunks parseState.init lit = some (st, r)) :
    ∃ c1 c2 c3 c4 c5 c6 c7 c8 h1 h2 m1 m2 s1 s2 tail,
      lit = c1 :: c2 :: c3 :: c4 :: c5 :: c6 :: c7 :: c8 :: 'T' :: h1 :: h2 :: m1 :: m2 ::
        s1 :: s2 :: tail ∧
      (∀ c ∈ [c1, c2, c3, c4, c5, c6, c7, c8], isDigitByte c = true) ∧
      1 ≤ digits2 c5 c6 ∧ digits2 c5 c6 ≤ 12 ∧ validClock h1 h2 m1 m2 s1 s2 = true ∧
      r = afterFraction tail ∧
      st.year = digits4 c1 c2 c3 c4 ∧ st.month = digits2 c5 c6 ∧ st.day = digits2 c7 c8 ∧
      st.z = none ∧ st.zoneOffset = -1 := by
  have h0 := h
  rw [chunks_withoutOffset, parseChunks_append] at h
  cases e1 : parseChunks rfc5545Date.chunks parseState.init lit with
  | none => simp [e1] at h
  | some p1 =>
    obtain ⟨st1, v1⟩ := p1
    simp only [e1] at h
    obtain ⟨c1, c2, c3, c4, c5, c6, c7, c8, hlit, hdig, hm1, hm2, -⟩ := parseChunks_ymd_inv e1
    obtain ⟨h1, h2, m1, m2, s1, s2, tail, hv1, hc, hr⟩ := parseChunks_hms_inv h
    obtain ⟨st', hst', f1, f2, f3, f4, f5⟩ :=
      parseChunks_datetime_some c1 c2 c3 c4 c5 c6 c7 c8 h1 h2 m1 m2 s1 s2 tail hdig hm1 hm2 hc
    rw [hlit, hv1, hst'] at h0
    simp only [Option.some.injEq, Prod.mk.injEq] at h0
    rw [← h0.1]
    exact ⟨c1, c2, c3, c4, c5, c6, c7, c8, h1, h2, m1, m2, s1, s2, tail, by rw [hlit, hv1],
      hdig, hm1, hm2, hc, hr, f1, f2, f3, f4, f5⟩

theorem dayCheck_iff (st : parseState) (y m d : Int) (hy : st.year = y) (hm : st.month = m)
    (hd : st.day = d) (hm1 : 1 ≤ m) (hd0 : 0 ≤ d) :
    ¬ ((if st.day < 0 then 1 else st.day) < 1 ∨
        (if st.day < 0 then 1 else st.day)
          > daysIn (if st.month < 0 then 1 else st.month) st.year) ↔
      (1 ≤ d ∧ d ≤ daysIn m y) := by
  rw [hy, hm, hd, if_neg (by omega), if_neg (by omega)]
  omega

/-- The date-only layout matches exactly the eight-byte valid dates. -/
theorem matches_date_iff (lit : GoString) (loc : Location) :
    matchesLayout rfc5545Date lit loc = true ↔
      ∃ c1 c2 c3 c4 c5 c6 c7 c8, lit = [c1, c2, c3, c4, c5, c6, c7, c8] ∧
        validDate c1 c2 c3 c4 c5 c6 c7 c8 = true := by
  rw [matchesLayout_iff rfc5545Date lit loc rfl]
  constructor
  · rintro ⟨st, hpc, hday⟩
    obtain ⟨c1, c2, c3, c4, c5, c6, c7, c8, hlit, hdig, hm1, hm2, hst⟩ := parseChunks_ymd_inv hpc
    have hd0 : 0 ≤ digits2 c7 c8 :=
      digits2_nonneg c7 c8 (hdig c7 (by simp)) (hdig c8 (by simp))
    have := (dayCheck_iff st _ _ _ (by rw [hst]) (by rw [hst]) (by rw [hst]) hm1 hd0).mp hday
    exact ⟨c1, c2, c3, c4, c5, c6, c7, c8, hlit,
      (validDate_iff _ _ _ _ _ _ _ _).mpr ⟨hdig, hm1, hm2, this.1, this.2⟩⟩
  · rintro ⟨c1, c2, c3, c4, c5, c6, c7, c8, hlit, hv⟩
    obtain ⟨hdig, hm1, hm2, hd1, hd2⟩ := (validDate_iff _ _ _ _ _ _ _ _).mp hv
    refine ⟨_, by rw [hlit]; exact parseChunks_ymd c1 c2 c3 c4 c5 c6 c7 c8 [] hdig hm1 hm2, ?_⟩
    exact (dayCheck_iff _ (digits4 c1 c2 c3 c4) (digits2 c5 c6) (digits2 c7 c8) rfl rfl rfl hm1
      (by omega)).mpr ⟨hd1, hd2⟩

/-- The layout without offset matches exactly a valid date, `T`, a valid time of day
and an optional fraction of a second. -/
theorem matches_withoutOffset_iff (lit : GoString) (loc : Location) :
    matchesLayout rfc5545WithoutOffset lit loc = true ↔
      ∃ c1 c2 c3 c4 c5 c6 c7 c8 h1 h2 m1 m2 s1 s2 tail,
        lit = c1 :: c2 :: c3 :: c4 :: c5 :: c6 :: c7 :: c8 :: 'T' :: h1 :: h2 :: m1 :: m2 ::
          s1 :: s2 :: tail ∧
        validDate c1 c2 c3 c4 c5 c6 c7 c8 = true ∧ validClock h1 h2 m1 m2 s1 s2 = true ∧
        afterFraction tail = [] := by
  rw [matchesLayout_iff rfc5545WithoutOffset lit loc rfl]
  constructor
  · rintro ⟨st, hpc, hday⟩
    obtain ⟨c1, c2, c3, c4, c5, c6, c7, c8, h1, h2, m1, m2, s1, s2, tail, hlit, hdig, hm1, hm2,
      hc, hr, f1, f2, f3, -, -⟩ := parseChunks_datetime_inv hpc
    have hd0 : 0 ≤ digits2 c7 c8 :=
      digits2_nonneg c7 c8 (hdig c7 (by simp)) (hdig c8 (by simp))
    have := (dayCheck_iff st _ _ _ f1 f2 f3 hm1 hd0).mp hday
    exact ⟨c1, c2, c3, c4, c5, c6, c7, c8, h1, h2, m1, m2, s1, s2, tail, hlit,
      (validDate_iff _ _ _ _ _ _ _ _).mpr ⟨hdig, hm1, hm2, this.1, this.2⟩, hc, hr.symm⟩
  · rintro ⟨c1, c2, c3, c4, c5, c6, c7, c8, h1, h2, m1, m2, s1, s2, tail, hlit, hv, hc, hr⟩
    obtain ⟨hdig, hm1, hm2, hd1, hd2⟩ := (validDate_iff _ _ _ _ _ _ _ _).mp hv
    obtain ⟨st, hst, f1, f2, f3, -, -⟩ :=
      parseChunks_datetime_some c1 c2 c3 c4 c5 c6 c7 c8 h1 h2 m1 m2 s1 s2 tail hdig hm1 hm2 hc
    rw [hr] at hst
    exact ⟨st, by rw [hlit]; exact hst,
      (dayCheck_iff st _ _ _ f1 f2 f3 hm1 (by omega)).mpr ⟨hd1, hd2⟩⟩

/-- The layout with offset matches exactly a valid date, `T`, a valid time of day, an
optional fraction of a second and a zone suffix. -/
theorem matches_withOffset_iff (lit : GoString) (loc : Location) :
    matchesLayout rfc5545WithOffset lit loc = true ↔
      ∃ c1 c2 c3 c4 c5 c6 c7 c8 h1 h2 m1 m2 s1 s2 tail,
        lit = c1 :: c2 :: c3 :: c4 :: c5 :: c6 :: c7 :: c8 :: 'T' :: h1 :: h2 :: m1 :: m2 ::
          s1 :: s2 :: tail ∧
        validDate c1 c2 c3 c4 c5 c6 c7 c8 = true ∧ validClock h1 h2 m1 m2 s1 s2 = true ∧
        validOffset (afterFraction tail) = true := by
  rw [matchesLayout_iff rfc5545WithOffset lit loc rfl]
  have hz : ∀ (st : parseState) (v : GoString),
      parseChunks [⟨[], .stdISO8601TZ⟩] st v = parseStd st .stdISO8601TZ v := by
    intro st v
    simp only [parseChunks, skip_nil]
    cases parseStd st .stdISO8601TZ v with
    | none => rfl
    | some p => rfl
  constructor
  · rintro ⟨st, hpc, hday⟩
    rw [chunks_withOffset, parseChunks_append] at hpc
    cases e1 : parseChunks rfc5545WithoutOffset.chunks parseState.init lit with
    | none => simp [e1] at hpc
    | some p1 =>
      obtain ⟨st1, v1⟩ := p1
      simp only [e1] at hpc
      rw [hz] at hpc
      obtain ⟨c1, c2, c3, c4, c5, c6, c7, c8, h1, h2, m1, m2, s1, s2, tail, hlit, hdig, hm1, hm2,
        hc, hr, f1, f2, f3, -, -⟩ := parseChunks_datetime_inv e1
      have hvo := parseStd_zone_inv hpc
      obtain ⟨st', hst', g1, g2, g3⟩ := parseStd_zone_some st1 v1 hvo
      rw [hst'] at hpc
      simp only [Option.some.injEq, Prod.mk.injEq, and_true] at hpc
      subst hpc
      have hd0 : 0 ≤ digits2 c7 c8 :=
        digits2_nonneg c7 c8 (hdig c7 (by simp)) (hdig c8 (by simp))
      have := (dayCheck_iff st' _ _ _ (g1.trans f1) (g2.trans f2) (g3.trans f3) hm1 hd0).mp hday
      exact ⟨c1, c2, c3, c4, c5, c6, c7, c8, h1, h2, m1, m2, s1, s2, tail, hlit,
        (validDate_iff _ _ _ _ _ _ _ _).mpr ⟨hdig, hm1, hm2, this.1, this.2⟩, hc, hr ▸ hvo⟩
  · rintro ⟨c1, c2, c3, c4, c5, c6, c7, c8, h1, h2, m1, m2, s1, s2, tail, hlit, hv, hc, hvo⟩
    obtain ⟨hdig, hm1, hm2, hd1, hd2⟩ := (validDate_iff _ _ _ _ _ _ _ _).mp hv
    obtain ⟨st, hst, f1, f2, f3, -, -⟩ :=
      parseChunks_datetime_some c1 c2 c3 c4 c5 c6 c7 c8 h1 h2 m1 m2 s1 s2 tail hdig hm1 hm2 hc
    obtain ⟨st', hst', g1, g2, g3⟩ := parseStd_zone_some st (afterFraction tail) hvo
    refine ⟨st', ?_, (dayCheck_iff st' _ _ _ (g1.trans f1) (g2.trans f2) (g3.trans f3) hm1
      (by omega)).mpr ⟨hd1, hd2⟩⟩
    rw [chunks_withOffset, parseChunks_append, hlit, hst]
    simp only []
    rw [hz, hst']

theorem wellFormedTime_iff (rest : GoString) :
    wellFormedTime rest = true ↔
      rest = [] ∨
      ∃ h1 h2 m1 m2 s1 s2 tail, rest = 'T' :: h1 :: h2 :: m1 :: m2 :: s1 :: s2 :: tail ∧
        validClock h1 h2 m1 m2 s1 s2 = true ∧
        (afterFraction tail = [] ∨ validOffset (afterFraction tail) = true) := by
  match rest with
  | [] => simp [wellFormedTime]
  | [_] => simp [wellFormedTime]
  | [_, _] => simp [wellFormedTime]
  | [_, _, _] => simp [wellFormedTime]
  | [_, _, _, _] => simp [wellFormedTime]
  | [_, _, _, _, _] => simp [wellFormedTime]
  | [_, _, _, _, _, _] => simp [wellFormedTime]
  | t :: h1 :: h2 :: m1 :: m2 :: s1 :: s2 :: tail =>
    simp only [wellFormedTime, Bool.and_eq_true, beq_iff_eq, Bool.or_eq_true,
      List.isEmpty_iff, false_or, List.cons.injEq, reduceCtorEq]
    constructor
    · rintro ⟨⟨rfl, hc⟩, ht⟩
      exact ⟨h1, h2, m1, m2, s1, s2, tail, ⟨rfl, rfl, rfl, rfl, rfl, rfl, rfl, rfl⟩, hc, ht⟩
    · rintro ⟨a1, a2, a3, a4, a5, a6, tl, ⟨rfl, rfl, rfl, rfl, rfl, rfl, rfl, rfl⟩, hc, ht⟩
      exact ⟨⟨rfl, hc⟩, ht⟩

/-- A literal is well formed exactly when one of the three layouts matches it. -/
theorem wellFormedLiteral_iff (lit : GoString) (loc : Location) :
    wellFormedLiteral lit = true ↔
      (matchesLayout rfc5545WithOffset lit loc = true ∨
        matchesLayout rfc5545WithoutOffset lit loc = true ∨
        matchesLayout rfc5545Date lit loc = true) := by
  rw [matches_withOffset_iff, matches_withoutOffset_iff, matches_date_iff]
  constructor
  · intro h
    match lit, h with
    | c1 :: c2 :: c3 :: c4 :: c5 :: c6 :: c7 :: c8 :: rest, h =>
      simp only [wellFormedLiteral, Bool.and_eq_true] at h
      obtain ⟨hv, ht⟩ := h
      rcases (wellFormedTime_iff rest).mp ht with rfl |
        ⟨h1, h2, m1, m2, s1, s2, tail, rfl, hc, hf | hf⟩
      · exact Or.inr (Or.inr ⟨c1, c2, c3, c4, c5, c6, c7, c8, rfl, hv⟩)
      · exact Or.inr (Or.inl ⟨c1, c2, c3, c4, c5, c6, c7, c8, h1, h2, m1, m2, s1, s2, tail,
          rfl, hv, hc, hf⟩)
      · exact Or.inl ⟨c1, c2, c3, c4, c5, c6, c7, c8, h1, h2, m1, m2, s1, s2, tail,
          rfl, hv, hc, hf⟩
    | [], h => simp [wellFormedLiteral] at h
    | [_], h => simp [wellFormedLiteral] at h
    | [_, _], h => simp [wellFormedLiteral] at h
    | [_, _, _], h => simp [wellFormedLiteral] at h
    | [_, _, _, _], h => simp [wellFormedLiteral] at h
    | [_, _, _, _, _], h => simp [wellFormedLiteral] at h
    | [_, _, _, _, _, _], h => simp [wellFormedLiteral] at h
    | [_, _, _, _, _, _, _], h => simp [wellFormedLiteral] at h
  · rintro (⟨c1, c2, c3, c4, c5, c6, c7, c8, h1, h2, m1, m2, s1, s2, tail, rfl, hv, hc, hf⟩ |
      ⟨c1, c2, c3, c4, c5, c6, c7, c8, h1, h2, m1, m2, s1, s2, tail, rfl, hv, hc, hf⟩ |
      ⟨c1, c2, c3, c4, c5, c6, c7, c8, rfl, hv⟩)
    · simp only [wellFormedLiteral, Bool.and_eq_true]
      exact ⟨hv, (wellFormedTime_iff _).mpr
        (Or.inr ⟨h1, h2, m1, m2, s1, s2, tail, rfl, hc, Or.inr hf⟩)⟩
    · simp only [wellFormedLiteral, Bool.and_eq_true]
      exact ⟨hv, (wellFormedTime_iff _).mpr
        (Or.inr ⟨h1, h2, m1, m2, s1, s2, tail, rfl, hc, Or.inl hf⟩)⟩
    · simp only [wellFormedLiteral, Bool.and_eq_true]
      exact ⟨hv, (wellFormedTime_iff _).mpr (Or.inl rfl)⟩

/-- The three layouts leave no error exactly on the well-formed literals. -/
theorem parseLayouts_ok_iff (lit : GoString) (loc : Location) :
    (parseLayouts lit loc).2.2 = none ↔ wellFormedLiteral lit = true := by
  rw [parseLayouts_err_none, wellFormedLiteral_iff lit loc]

/-! ### The pattern of `twoAMRegex` on well-formed literals -/

theorem MatchString_cons_ne (c : Char) (s : GoString) (h : c ≠ 'T') :
    twoAMRegex.MatchString (c :: s) = twoAMRegex.MatchString s := by
  rw [twoAMRegex.MatchString, twoAMAt_of_head_ne c s h]
  rfl

theorem MatchString_of_digit (c : Char) (s : GoString) (h : isDigitByte c = true) :
    twoAMRegex.MatchString (c :: s) = twoAMRegex.MatchString s :=
  MatchString_cons_ne c s (by rintro rfl; revert h; decide)

theorem MatchString_of_at (p s : GoString) (h : twoAMAt s = true) :
    twoAMRegex.MatchString (p ++ s) = true := by
  induction p with
  | nil =>
    cases s with
    | nil => simp [twoAMAt] at h
    | cons c s =>
      show twoAMRegex.MatchString (c :: s) = true
      rw [twoAMRegex.MatchString, h]
      rfl
  | cons a p ih =>
    show twoAMRegex.MatchString (a :: (p ++ s)) = true
    rw [twoAMRegex.MatchString, ih]
    simp

theorem twoAMTail_shape {l : GoString} (h : twoAMTail l = true) :
    ∃ a b c d q, l = d :: c :: b :: a :: '2' :: '0' :: 'T' :: q ∧ isDigitByte a = true ∧
      isDigitByte b = true ∧ isDigitByte c = true ∧ isDigitByte d = true := by
  match l, h with
  | d :: c :: b :: a :: x2 :: x0 :: t :: q, h =>
    simp only [twoAMTail, Bool.and_eq_true, beq_iff_eq] at h
    obtain ⟨⟨⟨⟨⟨⟨rfl, rfl⟩, rfl⟩, ha⟩, hb⟩, hc⟩, hd⟩ := h
    exact ⟨a, b, c, d, q, rfl, ha, hb, hc, hd⟩
  | [], h => simp [twoAMTail] at h
  | [_], h => simp [twoAMTail] at h
  | [_, _], h => simp [twoAMTail] at h
  | [_, _, _], h => simp [twoAMTail] at h
  | [_, _, _, _], h => simp [twoAMTail] at h
  | [_, _, _, _, _], h => simp [twoAMTail] at h
  | [_, _, _, _, _, _], h => simp [twoAMTail] at h

/-- A literal that ends in `T02`, four digits and an optional `Z` matches the
pattern. -/
theorem MatchString_of_endsInTwoAM {lit : GoString} (h : endsInTwoAM lit = true) :
    twoAMRegex.MatchString lit = true := by
  unfold endsInTwoAM at h
  cases hr : lit.reverse with
  | nil => simp [hr] at h
  | cons z r =>
    simp only [hr, Bool.or_eq_true, Bool.and_eq_true, beq_iff_eq] at h
    have hlit : lit = (z :: r).reverse := by rw [← hr, List.reverse_reverse]
    rcases h with h | ⟨hz, h⟩
    · obtain ⟨a, b, c, d, q, e, ha, hb, hc, hd⟩ := twoAMTail_shape h
      have : lit = q.reverse ++ ['T', '0', '2', a, b, c, d] := by
        rw [hlit, e]
        simp
      rw [this]
      exact MatchString_of_at _ _ (by simp [twoAMAt, ha, hb, hc, hd])
    · obtain ⟨a, b, c, d, q, e, ha, hb, hc, hd⟩ := twoAMTail_shape h
      have : lit = q.reverse ++ ['T', '0', '2', a, b, c, d, 'Z'] := by
        rw [hlit, e, hz]
        simp
      rw [this]
      exact MatchString_of_at _ _ (by simp [twoAMAt, ha, hb, hc, hd])

theorem MatchString_dropWhile (r : GoString) :
    twoAMRegex.MatchString r = twoAMRegex.MatchString (r.dropWhile isDigitByte) := by
  induction r with
  | nil => rfl
  | cons a r ih =>
    by_cases h : isDigitByte a = true
    · rw [MatchString_of_digit a r h, ih, List.dropWhile_cons_of_pos h]
    · rw [List.dropWhile_cons_of_neg h]

theorem MatchString_offset {v : GoString} (h : validOffset v = true) :
    twoAMRegex.MatchString v = false := by
  match v, h with
  | [z], h =>
    have hz : z = 'Z' := by simpa [validOffset] using h
    subst hz
    decide
  | [s, a, b, c, d], h =>
    simp only [validOffset, List.all_cons, List.all_nil, Bool.and_true, Bool.and_eq_true,
      Bool.or_eq_true, beq_iff_eq, decide_eq_true_eq] at h
    obtain ⟨⟨hs, ha, hb, hc, hd⟩, -⟩ := h
    have hsT : s ≠ 'T' := by rcases hs with rfl | rfl <;> decide
    rw [MatchString_cons_ne s _ hsT]
    exact twoAMRegex_digits _ (by simp [ha, hb, hc, hd])

theorem MatchString_tail {tail : GoString}
    (h : afterFraction tail = [] ∨ validOffset (afterFraction tail) = true) :
    twoAMRegex.MatchString tail = false := by
  have hend : twoAMRegex.MatchString (afterFraction tail) = false := by
    rcases h with h | h
    · rw [h]
      rfl
    · exact MatchString_offset h
  match tail, hend with
  | [], _ => rfl
  | [x], hend => exact hend
  | c :: d :: r, hend =>
    by_cases hf : commaOrPeriod c = true ∧ isDigitByte d = true
    · rw [afterFraction_fraction c d r hf.1 hf.2] at hend
      have hcT : c ≠ 'T' := by
        rintro rfl
        have := hf.1
        revert this
        decide
      rw [MatchString_cons_ne c _ hcT, MatchString_of_digit d r hf.2, MatchString_dropWhile]
      exact hend
    · have : afterFraction (c :: d :: r) = c :: d :: r := by
        simp only [afterFraction, Bool.and_eq_true, hf, if_false]
      rw [this] at hend
      exact hend

theorem digit_not_Z {c : Char} (h : isDigitByte c = true) : c ≠ 'Z' := by
  rintro rfl
  revert h
  decide

theorem digit_not_T {c : Char} (h : isDigitByte c = true) : c ≠ 'T' := by
  rintro rfl
  revert h
  decide

/-- On a well-formed literal the pattern matches only at its end: `T02`, four digits
and an optional `Z`. -/
theorem endsInTwoAM_of_MatchString {lit : GoString} (hw : wellFormedLiteral lit = true)
    (hm : twoAMRegex.MatchString lit = true) : endsInTwoAM lit = true := by
  match lit, hw with
  | c1 :: c2 :: c3 :: c4 :: c5 :: c6 :: c7 :: c8 :: rest, hw =>
    simp only [wellFormedLiteral, Bool.and_eq_true] at hw
    obtain ⟨hv, ht⟩ := hw
    obtain ⟨hdig, -⟩ := (validDate_iff _ _ _ _ _ _ _ _).mp hv
    simp only [List.mem_cons, List.mem_singleton, forall_eq_or_imp, forall_eq,
      List.not_mem_nil, false_implies, implies_true, and_true] at hdig
    obtain ⟨g1, g2, g3, g4, g5, g6, g7, g8⟩ := hdig
    rw [MatchString_of_digit c1 _ g1, MatchString_of_digit c2 _ g2,
      MatchString_of_digit c3 _ g3, MatchString_of_digit c4 _ g4,
      MatchString_of_digit c5 _ g5, MatchString_of_digit c6 _ g6,
      MatchString_of_digit c7 _ g7, MatchString_of_digit c8 _ g8] at hm
    rcases (wellFormedTime_iff rest).mp ht with rfl |
      ⟨h1, h2, m1, m2, s1, s2, tail, rfl, hc, hf⟩
    · simp [twoAMRegex.MatchString] at hm
    · obtain ⟨hclk, -⟩ := (validClock_iff _ _ _ _ _ _).mp hc
      simp only [List.mem_cons, List.mem_singleton, forall_eq_or_imp, forall_eq,
        List.not_mem_nil, false_implies, implies_true, and_true] at hclk
      obtain ⟨k1, k2, k3, k4, k5, k6⟩ := hclk
      have hrest : twoAMRegex.MatchString (h1 :: h2 :: m1 :: m2 :: s1 :: s2 :: tail)
          = false := by
        rw [MatchString_of_digit h1 _ k1, MatchString_of_digit h2 _ k2,
          MatchString_of_digit m1 _ k3, MatchString_of_digit m2 _ k4,
          MatchString_of_digit s1 _ k5, MatchString_of_digit s2 _ k6]
        exact MatchString_tail hf
      rw [twoAMRegex.MatchString, hrest, Bool.or_false] at hm
      unfold twoAMAt at hm
      split at hm
      · rename_i a b c d rest' heq
        simp only [List.cons.injEq, true_and] at heq
        obtain ⟨e1, e2, e3, e4, e5, e6, e7⟩ := heq
        rw [← e3, ← e4, ← e5, ← e6, ← e7] at hm
        subst e1 e2
        simp only [Bool.and_eq_true, Bool.or_eq_true, List.isEmpty_iff, beq_iff_eq] at hm
        obtain ⟨-, htl⟩ := hm
        rcases htl with (rfl | rfl) | ⟨hl4, hall⟩
        · simp [endsInTwoAM, twoAMTail, k3, k4, k5, k6]
        · simp [endsInTwoAM, twoAMTail, k3, k4, k5, k6]
        · exfalso
          match tail, hl4, hall, hf with
          | [w, x, y, z], _, hall, hf =>
            have hw : isDigitByte w = true := by simpa using (List.all_eq_true.mp hall) w (by simp)
            have hnc : commaOrPeriod w = false := by
              by_contra hc'
              have hc'' : commaOrPeriod w = true := by simpa using hc'
              simp only [commaOrPeriod, Bool.or_eq_true, beq_iff_eq] at hc''
              rcases hc'' with rfl | rfl <;> revert hw <;> decide
            have e : afterFraction [w, x, y, z] = [w, x, y, z] := by
              simp [afterFraction, hnc]
            rw [e] at hf
            simp [validOffset] at hf
      · cases hm

/-- On a well-formed literal, `twoAMRegex` matches exactly when the literal ends in
`T02`, four digits and an optional `Z`. -/
theorem MatchString_eq_endsInTwoAM {lit : GoString} (hw : wellFormedLiteral lit = true) :
    twoAMRegex.MatchString lit = endsInTwoAM lit := by
  cases h : endsInTwoAM lit with
  | true => exact MatchString_of_endsInTwoAM h
  | false =>
    cases hm : twoAMRegex.MatchString lit with
    | false => rfl
    | true =>
      have := endsInTwoAM_of_MatchString hw hm
      rw [h] at this
      cases this

/-- A literal that ends in a numeric offset does not end in `T02` and four digits, with
or without `Z`. -/
theorem endsInTwoAM_of_numericOffset {lit : GoString} (h : hasNumericOffset lit = true) :
    endsInTwoAM lit = false := by
  unfold hasNumericOffset at h
  unfold endsInTwoAM
  match hr : lit.reverse, h with
  | d :: c :: b :: a :: s :: q, h =>
    simp only [Bool.and_eq_true, Bool.or_eq_true, beq_iff_eq] at h
    obtain ⟨⟨⟨⟨hs, ha⟩, hb⟩, hc⟩, hd⟩ := h
    have hs2 : s ≠ '2' := by rcases hs with rfl | rfl <;> decide
    have hs0 : s ≠ '0' := by rcases hs with rfl | rfl <;> decide
    have hdZ := digit_not_Z hd
    simp only [Bool.or_eq_false_iff, Bool.and_eq_false_imp, beq_iff_eq]
    constructor
    · cases q with
      | nil => rfl
      | cons x0 q =>
        cases q with
        | nil => rfl
        | cons t q => simp [twoAMTail, hs2]
    · intro hz
      exact absurd hz hdZ

/-- The text handed to the layouts, the working zone and `tzidFound`, for a text
without annotation and for a text whose annotation is terminated and resolved. -/
theorem parseTime_literal (R : GoString → Except GoError Location)
    (str : GoString) (z : Option Location)
    (h : ¬ ";TZID=".toList <:+: str ∨
      ∃ pre name rest loc, str = pre ++ ";TZID=".toList ++ name ++ ':' :: rest ∧
        strings.Index str ";TZID=".toList = pre.length ∧ ':' ∉ name ∧ R name = .ok loc) :
    ∃ lit loc tzidFound,
      parseTime R str z = some (parseLiteral loc tzidFound lit) ∧
      ((¬ ";TZID=".toList <:+: str ∧ tzidFound = false ∧ loc = z.getD UTC ∧
          lit = str.drop (strings.IndexAny str ":=".toList + 1).toNat) ∨
        (∃ pre name, str = pre ++ ";TZID=".toList ++ name ++ ':' :: lit ∧
          strings.Index str ";TZID=".toList = pre.length ∧ ':' ∉ name ∧
          R name = .ok loc ∧ tzidFound = true)) := by
  rcases h with h | ⟨pre, name, rest, loc, hstr, hidx, hname, hR⟩
  · have h' := (Index_neg_iff _ _).mpr h
    exact ⟨str.drop (strings.IndexAny str ":=".toList + 1).toNat, z.getD UTC, false,
      parseTime_absent R str z h', Or.inl ⟨h, rfl, rfl, rfl⟩⟩
  · refine ⟨rest, loc, true, ?_, Or.inr ⟨pre, name, hstr, hidx, hname, hR, rfl⟩⟩
    subst hstr
    rw [parseTime_annotated R pre name rest z hidx hname, hR]

/-! ### C1, C2: round trips through `formatTime` and `parseTime` -/

/-- C1 (the code departs from the claim): the UTC instant 1997-09-02T02:00:00Z is
formatted in the offset form as `DTSTART:19970902T020000Z`, and `parseTime` reads
that text back as the instant one hour later, 03:00:00Z, because the literal is in
the 2am range and `parseTime` advances it without looking at the parsed hour. -/
theorem C1_offset_round_trip_at_2am (R : GoString → Except GoError Location) :
    formatTime "DTSTART".toList ⟨873165600, 0, UTC⟩ false
        = "DTSTART:19970902T020000Z".toList ∧
      parseTime R (formatTime "DTSTART".toList ⟨873165600, 0, UTC⟩ false) none
        = some (⟨873165600 + 3600, 0, UTC⟩, false, none) ∧
      Time.Hour ⟨873165600, 0, UTC⟩ = 2 ∧ Time.Hour ⟨873165600 + 3600, 0, UTC⟩ = 3 :=
  ⟨rfl, rfl, rfl, rfl⟩

/-- C2 (the code departs from the claim): the civil time 1997-09-02 02:00:00, which
exists exactly once in UTC, is formatted in the floating form as
`DTSTART:19970902T020000`; `parseTime` with no default zone reads it back as floating
but with wall clock 03:00:00, not 02:00:00. -/
theorem C2_floating_round_trip_at_2am (R : GoString → Except GoError Location) :
    formatTime "DTSTART".toList ⟨873165600, 0, UTC⟩ true
        = "DTSTART:19970902T020000".toList ∧
      (∃ t, parseTime R (formatTime "DTSTART".toList ⟨873165600, 0, UTC⟩ true) none
          = some (t, true, none) ∧
        t.Year = 1997 ∧ t.Month = 9 ∧ t.Day = 2 ∧ t.Hour = 3 ∧ t.Minute = 0 ∧
          t.Second = 0) ∧
      Time.Hour ⟨873165600, 0, UTC⟩ = 2 :=
  ⟨rfl, ⟨⟨873169200, 0, UTC⟩, rfl, rfl, rfl, rfl, rfl, rfl, rfl⟩, rfl⟩

/-! ### C3: unterminated annotation -/

/-- C3 (the code departs from the claim): when the text contains `;TZID=` and no `:`
occurs after it, `parseTime` does not return the `no end to TZID` error.  The test
`locEnd < 0` is made after `locBeg` has been added to the `-1` of the failed search,
so it cannot fire, and the slice `str[locBeg:locEnd]` with `locEnd = locBeg - 1`
panics. -/
theorem C3_unterminated_annotation_panics (R : GoString → Except GoError Location)
    (str : GoString) (z : Option Location)
    (h1 : 0 ≤ strings.Index str ";TZID=".toList)
    (h2 : ':' ∉ str.drop (strings.Index str ";TZID=".toList + 6).toNat) :
    parseTime R str z = none := by
  have hb := Index_bounds str ";TZID=".toList (by simp [tzid_toList])
  have hlen : (";TZID=".toList).length = 6 := rfl
  rw [hlen] at hb
  have hs : sliceFrom str (strings.Index str ";TZID=".toList + 6)
      = some (str.drop (strings.Index str ";TZID=".toList + 6).toNat) := by
    unfold sliceFrom
    rw [if_pos]
    constructor <;> omega
  have hi : strings.Index (str.drop (strings.Index str ";TZID=".toList + 6).toNat)
      ":".toList = -1 := by
    have := indexFrom_single_of_not_mem ':' _ 0 h2
    simpa [strings.Index, colon_toList] using this
  have hr : sliceRange str (strings.Index str ";TZID=".toList + 6)
      (strings.Index str ";TZID=".toList + 6 + -1) = none := by
    unfold sliceRange
    rw [if_neg]
    omega
  have hneg : ¬ (strings.Index str ";TZID=".toList + 6 + -1 < 0) := by omega
  unfold parseTime
  simp only [ge_iff_le, h1, if_true, hs, hi, hneg, if_false, hr]

theorem C3_unterminated_annotation_panics_witness :
    0 ≤ strings.Index ";TZID=America/New_York19970902T090000".toList ";TZID=".toList ∧
      parseTime zoneinfo ";TZID=America/New_York19970902T090000".toList none = none :=
  ⟨by decide, C3_unterminated_annotation_panics zoneinfo
    ";TZID=America/New_York19970902T090000".toList none (by decide) (by decide)⟩

/-! ### C4: the floating flag -/

/-- C4: when `parseTime` succeeds, the floating flag it returns is `true` exactly
when the text holds no `;TZID=` annotation and the literal carries no `Z` or
numeric-offset suffix; equivalently, when there is no annotation and the literal is
not matched by the offset-qualified layout.  With any other default zone
`parseTime` succeeds as well and returns the same flag. -/
theorem C4_floating_flag (R : GoString → Except GoError Location) (str : GoString)
    (z : Option Location) (t : Time) (f : Bool)
    (h : parseTime R str z = some (t, f, none)) :
    (f = true ↔
      (¬ ";TZID=".toList <:+: str ∧
        hasOffsetSuffix (str.drop (strings.IndexAny str ":=".toList + 1).toNat) = false)) ∧
    (f = true ↔
      (¬ ";TZID=".toList <:+: str ∧
        matchesLayout rfc5545WithOffset
          (str.drop (strings.IndexAny str ":=".toList + 1).toNat) (z.getD UTC) = false)) ∧
    (∀ z' : Option Location, ∃ t', parseTime R str z' = some (t', f, none)) := by
  rw [← Index_neg_iff]
  by_cases hidx : strings.Index str ";TZID=".toList < 0
  · rw [parseTime_absent R str z hidx] at h
    simp only [parseLiteral, Option.some.injEq, Prod.mk.injEq, Bool.false_or] at h
    obtain ⟨-, hf, he⟩ := h
    rw [parseLayouts_offsetFound] at hf
    rw [parseLayouts_err_none] at he
    generalize hlit : str.drop (strings.IndexAny str ":=".toList + 1).toNat = lit at hf he
    have hz : ∀ z' : Option Location, ∃ t', parseTime R str z' = some (t', f, none) := by
      intro z'
      rw [parseTime_absent R str z' hidx, hlit]
      refine ⟨normalizeDST (parseLayouts lit (z'.getD UTC)).2.1 lit, ?_⟩
      have e1 : (parseLayouts lit (z'.getD UTC)).2.2 = none := by
        rw [parseLayouts_err_none]
        rw [matchesLayout_loc _ _ _ (z.getD UTC), matchesLayout_loc rfc5545WithoutOffset _ _
          (z.getD UTC), matchesLayout_loc rfc5545Date _ _ (z.getD UTC)]
        exact he
      have e2 : (parseLayouts lit (z'.getD UTC)).1
          = matchesLayout rfc5545WithOffset lit (z.getD UTC) := by
        rw [parseLayouts_offsetFound, matchesLayout_loc _ _ _ (z.getD UTC)]
      simp only [parseLiteral, e1, e2, Bool.false_or, hf]
    cases hm : matchesLayout rfc5545WithOffset lit (z.getD UTC) with
    | true =>
      rw [hm] at hf
      have hsuf := hasOffsetSuffix_of_withOffset hm
      subst hf
      exact ⟨iff_of_false (by decide) (fun h => absurd (hsuf.symm.trans h.2) (by decide)),
        iff_of_false (by decide) (fun h => absurd h.2 (by decide)), hz⟩
    | false =>
      rw [hm] at hf
      rw [hm] at he
      have hplain : ∀ c ∈ lit, plainByte c := by
        rcases he with he | he | he
        · cases he
        · exact plain_of_matches plain_chunks_withoutOffset rfl he
        · exact plain_of_matches plain_chunks_date rfl he
      have hsuf := hasOffsetSuffix_of_plain hplain
      subst hf
      exact ⟨iff_of_true rfl ⟨hidx, hsuf⟩, iff_of_true rfl ⟨hidx, rfl⟩, hz⟩
  · have hge : 0 ≤ strings.Index str ";TZID=".toList := not_lt.mp hidx
    have hf : f = false := (parseTime_present R str z z hge).2 t f none h
    subst hf
    refine ⟨iff_of_false (by decide) (fun h => hidx h.1),
      iff_of_false (by decide) (fun h => hidx h.1), ?_⟩
    intro z'
    exact ⟨t, by rw [← (parseTime_present R str z z' hge).1]; exact h⟩

theorem C4_floating_flag_witness :
    parseTime zoneinfo "DTSTART:20070902T090000".toList (some newYork2007)
        = some (⟨1188738000, 0, newYork2007⟩, true, none) ∧
      ((true = true ↔
        (¬ ";TZID=".toList <:+: "DTSTART:20070902T090000".toList ∧
          hasOffsetSuffix ("DTSTART:20070902T090000".toList.drop
            (strings.IndexAny "DTSTART:20070902T090000".toList ":=".toList + 1).toNat)
              = false)) ∧
      (true = true ↔
        (¬ ";TZID=".toList <:+: "DTSTART:20070902T090000".toList ∧
          matchesLayout rfc5545WithOffset ("DTSTART:20070902T090000".toList.drop
            (strings.IndexAny "DTSTART:20070902T090000".toList ":=".toList + 1).toNat)
            ((some newYork2007).getD UTC) = false)) ∧
      (∀ z' : Option Location, ∃ t',
        parseTime zoneinfo "DTSTART:20070902T090000".toList z' = some (t', true, none))) :=
  ⟨by decide, C4_floating_flag zoneinfo "DTSTART:20070902T090000".toList (some newYork2007)
    ⟨1188738000, 0, newYork2007⟩ true (by decide)⟩

/-! ### C5, C6: daylight-saving transitions -/

/-- C5 (the code departs from the claim): in America/Winnipeg the wall clock
02:30:00 of 2005-10-30 occurs twice, at 07:30 UTC (CDT) and at 08:30 UTC (CST).
`parseTime` returns the second, later occurrence for the bare literal
`20051030T023000`, both with the zone named by a TZID annotation and with the zone
as default zone. -/
theorem C5_fall_back_second_occurrence :
    Time.Format ⟨1130657400, 0, winnipeg2005⟩ rfc5545WithoutOffset
        = "20051030T023000".toList ∧
      Time.Format ⟨1130657400 + 3600, 0, winnipeg2005⟩ rfc5545WithoutOffset
        = "20051030T023000".toList ∧
      parseTime zoneinfo ";TZID=America/Winnipeg:20051030T023000".toList none
        = some (⟨1130657400 + 3600, 0, winnipeg2005⟩, false, none) ∧
      parseTime zoneinfo "20051030T023000".toList (some winnipeg2005)
        = some (⟨1130657400 + 3600, 0, winnipeg2005⟩, true, none) := by
  decide

/-- C6 (the code departs from the claim): in Europe/Berlin the wall clock 02:30:00
of 2007-03-25 falls in the spring-forward gap; the offset in force before the gap is
+01:00, so the literal `20070325T023000` denotes 01:30 UTC.  `parseTime` returns
02:30 UTC, one hour later.  (The example of the claim, America/New_York on
2007-03-11, does give 07:30 UTC.) -/
theorem C6_spring_forward_positive_offset :
    (berlin2007.lookup (1174784400 - 1)).offset = 3600 ∧
      (berlin2007.lookup 1174784400).offset = 7200 ∧
      (Date 2007 3 25 2 30 0 0 UTC).sec - 3600 = 1174786200 ∧
      parseTime zoneinfo ";TZID=Europe/Berlin:20070325T023000".toList none
        = some (⟨1174786200 + 3600, 0, berlin2007⟩, false, none) ∧
      parseTime zoneinfo ";TZID=America/New_York:20070311T023000".toList none
        = some (⟨1173598200, 0, newYork2007⟩, false, none) := by
  decide

/-! ### C7, C8: error results -/

/-- C7 (the claim fails): the literal `19970902T090000.5` has none of the three patterns
of the spec's table of layouts, and `parseTime` returns it with a nil error (half a
second past 09:00:00): the layouts take a fraction of a second after the seconds.  The
literal `19970230` has the date-only pattern, eight digits, and `parseTime` returns an
error for it: the layouts reject a day that its month does not have. -/
theorem C7_layout_patterns_differ :
    specLayoutPattern "19970902T090000.5".toList = false ∧
      parseTime zoneinfo "19970902T090000.5".toList none
        = some (⟨873190800, 500000000, UTC⟩, true, none) ∧
      specLayoutPattern "19970230".toList = true ∧
      parseTime zoneinfo "19970230".toList none
        = some (Time.zero, true,
            some (.parseError "20060102".toList "19970230".toList)) := by
  decide

/-- C7 (amended): when the text has no `;TZID=` annotation, or has one that is
terminated by `:` and resolved by the resolver, `parseTime` returns (it does not
panic), and the error it returns is non-nil exactly when the literal after the
separator is not well formed, where a well-formed literal is a valid calendar date
`YYYYMMDD`, alone or followed by `T`, a time of day `HHMMSS`, an optional fraction of a
second, and an optional `Z` or numeric offset.  The returned error is the one left by
the layouts: the daylight-saving normalisation only acts on the time. -/
theorem C7_error_iff_not_well_formed (R : GoString → Except GoError Location)
    (str : GoString) (z : Option Location)
    (h : ¬ ";TZID=".toList <:+: str ∨
      ∃ pre name rest loc, str = pre ++ ";TZID=".toList ++ name ++ ':' :: rest ∧
        strings.Index str ";TZID=".toList = pre.length ∧ ':' ∉ name ∧ R name = .ok loc) :
    ∃ lit loc tzidFound,
      parseTime R str z
        = some (normalizeDST (parseLayouts lit loc).2.1 lit,
            !(tzidFound || (parseLayouts lit loc).1), (parseLayouts lit loc).2.2) ∧
      ((parseLayouts lit loc).2.2 ≠ none ↔ wellFormedLiteral lit = false) ∧
      ((parseLayouts lit loc).2.2 = none ↔ wellFormedLiteral lit = true) ∧
      ((¬ ";TZID=".toList <:+: str ∧ tzidFound = false ∧ loc = z.getD UTC ∧
          lit = str.drop (strings.IndexAny str ":=".toList + 1).toNat) ∨
        (∃ pre name, str = pre ++ ";TZID=".toList ++ name ++ ':' :: lit ∧
          strings.Index str ";TZID=".toList = pre.length ∧ ':' ∉ name ∧
          R name = .ok loc ∧ tzidFound = true)) := by
  obtain ⟨lit, loc, tzidFound, hp, hdesc⟩ := parseTime_literal R str z h
  refine ⟨lit, loc, tzidFound, hp, ?_, parseLayouts_ok_iff lit loc, hdesc⟩
  rw [Ne, parseLayouts_ok_iff lit loc]
  simp

theorem C7_error_iff_not_well_formed_witness :
    wellFormedLiteral "1997090".toList = false ∧
    ∃ lit loc tzidFound,
      parseTime zoneinfo "DTSTART:1997090".toList none
        = some (normalizeDST (parseLayouts lit loc).2.1 lit,
            !(tzidFound || (parseLayouts lit loc).1), (parseLayouts lit loc).2.2) ∧
      ((parseLayouts lit loc).2.2 ≠ none ↔ wellFormedLiteral lit = false) ∧
      ((parseLayouts lit loc).2.2 = none ↔ wellFormedLiteral lit = true) ∧
      ((¬ ";TZID=".toList <:+: "DTSTART:1997090".toList ∧ tzidFound = false ∧
          loc = (none : Option Location).getD UTC ∧
          lit = "DTSTART:1997090".toList.drop
            (strings.IndexAny "DTSTART:1997090".toList ":=".toList + 1).toNat) ∨
        (∃ pre name, "DTSTART:1997090".toList = pre ++ ";TZID=".toList ++ name ++ ':' :: lit ∧
          strings.Index "DTSTART:1997090".toList ";TZID=".toList = pre.length ∧ ':' ∉ name ∧
          zoneinfo name = .ok loc ∧ tzidFound = true)) :=
  ⟨by decide,
    C7_error_iff_not_well_formed zoneinfo "DTSTART:1997090".toList none
      (Or.inl ((Index_neg_iff _ _).mp (by decide)))⟩

/-- C8: for a text `pre;TZID=name:rest` in which the `;TZID=` shown is the first one
of the text and `name` holds no `:`, if the resolver fails on `name` then `parseTime`
returns the zero time, the floating flag `false` and exactly the resolver's error,
whatever `rest` and the default zone are. -/
theorem C8_unknown_zone (R : GoString → Except GoError Location)
    (pre name rest : GoString) (z : Option Location) (err : GoError)
    (hidx : strings.Index (pre ++ ";TZID=".toList ++ name ++ ':' :: rest) ";TZID=".toList
      = pre.length)
    (hname : ':' ∉ name) (hR : R name = .error err) :
    parseTime R (pre ++ ";TZID=".toList ++ name ++ ':' :: rest) z
      = some (Time.zero, false, some err) := by
  rw [parseTime_annotated R pre name rest z hidx hname, hR]

theorem C8_unknown_zone_witness :
    parseTime zoneinfo
        ([] ++ ";TZID=".toList ++ "Not/AZone".toList ++ ':' :: "19970902T090000".toList)
        (some newYork2007)
      = some (Time.zero, false,
          some (.external ("unknown time zone ".toList ++ "Not/AZone".toList))) :=
  C8_unknown_zone zoneinfo [] "Not/AZone".toList "19970902T090000".toList (some newYork2007)
    _ (by decide) (by decide) rfl

/-! ### C9: date-only literals -/

/-- C9 (the claim fails): in America/Sao_Paulo the clock went from 00:00 to 01:00
on 2018-11-04, so that midnight does not exist there.  For the literal `20181104`
with that zone as default `parseTime` succeeds with floating flag `true`, but the
time it returns is 2018-11-03 23:00:00, not 2018-11-04 00:00:00.  And in a zone whose
clock is set back by an hour and a half at 2018-02-17 23:30 UTC the midnight of
2018-02-18 exists, `time.Date` resolves it to 00:00 UTC, which reads 00:00:00 there;
one hour earlier the wall clock reads 00:30:00 of the same day, the normalisation
takes the hour 00 for a repeated hour, and for the literal `20180218` `parseTime`
returns 2018-02-18 00:30:00. -/
theorem C9_midnight_skipped :
    parseTime zoneinfo "20181104".toList (some saoPaulo2018)
        = some (⟨1541296800, 0, saoPaulo2018⟩, true, none) ∧
      Time.Day ⟨1541296800, 0, saoPaulo2018⟩ = 3 ∧
      Time.Hour ⟨1541296800, 0, saoPaulo2018⟩ = 23 ∧
      (¬ ∃ t, parseTime zoneinfo "20181104".toList (some saoPaulo2018) = some (t, true, none) ∧
        t.Year = 2018 ∧ t.Month = 11 ∧ t.Day = 4 ∧ t.Hour = 0 ∧ t.Minute = 0 ∧
        t.Second = 0) ∧
      midnightIn 2018 2 18 setBack90 = 1518912000 ∧
      midnightIn 2018 2 18 setBack90 + (setBack90.lookup (midnightIn 2018 2 18 setBack90)).offset
        = midnightUTC 2018 2 18 ∧
      parseTime zoneinfo "20180218".toList (some setBack90)
        = some (⟨1518908400, 0, setBack90⟩, true, none) ∧
      Time.Day ⟨1518908400, 0, setBack90⟩ = 18 ∧
      Time.Hour ⟨1518908400, 0, setBack90⟩ = 0 ∧
      Time.Minute ⟨1518908400, 0, setBack90⟩ = 30 := by
  have e : parseTime zoneinfo "20181104".toList (some saoPaulo2018)
      = some (⟨1541296800, 0, saoPaulo2018⟩, true, none) := by decide
  refine ⟨e, by decide, by decide, ?_, by decide, by decide, by decide, by decide, by decide,
    by decide⟩
  rintro ⟨t, h, -, -, hd, -⟩
  rw [e] at h
  simp only [Option.some.injEq, Prod.mk.injEq, and_true] at h
  subst h
  revert hd
  decide

/-- C9 (amended): for a text without `;TZID=` annotation whose literal is eight
digits YYYYMMDD naming a valid calendar date, and for a working zone (the default
zone, or UTC when none is supplied) in which that local midnight exists - the
instant `time.Date` resolves it to reads 00:00:00 of that date on the wall clock of
the zone - `parseTime` succeeds with floating flag `true` and returns a time of that
zone.  The time returned has year YYYY, month MM, day DD and time of day 00:00:00
exactly when, one hour before that instant, the wall clock of the zone is not in the
hour 00, or the UTC offset is one hour larger than at that instant (the clock then
reads that same midnight a first time). -/
theorem C9_date_only_midnight (R : GoString → Except GoError Location) (str : GoString)
    (z : Option Location) (c1 c2 c3 c4 c5 c6 c7 c8 : Char) (y m d : Int) (loc : Location)
    (hno : ¬ ";TZID=".toList <:+: str)
    (hlit : str.drop (strings.IndexAny str ":=".toList + 1).toNat
      = [c1, c2, c3, c4, c5, c6, c7, c8])
    (hdig : ∀ c ∈ [c1, c2, c3, c4, c5, c6, c7, c8], isDigitByte c = true)
    (hyear : y = digits4 c1 c2 c3 c4) (hmonth : m = digits2 c5 c6) (hday : d = digits2 c7 c8)
    (hm1 : 1 ≤ m) (hm2 : m ≤ 12) (hd1 : 1 ≤ d) (hd2 : d ≤ daysIn m y)
    (hzone : loc = z.getD UTC)
    (hfound : midnightIn y m d loc + (loc.lookup (midnightIn y m d loc)).offset
      = midnightUTC y m d) :
    ∃ t, parseTime R str z = some (t, true, none) ∧ t.Location = loc ∧
      ((t.Year = y ∧ t.Month = m ∧ t.Day = d ∧ t.Hour = 0 ∧ t.Minute = 0 ∧ t.Second = 0) ↔
        (Time.Hour ⟨midnightIn y m d loc - 3600, 0, loc⟩ ≠ 0 ∨
          (loc.lookup (midnightIn y m d loc - 3600)).offset
            = (loc.lookup (midnightIn y m d loc)).offset + 3600)) := by
  subst hyear hmonth hday hzone
  unfold midnightIn at hfound ⊢
  have habs := (Index_neg_iff _ _).mpr hno
  generalize hy : digits4 c1 c2 c3 c4 = y at *
  generalize hm : digits2 c5 c6 = m at *
  generalize hd : digits2 c7 c8 = d at *
  generalize hloc : z.getD UTC = loc at *
  have hpl := parseLayouts_date c1 c2 c3 c4 c5 c6 c7 c8 loc hdig (by omega) (by omega)
    (by omega) (by rw [hy, hm, hd]; exact hd2)
  rw [hy, hm, hd, Date_midnight_fields y m d loc] at hpl
  generalize hs0 : (Date y m d 0 0 0 0 loc).sec = s0 at *
  generalize ho : (loc.lookup s0).offset = o at *
  generalize ho' : (loc.lookup (s0 - 3600)).offset = o' at *
  have hu := midnightUTC_eq y m d hm1 hm2
  generalize hA : daysSinceEpoch y + yearDay y m d = A at hu
  have hkey : s0 + o = A * secondsPerDay - unixToAbsolute := by rw [hfound, hu]
  have habs0 : Time.abs ⟨s0, 0, loc⟩ = A * secondsPerDay := by
    unfold Time.abs
    rw [Time_offset_eq, ho]
    show s0 + o + unixToAbsolute = A * secondsPerDay
    omega
  have habs1 : Time.abs ⟨s0 - 3600, 0, loc⟩ = A * secondsPerDay - 3600 + (o' - o) := by
    unfold Time.abs
    rw [Time_offset_eq, ho']
    show s0 - 3600 + o' + unixToAbsolute = A * secondsPerDay - 3600 + (o' - o)
    omega
  have hH0 : Time.Hour ⟨s0, 0, loc⟩ = 0 := by
    unfold Time.Hour
    rw [habs0]
    simp only [secondsPerDay, secondsPerHour]
    omega
  have hciv := absDate_civil y m d hm1 hm2 hd1 hd2
  rw [hA] at hciv
  -- a time whose wall-clock second count is that of the midnight reads the midnight
  have hread : ∀ t : Time, t.abs = A * secondsPerDay →
      (t.Year = y ∧ t.Month = m ∧ t.Day = d ∧ t.Hour = 0 ∧ t.Minute = 0 ∧ t.Second = 0) := by
    intro t hta
    refine ⟨?_, ?_, ?_, ?_, ?_, ?_⟩
    · unfold Time.Year
      rw [hta, hciv]
    · unfold Time.Month
      rw [hta, hciv]
    · unfold Time.Day
      rw [hta, hciv]
    · unfold Time.Hour
      rw [hta]
      simp only [secondsPerDay, secondsPerHour]
      omega
    · unfold Time.Minute
      rw [hta]
      simp only [secondsPerDay, secondsPerHour, secondsPerMinute]
      omega
    · unfold Time.Second
      rw [hta]
      simp only [secondsPerDay, secondsPerMinute]
      omega
  have hpt : parseTime R str z
      = some (normalizeDST ⟨s0, 0, loc⟩ [c1, c2, c3, c4, c5, c6, c7, c8], true, none) := by
    rw [parseTime_absent R str z habs, hlit, hloc]
    unfold parseLiteral
    rw [hpl]
    simp only [Bool.or_self, Bool.not_false]
  have hnd : normalizeDST ⟨s0, 0, loc⟩ [c1, c2, c3, c4, c5, c6, c7, c8]
      = if Time.Hour ⟨s0 - 3600, 0, loc⟩ = 0 then ⟨s0 - 3600, 0, loc⟩ else ⟨s0, 0, loc⟩ := by
    unfold normalizeDST
    simp only [Add_minus_hour, hH0, twoAMRegex_digits _ hdig, Bool.false_eq_true, if_false]
    by_cases hh : Time.Hour ⟨s0 - 3600, 0, loc⟩ = 0
    · rw [if_pos hh.symm, if_pos hh]
    · rw [if_neg (fun h => hh h.symm), if_neg hh]
  rw [hpt, hnd]
  by_cases hh : Time.Hour ⟨s0 - 3600, 0, loc⟩ = 0
  · rw [if_pos hh]
    refine ⟨⟨s0 - 3600, 0, loc⟩, rfl, rfl, ?_⟩
    constructor
    · intro hf
      right
      have e := abs_of_fields ⟨s0 - 3600, 0, loc⟩ ⟨s0, 0, loc⟩
        (hf.1.trans (hread _ habs0).1.symm) (hf.2.1.trans (hread _ habs0).2.1.symm)
        (hf.2.2.1.trans (hread _ habs0).2.2.1.symm)
        (hf.2.2.2.1.trans (hread _ habs0).2.2.2.1.symm)
        (hf.2.2.2.2.1.trans (hread _ habs0).2.2.2.2.1.symm)
        (hf.2.2.2.2.2.trans (hread _ habs0).2.2.2.2.2.symm)
      rw [habs0, habs1] at e
      omega
    · rintro (h | h)
      · exact absurd hh h
      · apply hread
        rw [habs1]
        omega
  · rw [if_neg hh]
    exact ⟨⟨s0, 0, loc⟩, rfl, rfl, fun _ => Or.inl hh, fun _ => hread _ habs0⟩

theorem C9_date_only_midnight_witness :
    (∃ t, parseTime zoneinfo "DTSTART:20180218".toList (some saoPaulo2018)
        = some (t, true, none) ∧
      t.Location = saoPaulo2018 ∧
      ((t.Year = 2018 ∧ t.Month = 2 ∧ t.Day = 18 ∧ t.Hour = 0 ∧ t.Minute = 0 ∧
          t.Second = 0) ↔
        (Time.Hour ⟨midnightIn 2018 2 18 saoPaulo2018 - 3600, 0, saoPaulo2018⟩ ≠ 0 ∨
          (saoPaulo2018.lookup (midnightIn 2018 2 18 saoPaulo2018 - 3600)).offset
            = (saoPaulo2018.lookup (midnightIn 2018 2 18 saoPaulo2018)).offset + 3600))) ∧
    (∃ t, parseTime zoneinfo "DTSTART:20111231".toList (some apia2011)
        = some (t, true, none) ∧
      t.Location = apia2011 ∧
      ((t.Year = 2011 ∧ t.Month = 12 ∧ t.Day = 31 ∧ t.Hour = 0 ∧ t.Minute = 0 ∧
          t.Second = 0) ↔
        (Time.Hour ⟨midnightIn 2011 12 31 apia2011 - 3600, 0, apia2011⟩ ≠ 0 ∨
          (apia2011.lookup (midnightIn 2011 12 31 apia2011 - 3600)).offset
            = (apia2011.lookup (midnightIn 2011 12 31 apia2011)).offset + 3600))) ∧
    Time.Hour ⟨midnightIn 2011 12 31 apia2011 - 3600, 0, apia2011⟩ = 23 ∧
    Time.Hour ⟨midnightIn 2018 2 18 saoPaulo2018 - 3600, 0, saoPaulo2018⟩ = 23 :=
  ⟨C9_date_only_midnight zoneinfo "DTSTART:20180218".toList (some saoPaulo2018)
      '2' '0' '1' '8' '0' '2' '1' '8' 2018 2 18 saoPaulo2018
      ((Index_neg_iff _ _).mp (by decide)) (by decide) (by decide) (by decide) (by decide)
      (by decide) (by decide) (by decide) (by decide) (by decide) rfl (by decide),
    C9_date_only_midnight zoneinfo "DTSTART:20111231".toList (some apia2011)
      '2' '0' '1' '1' '1' '2' '3' '1' 2011 12 31 apia2011
      ((Index_neg_iff _ _).mp (by decide)) (by decide) (by decide) (by decide) (by decide)
      (by decide) (by decide) (by decide) (by decide) (by decide) rfl (by decide),
    by decide, by decide⟩

/-! ### C10: the branches of `formatTime` -/

/-- C10: `formatTime` has three exclusive branches, the floating flag first.  With
`L` the text `Time.Format` gives for the layout `20060102T150405`: a floating time
is written `p:L` whatever its zone; a non-floating time in UTC is written `p:LZ`; a
non-floating time in another zone is written `p;TZID=zoneName:L`.  For a time whose
year has four digits, `L` is the civil literal YYYYMMDDTHHMMSS of the time in its
own zone. -/
theorem C10_formatter_branches (pfx : GoString) (t : Time) :
    formatTime pfx t true = pfx ++ ":".toList ++ t.Format rfc5545WithoutOffset ∧
      (t.Location = UTC →
        formatTime pfx t false
          = pfx ++ ":".toList ++ t.Format rfc5545WithoutOffset ++ "Z".toList) ∧
      (t.Location ≠ UTC →
        formatTime pfx t false
          = pfx ++ ";TZID=".toList ++ t.Location.String ++ ":".toList
              ++ t.Format rfc5545WithoutOffset) ∧
      (0 ≤ t.Year → t.Year ≤ 9999 → t.Format rfc5545WithoutOffset = civilLiteral t) := by
  refine ⟨by simp [formatTime], ?_, ?_, Format_eq_civilLiteral t⟩
  · intro h
    simp [formatTime, h]
  · intro h
    simp [formatTime, h]

theorem C10_formatter_branches_witness :
    formatTime "DTSTART".toList ⟨1130657400, 0, winnipeg2005⟩ true
        = "DTSTART:20051030T023000".toList ∧
      formatTime "DTSTART".toList ⟨1130657400, 0, UTC⟩ false
        = "DTSTART:20051030T073000Z".toList ∧
      formatTime "DTSTART".toList ⟨1130657400, 0, winnipeg2005⟩ false
        = "DTSTART;TZID=America/Winnipeg:20051030T023000".toList ∧
      Time.Format ⟨1130657400, 0, winnipeg2005⟩ rfc5545WithoutOffset
        = civilLiteral ⟨1130657400, 0, winnipeg2005⟩ ∧
      civilLiteral ⟨1130657400, 0, winnipeg2005⟩ = "20051030T023000".toList :=
  ⟨by rw [(C10_formatter_branches "DTSTART".toList ⟨1130657400, 0, winnipeg2005⟩).1]; decide,
    by rw [(C10_formatter_branches "DTSTART".toList ⟨1130657400, 0, UTC⟩).2.1 rfl]; decide,
    by rw [(C10_formatter_branches "DTSTART".toList ⟨1130657400, 0, winnipeg2005⟩).2.2.1
      (by decide)]; decide,
    (C10_formatter_branches "DTSTART".toList ⟨1130657400, 0, winnipeg2005⟩).2.2.2
      (by decide) (by decide),
    by decide⟩

/-! ### C11: what the formatter distinguishes -/

/-- C11 (the claim fails): 07:30 UTC and 08:30 UTC of 30 October 2005 are two distinct
whole-second instants of America/Winnipeg, before and after the fall-back transition of
08:00 UTC; both read 02:30:00 on the wall clock, and `formatTime` with the flag `false`
gives the same string for both. -/
theorem C11_fall_back_instants_collide :
    (⟨1130657400, 0, winnipeg2005⟩ : Time) ≠ ⟨1130661000, 0, winnipeg2005⟩ ∧
      Time.Year ⟨1130657400, 0, winnipeg2005⟩ = 2005 ∧
      Time.Year ⟨1130661000, 0, winnipeg2005⟩ = 2005 ∧
      Time.offset ⟨1130657400, 0, winnipeg2005⟩ = -18000 ∧
      Time.offset ⟨1130661000, 0, winnipeg2005⟩ = -21600 ∧
      formatTime "DTSTART".toList ⟨1130657400, 0, winnipeg2005⟩ false
        = "DTSTART;TZID=America/Winnipeg:20051030T023000".toList ∧
      formatTime "DTSTART".toList ⟨1130661000, 0, winnipeg2005⟩ false
        = "DTSTART;TZID=America/Winnipeg:20051030T023000".toList := by
  decide

/-- C11 (amended): with the flag `false`, `formatTime` is injective on wall-clock
readings, not on instants.  Two times of the same zone with four-digit years are
formatted to the same string exactly when their wall-clock readings agree (Unix
seconds plus the offset in force).  So two whole-second times of the zone under the
same offset, as any two times in UTC, are formatted alike only when they are equal. -/
theorem C11_injective_on_wall_clock (pfx : GoString) (t1 t2 : Time)
    (hloc : t1.Location = t2.Location) (h10 : 0 ≤ t1.Year) (h11 : t1.Year ≤ 9999)
    (h20 : 0 ≤ t2.Year) (h21 : t2.Year ≤ 9999) :
    (formatTime pfx t1 false = formatTime pfx t2 false ↔
        t1.sec + t1.offset = t2.sec + t2.offset) ∧
      (t1.offset = t2.offset → t1.nsec = t2.nsec →
        (formatTime pfx t1 false = formatTime pfx t2 false ↔ t1 = t2)) := by
  have key : formatTime pfx t1 false = formatTime pfx t2 false ↔
      t1.sec + t1.offset = t2.sec + t2.offset := by
    rw [formatTime_eq_iff pfx t1 t2 hloc, Format_eq_civilLiteral t1 h10 h11,
      Format_eq_civilLiteral t2 h20 h21, civilLiteral_eq_iff t1 t2 h10 h11 h20 h21]
    unfold Time.abs
    omega
  refine ⟨key, ?_⟩
  intro ho hn
  rw [key]
  constructor
  · intro h
    have hs : t1.sec = t2.sec := by omega
    cases t1
    cases t2
    simp only [Time.Location] at hloc
    simp only at hs hn
    simp only [Time.mk.injEq]
    exact ⟨hs, hn, hloc⟩
  · intro h
    rw [h]

theorem C11_injective_on_wall_clock_witness :
    (formatTime "DTSTART".toList ⟨1130657400, 0, winnipeg2005⟩ false
        = formatTime "DTSTART".toList ⟨1130661000, 0, winnipeg2005⟩ false ↔
      (1130657400 : Int) + Time.offset ⟨1130657400, 0, winnipeg2005⟩
        = 1130661000 + Time.offset ⟨1130661000, 0, winnipeg2005⟩) ∧
    (formatTime "DTSTART".toList ⟨1130657400, 0, UTC⟩ false
        = formatTime "DTSTART".toList ⟨1130661000, 0, UTC⟩ false ↔
      (⟨1130657400, 0, UTC⟩ : Time) = ⟨1130661000, 0, UTC⟩) :=
  ⟨(C11_injective_on_wall_clock "DTSTART".toList ⟨1130657400, 0, winnipeg2005⟩
      ⟨1130661000, 0, winnipeg2005⟩ rfl (by decide) (by decide) (by decide) (by decide)).1,
    (C11_injective_on_wall_clock "DTSTART".toList ⟨1130657400, 0, UTC⟩
      ⟨1130661000, 0, UTC⟩ rfl (by decide) (by decide) (by decide) (by decide)).2 rfl rfl⟩

/-! ### C12: the shape of a formatted time, parsed again -/

/-- C12 (the claim fails): the zone `UTC+05:30` is a named zone that the resolver
`zoneinfoFixed` maps its own name back to, and 09:00 UTC of 2 September 2007 in that
zone has a four-digit year.  `formatTime` with the flag `false` writes the name into
the annotation, `parseTime` cuts the name at its first `:` and asks the resolver for
`UTC+05`, and the call returns the resolver's error instead of succeeding. -/
theorem C12_zone_name_with_colon :
    zoneinfoFixed (Location.String fixed0530) = .ok fixed0530 ∧
      fixed0530 ≠ UTC ∧
      Time.Year ⟨1188723600, 0, fixed0530⟩ = 2007 ∧
      formatTime "DTSTART".toList ⟨1188723600, 0, fixed0530⟩ false
        = "DTSTART;TZID=UTC+05:30:20070902T143000".toList ∧
      parseTime zoneinfoFixed (formatTime "DTSTART".toList ⟨1188723600, 0, fixed0530⟩ false)
          (some fixed0530)
        = some (Time.zero, false, some (.external "unknown time zone UTC+05".toList)) := by
  refine ⟨rfl, by decide, by decide, by decide, by decide⟩

/-- C12 (amended): for every prefix that contains no `:` and no `=`, every time `t` with
a four-digit year whose zone is UTC, or a named zone whose name contains no `:` and
which the resolver maps its own name back to, and every flag `f`, the call
`parseTime (formatTime prefix t f) (zone of t)` succeeds and returns the floating
flag `f` and a time in the zone of `t`. -/
theorem C12_shape_preserved (R : GoString → Except GoError Location) (pfx : GoString)
    (t : Time) (f : Bool) (hp : ∀ c ∈ pfx, c ≠ ':' ∧ c ≠ '=') (h0 : 0 ≤ t.Year)
    (h1 : t.Year ≤ 9999)
    (hz : t.Location = UTC ∨
      (':' ∉ t.Location.String ∧ R t.Location.String = .ok t.Location)) :
    ∃ t1 : Time, parseTime R (formatTime pfx t f) (some t.Location) = some (t1, f, none) ∧
      t1.Location = t.Location := by
  have hlit := civilLiteral_no_sep t h0 h1
  have hfmt := Format_eq_civilLiteral t h0 h1
  have hpe : '=' ∉ pfx := fun h => (hp _ h).2 rfl
  obtain ⟨q1, q2⟩ := parseLayouts_civilLiteral t t.Location h0 h1
  cases f with
  | true =>
    rw [formatTime_floating, hfmt]
    have hno : ¬ ";TZID=".toList <:+: pfx ++ ':' :: civilLiteral t := by
      apply not_tzid_of_no_eq
      simp only [List.mem_append, List.mem_cons, not_or]
      exact ⟨hpe, by decide, fun h => (hlit _ h).2 rfl⟩
    rw [parseTime_separator R pfx (civilLiteral t) ':' (some t.Location) hno hp (Or.inl rfl)]
    refine ⟨normalizeDST (Date t.Year t.Month t.Day t.Hour t.Minute t.Second 0 t.Location)
      (civilLiteral t), ?_, ?_⟩
    · simp only [parseLiteral, Option.getD_some, q1, Bool.or_self, Bool.not_false]
    · show (normalizeDST _ _).loc = t.loc
      rw [normalizeDST_loc]
      rfl
  | false =>
    by_cases hu : t.Location = UTC
    · rw [formatTime_utc pfx t hu, hfmt]
      have hno : ¬ ";TZID=".toList <:+: pfx ++ ':' :: (civilLiteral t ++ ['Z']) := by
        apply not_tzid_of_no_eq
        simp only [List.mem_append, List.mem_cons, List.mem_singleton, List.not_mem_nil,
          not_or]
        exact ⟨hpe, by decide, fun h => (hlit _ h).2 rfl, by decide, not_false⟩
      rw [parseTime_separator R pfx (civilLiteral t ++ ['Z']) ':' (some t.Location) hno hp
        (Or.inl rfl)]
      refine ⟨normalizeDST (Date t.Year t.Month t.Day t.Hour t.Minute t.Second 0 UTC)
        (civilLiteral t ++ ['Z']), ?_, ?_⟩
      · simp only [parseLiteral, Option.getD_some, q2, Bool.or_true, Bool.not_true]
      · show (normalizeDST _ _).loc = t.Location
        rw [normalizeDST_loc, hu]
        rfl
    · rcases hz with hz | ⟨hn, hR⟩
      · exact absurd hz hu
      · rw [formatTime_named pfx t hu, hfmt]
        have hidx : strings.Index
            (pfx ++ ";TZID=".toList ++ t.Location.String ++ ':' :: civilLiteral t)
            ";TZID=".toList = pfx.length := by
          have := Index_tzid_append pfx (t.Location.String ++ ':' :: civilLiteral t) hpe
          simpa [List.append_assoc] using this
        rw [parseTime_annotated R pfx t.Location.String (civilLiteral t) (some t.Location)
          hidx hn, hR]
        refine ⟨normalizeDST (Date t.Year t.Month t.Day t.Hour t.Minute t.Second 0 t.Location)
          (civilLiteral t), ?_, ?_⟩
        · simp only [parseLiteral, q1, Bool.or_false, Bool.not_true]
        · show (normalizeDST _ _).loc = t.loc
          rw [normalizeDST_loc]
          rfl

theorem C12_shape_preserved_witness :
    (∃ t1 : Time, parseTime zoneinfo
        (formatTime "DTSTART".toList ⟨1188723600, 0, berlin2007⟩ false)
        (some (Time.Location ⟨1188723600, 0, berlin2007⟩)) = some (t1, false, none) ∧
      t1.Location = Time.Location ⟨1188723600, 0, berlin2007⟩) ∧
    (∃ t1 : Time, parseTime zoneinfo
        (formatTime "DTSTART".toList ⟨1188723600, 0, UTC⟩ true)
        (some (Time.Location ⟨1188723600, 0, UTC⟩)) = some (t1, true, none) ∧
      t1.Location = Time.Location ⟨1188723600, 0, UTC⟩) :=
  ⟨C12_shape_preserved zoneinfo "DTSTART".toList ⟨1188723600, 0, berlin2007⟩ false
      (by decide) (by decide) (by decide) (Or.inr ⟨by decide, rfl⟩),
    C12_shape_preserved zoneinfo "DTSTART".toList ⟨1188723600, 0, UTC⟩ true
      (by decide) (by decide) (by decide) (Or.inl rfl)⟩

/-! ### C13, C14: the one-hour advance -/

/-- C13 (the claim fails): the literal `19970902T020000-0400` is in the 02 hour and
carries a numeric offset, the first test of the normalisation does not fire on it (one
hour earlier the wall clock reads 01), and `parseTime` returns the layout-parsed time
unchanged, 02:00:00 at -04:00, not that time plus one hour. -/
theorem C13_signed_offset_unchanged :
    ParseInLocation rfc5545WithOffset "19970902T020000-0400".toList UTC
        = .ok ⟨873180000, 0, FixedZone [] (-14400)⟩ ∧
      Time.Hour ⟨873180000, 0, FixedZone [] (-14400)⟩ = 2 ∧
      Time.Hour (Time.Add ⟨873180000, 0, FixedZone [] (-14400)⟩ (-1 * time.Hour)) = 1 ∧
      parseTime zoneinfo "19970902T020000-0400".toList none
        = some (⟨873180000, 0, FixedZone [] (-14400)⟩, false, none) ∧
      parseTime zoneinfo "19970902T020000-0400".toList none
        ≠ some (Time.Add ⟨873180000, 0, FixedZone [] (-14400)⟩ (1 * time.Hour), false, none) :=
  ⟨rfl, rfl, rfl, rfl, by decide⟩

/-- C13 (amended): let `lit` be the literal of the text, `loc` the working zone (for a
text without annotation, or with one that is terminated and resolved), and `t0` the
time produced by the first layout that matches the literal.  When the literal carries
no `Z` or numeric offset and `t0` minus one hour has the same wall-clock hour as `t0`,
`parseTime` returns `t0` minus one hour.  When `t0` minus one hour has another
wall-clock hour, the literal ends in `T02`, four digits and an optional `Z`, and the
wall-clock hour of `t0` is less than 2, it returns `t0` plus one hour.  When `t0` minus
one hour has another wall-clock hour and the literal does not end in `T02`, four digits
and an optional `Z`, it returns `t0` unchanged; a literal that ends in a numeric offset
is of this kind. -/
theorem C13_three_way_rule (R : GoString → Except GoError Location)
    (str : GoString) (z : Option Location) (lit : GoString) (loc : Location)
    (tzidFound off : Bool) (t0 : Time)
    (hdesc : (¬ ";TZID=".toList <:+: str ∧ tzidFound = false ∧ loc = z.getD UTC ∧
          lit = str.drop (strings.IndexAny str ":=".toList + 1).toNat) ∨
        (∃ pre name, str = pre ++ ";TZID=".toList ++ name ++ ':' :: lit ∧
          strings.Index str ";TZID=".toList = pre.length ∧ ':' ∉ name ∧
          R name = .ok loc ∧ tzidFound = true))
    (hpl : parseLayouts lit loc = (off, t0, none)) :
    ∃ t, parseTime R str z = some (t, !(tzidFound || off), none) ∧
      (off = false → Time.Hour (t0.Add (-1 * time.Hour)) = t0.Hour →
        t = t0.Add (-1 * time.Hour)) ∧
      (Time.Hour (t0.Add (-1 * time.Hour)) ≠ t0.Hour → endsInTwoAM lit = true →
        t0.Hour < 2 → t = t0.Add (1 * time.Hour)) ∧
      (Time.Hour (t0.Add (-1 * time.Hour)) ≠ t0.Hour → endsInTwoAM lit = false → t = t0) ∧
      (hasNumericOffset lit = true → endsInTwoAM lit = false) := by
  have hp : parseTime R str z = some (parseLiteral loc tzidFound lit) := by
    rcases hdesc with ⟨hno, hf, hloc, hlit⟩ | ⟨pre, name, hstr, hidx, hname, hR, hf⟩
    · rw [parseTime_absent R str z ((Index_neg_iff _ _).mpr hno), hf, hloc, hlit]
    · subst hstr
      rw [parseTime_annotated R pre name lit z hidx hname, hR, hf]
  have hw : wellFormedLiteral lit = true := by
    rw [← parseLayouts_ok_iff lit loc, hpl]
  have hm := MatchString_eq_endsInTwoAM hw
  refine ⟨normalizeDST t0 lit, ?_, ?_, ?_, ?_, endsInTwoAM_of_numericOffset⟩
  · rw [hp]
    simp only [parseLiteral, hpl]
  · intro _ hh
    unfold normalizeDST
    simp only [hh, if_true]
  · intro hh he _
    unfold normalizeDST
    simp only []
    rw [if_neg (fun e => hh e.symm), hm, he]
    rfl
  · intro hh he
    unfold normalizeDST
    simp only []
    rw [if_neg (fun e => hh e.symm), hm, he]
    rfl

theorem C13_three_way_rule_witness :
    (∃ t, parseTime zoneinfo ";TZID=America/New_York:20070311T023000".toList none
        = some (t, !(true || false), none) ∧
      (false = false →
        Time.Hour (Time.Add ⟨1173594600, 0, newYork2007⟩ (-1 * time.Hour))
          = Time.Hour ⟨1173594600, 0, newYork2007⟩ →
        t = Time.Add ⟨1173594600, 0, newYork2007⟩ (-1 * time.Hour)) ∧
      (Time.Hour (Time.Add ⟨1173594600, 0, newYork2007⟩ (-1 * time.Hour))
          ≠ Time.Hour ⟨1173594600, 0, newYork2007⟩ →
        endsInTwoAM "20070311T023000".toList = true →
        Time.Hour ⟨1173594600, 0, newYork2007⟩ < 2 →
        t = Time.Add ⟨1173594600, 0, newYork2007⟩ (1 * time.Hour)) ∧
      (Time.Hour (Time.Add ⟨1173594600, 0, newYork2007⟩ (-1 * time.Hour))
          ≠ Time.Hour ⟨1173594600, 0, newYork2007⟩ →
        endsInTwoAM "20070311T023000".toList = false → t = ⟨1173594600, 0, newYork2007⟩) ∧
      (hasNumericOffset "20070311T023000".toList = true →
        endsInTwoAM "20070311T023000".toList = false)) ∧
    Time.Hour ⟨1173594600, 0, newYork2007⟩ = 1 ∧
    Time.Hour (Time.Add ⟨1173594600, 0, newYork2007⟩ (-1 * time.Hour)) = 0 ∧
    endsInTwoAM "20070311T023000".toList = true ∧
    Time.Add ⟨1173594600, 0, newYork2007⟩ (1 * time.Hour) = ⟨1173598200, 0, newYork2007⟩ :=
  ⟨C13_three_way_rule zoneinfo ";TZID=America/New_York:20070311T023000".toList none
      "20070311T023000".toList newYork2007 true false ⟨1173594600, 0, newYork2007⟩
      (Or.inr ⟨[], "America/New_York".toList, by decide, by decide, by decide, rfl, rfl⟩)
      (by decide),
    by decide, by decide, by decide, by decide⟩

/-- C14 (the code departs from the claim): for the text `19970902T020000Z` the
layout-parsed time is 02:00:00 UTC, whose wall-clock hour is 2 and not less than 2,
and `parseTime` still returns that time plus one hour, 03:00:00 UTC: a 02:xx:xx time
that exists in UTC is not returned with its own wall-clock reading. -/
theorem C14_advance_without_hour_check (R : GoString → Except GoError Location) :
    ParseInLocation rfc5545WithOffset "19970902T020000Z".toList UTC
        = .ok ⟨873165600, 0, UTC⟩ ∧
      Time.Hour ⟨873165600, 0, UTC⟩ = 2 ∧
      parseTime R "19970902T020000Z".toList none
        = some (Time.Add ⟨873165600, 0, UTC⟩ (1 * time.Hour), false, none) ∧
      Time.Hour (Time.Add ⟨873165600, 0, UTC⟩ (1 * time.Hour)) = 3 :=
  ⟨rfl, rfl, rfl, rfl⟩

/-! ### C15: what ends an annotation -/

/-- C15 (the claim fails): with the zone name `America/New_York`, which the resolver
accepts and which holds no `:` or `=`, and the literal `20070902T090000`, the text with
`:` after the name is parsed in that zone, while the text with `=` after the name
makes `parseTime` panic.  With the literal `20070902T090000:x` neither call panics and
the two errors differ: after `=` the resolver is asked for the name
`America/New_York=20070902T090000`. -/
theorem C15_equals_is_no_terminator :
    zoneinfo "America/New_York".toList = .ok newYork2007 ∧
      parseTime zoneinfo ";TZID=America/New_York:20070902T090000".toList none
        = some (⟨1188738000, 0, newYork2007⟩, false, none) ∧
      parseTime zoneinfo ";TZID=America/New_York=20070902T090000".toList none = none ∧
      parseTime zoneinfo ";TZID=America/New_York=20070902T090000:x".toList none
        = some (Time.zero, false,
            some (.external "unknown time zone America/New_York=20070902T090000".toList)) ∧
      parseTime zoneinfo ";TZID=America/New_York:20070902T090000:x".toList none
        ≠ parseTime zoneinfo ";TZID=America/New_York=20070902T090000:x".toList none := by
  refine ⟨rfl, by decide, by decide, by decide, by decide⟩

/-- C15 (amended): only `:` ends a `;TZID=` annotation.  For a name without `:`, the
text `;TZID=` ++ name ++ `:` ++ literal makes `parseTime` look up `name` and, when the
resolver accepts it, parse the literal in that zone as a non-floating time.  An `=`
after the name does not end it: in `;TZID=` ++ name ++ `=` ++ middle ++ `:` ++ literal,
with no `:` in the middle part, the name looked up is name ++ `=` ++ middle. -/
theorem C15_only_colon_terminates (R : GoString → Except GoError Location)
    (name lit : GoString) (z : Option Location) (hname : ':' ∉ name) :
    parseTime R (";TZID=".toList ++ name ++ ':' :: lit) z
        = (match R name with
          | .error err => some (Time.zero, false, some err)
          | .ok loc => some (parseLiteral loc true lit)) ∧
      (∀ mid : GoString, ':' ∉ mid →
        parseTime R (";TZID=".toList ++ (name ++ '=' :: mid) ++ ':' :: lit) z
          = (match R (name ++ '=' :: mid) with
            | .error err => some (Time.zero, false, some err)
            | .ok loc => some (parseLiteral loc true lit))) := by
  refine ⟨?_, ?_⟩
  · have h := parseTime_annotated R [] name lit z
      (by simpa using Index_tzid_append [] (name ++ ':' :: lit) (by simp)) hname
    simpa using h
  · intro mid hmid
    have hn : ':' ∉ name ++ '=' :: mid := by
      simp only [List.mem_append, List.mem_cons, not_or]
      exact ⟨hname, by decide, hmid⟩
    have h := parseTime_annotated R [] (name ++ '=' :: mid) lit z
      (by simpa using Index_tzid_append [] ((name ++ '=' :: mid) ++ ':' :: lit) (by simp)) hn
    simpa using h

theorem C15_only_colon_terminates_witness :
    parseTime zoneinfo
        (";TZID=".toList ++ "Europe/Berlin".toList ++ ':' :: "20070902T090000".toList) none
      = some (parseLiteral berlin2007 true "20070902T090000".toList) ∧
    parseTime zoneinfo
        (";TZID=".toList ++ ("Europe/Berlin".toList ++ '=' :: "x".toList) ++
          ':' :: "20070902T090000".toList) none
      = some (Time.zero, false,
          some (.external ("unknown time zone ".toList ++
            ("Europe/Berlin".toList ++ '=' :: "x".toList)))) :=
  ⟨(C15_only_colon_terminates zoneinfo "Europe/Berlin".toList "20070902T090000".toList
      none (by decide)).1,
    (C15_only_colon_terminates zoneinfo "Europe/Berlin".toList "20070902T090000".toList
      none (by decide)).2 "x".toList (by decide)⟩

/-! ### C16: literals with a numeric offset -/

/-- C16 (the code departs from the claim): the literal `20071104T013000-0500` denotes
01:30:00 at UTC-05:00, that is 06:30 UTC.  With no default zone `parseTime` returns
that instant; with America/New_York as default zone, whose offset at that instant is
the written one, it returns 05:30 UTC, one hour earlier, because the first test of
the normalisation (same wall-clock hour one hour before) is applied to a literal
whose offset is explicit. -/
theorem C16_explicit_offset_shifted :
    (Date 2007 11 4 1 30 0 0 UTC).sec - (-18000) = 1194157800 ∧
      (newYork2007.lookup 1194157800).offset = -18000 ∧
      parseTime zoneinfo "20071104T013000-0500".toList none
        = some (⟨1194157800, 0, FixedZone [] (-18000)⟩, false, none) ∧
      parseTime zoneinfo "20071104T013000-0500".toList (some newYork2007)
        = some (⟨1194157800 - 3600, 0, newYork2007⟩, false, none) := by
  decide

/-! ### C17: the default zone under an annotation -/

/-- C17: when the text contains `;TZID=`, `parseTime` returns the same time, flag
and error (or panics alike) whatever the default zone is, under the same
resolver. -/
theorem C17_annotation_overrides_default (R : GoString → Except GoError Location)
    (str : GoString) (z1 z2 : Option Location) (h : ";TZID=".toList <:+: str) :
    parseTime R str z1 = parseTime R str z2 := by
  have hge : 0 ≤ strings.Index str ";TZID=".toList := by
    by_contra hn
    exact (Index_neg_iff _ _).mp (not_le.mp hn) h
  exact (parseTime_present R str z1 z2 hge).1

theorem C17_annotation_overrides_default_witness :
    parseTime zoneinfo "DTSTART;TZID=Europe/Berlin:20070902T090000".toList none
      = parseTime zoneinfo "DTSTART;TZID=Europe/Berlin:20070902T090000".toList
          (some newYork2007) ∧
    parseTime zoneinfo "DTSTART;TZID=Europe/Berlin:20070902T090000".toList none
      = some (⟨1188716400, 0, berlin2007⟩, false, none) :=
  ⟨C17_annotation_overrides_default zoneinfo
      "DTSTART;TZID=Europe/Berlin:20070902T090000".toList none (some newYork2007)
      (by
        by_contra hn
        have := (Index_neg_iff _ _).mpr hn
        revert this
        decide),
    by decide⟩

/-! ### C18: the split without annotation -/

/-- C18: for a text that contains no `;TZID=`, `parseTime` does not panic, and the
literal it parses (in the default zone, UTC when there is none) is the whole text when
the text holds neither `:` nor `=`, and otherwise what follows the first `:` or `=`.
Hence, when the text is `p ++ s ++ l` with `p` and `l` free of `:` and `=` and `s` one of
the two, `parseTime (p ++ s ++ l) z = parseTime l z`. -/
theorem C18_separator_split (R : GoString → Except GoError Location) (str : GoString)
    (z : Option Location) (hno : ¬ ";TZID=".toList <:+: str) :
    (parseTime R str z).isSome = true ∧
      ((∀ c ∈ str, c ≠ ':' ∧ c ≠ '=') →
        parseTime R str z = some (parseLiteral (z.getD UTC) false str)) ∧
      (∀ (p l : GoString) (s : Char), str = p ++ s :: l →
        (∀ c ∈ p, c ≠ ':' ∧ c ≠ '=') → (s = ':' ∨ s = '=') →
          parseTime R str z = some (parseLiteral (z.getD UTC) false l) ∧
            ((∀ c ∈ l, c ≠ ':' ∧ c ≠ '=') → parseTime R str z = parseTime R l z)) := by
  refine ⟨?_, parseTime_no_separator R str z hno, ?_⟩
  · rw [parseTime_absent R str z ((Index_neg_iff _ _).mpr hno)]
    rfl
  · intro p l s hstr hp hs
    subst hstr
    have h1 := parseTime_separator R p l s z hno hp hs
    refine ⟨h1, ?_⟩
    intro hl
    rw [h1, parseTime_no_separator R l z (not_tzid_of_no_eq (fun h => (hl _ h).2 rfl)) hl]

theorem C18_separator_split_witness :
    ¬ ";TZID=".toList <:+: "UNTIL=20070902T090000Z".toList ∧
      parseTime zoneinfo "UNTIL=20070902T090000Z".toList (some berlin2007)
        = some (parseLiteral berlin2007 false "20070902T090000Z".toList) ∧
      parseTime zoneinfo "UNTIL=20070902T090000Z".toList (some berlin2007)
        = parseTime zoneinfo "20070902T090000Z".toList (some berlin2007) ∧
      parseTime zoneinfo "20070902T090000Z".toList (some berlin2007)
        = some (⟨1188723600, 0, UTC⟩, false, none) :=
  have hno : ¬ ";TZID=".toList <:+: "UNTIL=20070902T090000Z".toList := by
    intro h
    have := (Index_neg_iff "UNTIL=20070902T090000Z".toList ";TZID=".toList).mp (by decide)
    exact this h
  ⟨hno,
    ((C18_separator_split zoneinfo "UNTIL=20070902T090000Z".toList (some berlin2007) hno).2.2
      "UNTIL".toList "20070902T090000Z".toList '=' rfl (by decide) (Or.inr rfl)).1,
    ((C18_separator_split zoneinfo "UNTIL=20070902T090000Z".toList (some berlin2007) hno).2.2
      "UNTIL".toList "20070902T090000Z".toList '=' rfl (by decide) (Or.inr rfl)).2 (by decide),
    by decide⟩

/-! ### C19: no default zone -/

/-- C19 (the code departs from the claim): `parseTime` with no default zone returns
what it returns with UTC as the default zone, as the claim says.  But the bare literal
`19970902T020000` is not read as UTC wall-clock time: the layout reads it as 02:00:00
UTC, and `parseTime` returns 03:00:00 UTC, reported as floating, because the literal is
in the 2am range and the hour is advanced without a look at the parsed hour. -/
theorem C19_bare_literal_advanced (R : GoString → Except GoError Location) :
    (∀ str : GoString, parseTime R str none = parseTime R str (some UTC)) ∧
      ParseInLocation rfc5545WithoutOffset "19970902T020000".toList UTC
        = .ok ⟨873165600, 0, UTC⟩ ∧
      Time.Hour ⟨873165600, 0, UTC⟩ = 2 ∧
      parseTime R "19970902T020000".toList none
        = some (⟨873169200, 0, UTC⟩, true, none) ∧
      Time.Hour ⟨873169200, 0, UTC⟩ = 3 :=
  ⟨fun _ => rfl, rfl, rfl, rfl, rfl⟩

end Rrule
